import Mathlib

/-!
# RuleSet (router/rules/rule_set.js)

A shallow embedding of the `RuleSet` class: the registry of route rules of one
routing scope.  JavaScript objects become records, the mutable fields of `this`
become an explicit state that every operation returns, and a thrown exception
becomes an `Except.error` paired with the state at the moment of the throw.

JavaScript strings are Lean strings; `s[0]` is the first character of `s` and
`s.substring(1)` is the rest.  The classes `RuleSet` instantiates (route paths,
handlers, rules) live in other files: a `new` of one of them is recorded as the
constructor call, taken to return normally, and what `RuleSet` reads from the
object is a parameter of the development (`Env`).
-/

namespace RuleSetModel

/-! ## Values and route definitions -/

/-- A JavaScript property that may be `undefined`, `null` or hold a value. -/
inductive Nullable (α : Type) where
  | undefined
  | null
  | value (a : α)
  deriving DecidableEq, Repr

/-- The facade function `isPresent`: neither `undefined` nor `null`. -/
def isPresent {α : Type} : Nullable α → Bool
  | .value _ => true
  | _ => false

/-- How a template string prints a nullable string property. -/
def render : Nullable String → String
  | .undefined => "undefined"
  | .null => "null"
  | .value s => s

/-- A JavaScript value that `RuleSet` only passes around (components, loaders,
data, redirect targets, serializers).  Of such a value the code asks at most
whether it is a function. -/
inductive Value where
  | undefined
  | null
  | fn (id : Nat)
  | object (id : Nat)
  deriving DecidableEq, Repr

/-- The facade function `isFunction`. -/
def isFunction : Value → Bool
  | .fn _ => true
  | _ => false

/-- The class of a route definition, as seen by `instanceof`.  `Plain` is an
object that is an instance of none of the four classes. -/
inductive Kind where
  | Route
  | AsyncRoute
  | AuxRoute
  | Redirect
  | Plain
  deriving DecidableEq, Repr

/-- A route definition: the properties `config` reads. -/
structure RouteDefinition where
  kind : Kind
  name : Nullable String
  path : Nullable String
  regex : Nullable String
  serializer : Value
  useAsDefault : Nullable Bool
  component : Value
  loader : Value
  data : Value
  redirectTo : Value
  deriving DecidableEq, Repr

/-! ## Rules -/

/-- The path matcher built by `_getRoutePath`: `new RegexRoutePath(regex,
serializer)` or `new ParamRoutePath(path)`. -/
inductive RoutePath where
  | RegexRoutePath (regex : String) (serializer : Value)
  | ParamRoutePath (path : String)
  deriving DecidableEq, Repr

/-- The handler built by `config`: `new SyncRouteHandler(component, data)` or
`new AsyncRouteHandler(loader, data)`. -/
inductive Handler where
  | SyncRouteHandler (component : Value) (data : Value)
  | AsyncRouteHandler (loader : Value) (data : Value)
  deriving DecidableEq, Repr

/-- A rule object, recorded as the constructor call that made it:
`new RouteRule(routePath, handler, name)` (the handler is absent when the
definition is of no known class) or `new RedirectRule(routePath, redirectTo)`. -/
inductive Rule where
  | RouteRule (routePath : RoutePath) (handler : Option Handler) (name : Nullable String)
  | RedirectRule (routePath : RoutePath) (redirectTo : Value)
  deriving DecidableEq, Repr

/-- The collaborators of `RuleSet` that live outside this file, taken as
parameters: the string method `toUpperCase`, `RoutePath.toString`, and the
properties `hash`, `path` and `terminal` of a rule object. -/
structure Env where
  toUpperCase : String → String
  routePathToString : RoutePath → String
  hash : Rule → String
  path : Rule → String
  terminal : Rule → Bool

/-! ## Maps -/

/-- A JavaScript `Map` with string keys, as its entries in insertion order. -/
abbrev JsMap (β : Type) := List (String × β)

/-- `Map.prototype.get`: the value of the entry with the given key, if any. -/
def JsMap.get {β : Type} : JsMap β → String → Option β
  | [], _ => none
  | (k, v) :: rest, key => if k = key then some v else JsMap.get rest key

/-- `Map.prototype.has`. -/
def JsMap.has {β : Type} (m : JsMap β) (key : String) : Bool :=
  (JsMap.get m key).isSome

/-- `Map.prototype.set`: replaces the value of an existing entry in place, and
otherwise appends a new entry. -/
def JsMap.set {β : Type} : JsMap β → String → β → JsMap β
  | [], key, val => [(key, val)]
  | (k, v) :: rest, key, val =>
    if k = key then (k, val) :: rest else (k, v) :: JsMap.set rest key val

/-- The keys of a map, in insertion order. -/
def JsMap.keys {β : Type} (m : JsMap β) : List String :=
  m.map Prod.fst

/-! ## The rule set -/

/-- The fields of a `RuleSet` object. -/
structure RuleSet where
  rulesByName : JsMap Rule
  auxRulesByName : JsMap Rule
  auxRulesByPath : JsMap Rule
  rules : List Rule
  defaultRule : Option Rule
  deriving DecidableEq, Repr

/-- The constructor: three empty maps, no rules, `defaultRule = null`. -/
def RuleSet.new : RuleSet :=
  { rulesByName := [], auxRulesByName := [], auxRulesByPath := [], rules := [],
    defaultRule := none }

/-- What a failing call throws: a `BaseException` with its message, or the
`TypeError` of calling a method on `undefined`. -/
inductive ConfigError where
  | BaseException (message : String)
  | TypeError
  deriving DecidableEq, Repr

/-- The method `_getRoutePath` (lines 131-148), for matcher constructors that
return: each constructor call is recorded as the matcher it makes.
`_getRoutePathWith` below takes the outcome of the constructors as a parameter. -/
def _getRoutePath (config : RouteDefinition) : Except ConfigError RoutePath :=
  match config.regex with
  | .value regex =>
    if isFunction config.serializer then
      .ok (.RegexRoutePath regex config.serializer)
    else
      .error (.BaseException
        ("Route provides a regex property, '" ++ regex ++ "', but no serializer property"))
  | _ =>
    match config.path with
    | .value p =>
      -- Auxiliary routes do not have a slash at the start
      let path :=
        match config.kind, p.data with
        | .AuxRoute, '/' :: rest => String.mk rest
        | _, _ => p
      .ok (.ParamRoutePath path)
    | _ => .error (.BaseException "Route must provide either a path or regex property")

/-- The loop of `_assertNoHashCollision` (lines 125-129): throws at the first
rule whose hash equals `hash`. -/
def assertNoHashCollisionLoop (env : Env) (hash : String) (path : Nullable String) :
    List Rule → Except ConfigError Unit
  | [] => .ok ()
  | rule :: rest =>
    if hash = env.hash rule then
      .error (.BaseException
        ("Configuration '" ++ render path ++ "' conflicts with existing route '"
          ++ env.path rule ++ "'"))
    else assertNoHashCollisionLoop env hash path rest

/-- The method `_assertNoHashCollision` (lines 124-130). -/
def _assertNoHashCollision (env : Env) (self : RuleSet) (hash : String)
    (path : Nullable String) : Except ConfigError Unit :=
  assertNoHashCollisionLoop env hash path self.rules

/-- The name check that opens `config` (lines 34-37): `none` when the check
passes, and otherwise what is thrown. -/
def checkName (env : Env) (config : RouteDefinition) : Option ConfigError :=
  match config.name with
  | .value name =>
    match name.data with
    | [] => some .TypeError
    | c :: rest =>
      let first := String.singleton c
      if env.toUpperCase first ≠ first then
        let suggestedName := env.toUpperCase first ++ String.mk rest
        some (.BaseException
          ("Route \"" ++ render config.path ++ "\" with name \"" ++ name
            ++ "\" does not begin with an uppercase letter. Route names should be CamelCase like \""
            ++ suggestedName ++ "\"."))
      else none
  | _ => none

/-- The handler `config` builds for a definition that is not a redirect
(lines 39, 57 and 61); it stays `undefined` for an object of no known class. -/
def handlerOf (config : RouteDefinition) : Option Handler :=
  match config.kind with
  | .AuxRoute => some (.SyncRouteHandler config.component config.data)
  | .Route => some (.SyncRouteHandler config.component config.data)
  | .AsyncRoute => some (.AsyncRouteHandler config.loader config.data)
  | _ => none

/-- The local `useAsDefault` of `config` (lines 48, 58 and 62). -/
def useAsDefaultOf (config : RouteDefinition) : Bool :=
  match config.kind with
  | .Route | .AsyncRoute =>
    (match config.useAsDefault with
     | .value b => b
     | _ => false)
  | _ => false

/-- The method `config` (lines 32-78).  Returns what the call returns or throws,
and the rule set as the call leaves it. -/
def config (env : Env) (self : RuleSet) (config : RouteDefinition) :
    Except ConfigError Bool × RuleSet :=
  match checkName env config with
  | some e => (.error e, self)
  | none =>
    if config.kind = .AuxRoute then
      match _getRoutePath config with
      | .error e => (.error e, self)
      | .ok routePath =>
        let auxRule := Rule.RouteRule routePath (handlerOf config) config.name
        let self1 :=
          { self with
            auxRulesByPath := self.auxRulesByPath.set (env.routePathToString routePath) auxRule }
        let self2 :=
          match config.name with
          | .value name => { self1 with auxRulesByName := self1.auxRulesByName.set name auxRule }
          | _ => self1
        (.ok (env.terminal auxRule), self2)
    else if config.kind = .Redirect then
      match _getRoutePath config with
      | .error e => (.error e, self)
      | .ok routePath =>
        let redirector := Rule.RedirectRule routePath config.redirectTo
        match _assertNoHashCollision env self (env.hash redirector) config.path with
        | .error e => (.error e, self)
        | .ok _ =>
          (.ok true, { self with rules := self.rules ++ [redirector] })
    else
      match _getRoutePath config with
      | .error e => (.error e, self)
      | .ok routePath =>
        let newRule := Rule.RouteRule routePath (handlerOf config) config.name
        match _assertNoHashCollision env self (env.hash newRule) config.path with
        | .error e => (.error e, self)
        | .ok _ =>
          let finish := fun (self1 : RuleSet) =>
            let self2 := { self1 with rules := self1.rules ++ [newRule] }
            let self3 :=
              match config.name with
              | .value name => { self2 with rulesByName := self2.rulesByName.set name newRule }
              | _ => self2
            (Except.ok (env.terminal newRule), self3)
          if useAsDefaultOf config then
            if self.defaultRule.isSome then
              (.error (.BaseException "Only one route can be default"), self)
            else finish { self with defaultRule := some newRule }
          else finish self

/-- The constructors of the two path matcher classes, which live outside this
file, taken as parameters: what the calls `new RegexRoutePath(regex, serializer)`
and `new ParamRoutePath(path)` throw, and `none` when the call returns the
matcher. -/
structure RoutePathCtors where
  newRegexRoutePath : String → Value → Option ConfigError
  newParamRoutePath : String → Option ConfigError

/-- The constructors that return on every argument. -/
def RoutePathCtors.returning : RoutePathCtors :=
  { newRegexRoutePath := fun _ _ => none
    newParamRoutePath := fun _ => none }

/-- The local `path` of `_getRoutePath` (lines 142-144): the path of the
definition, without its first character when the definition is an `AuxRoute`
and the path starts with "/". -/
def pathArgument (config : RouteDefinition) (p : String) : String :=
  match config.kind, p.data with
  | .AuxRoute, '/' :: rest => String.mk rest
  | _, _ => p

/-- The method `_getRoutePath` (lines 131-148), with the outcome of the two
constructor calls (lines 134 and 145) taken from `ctors`: a throw of the
constructor leaves `_getRoutePath` as it is thrown. -/
def _getRoutePathWith (ctors : RoutePathCtors) (config : RouteDefinition) :
    Except ConfigError RoutePath :=
  match config.regex with
  | .value regex =>
    if isFunction config.serializer then
      match ctors.newRegexRoutePath regex config.serializer with
      | some thrown => .error thrown
      | none => .ok (.RegexRoutePath regex config.serializer)
    else
      .error (.BaseException
        ("Route provides a regex property, '" ++ regex ++ "', but no serializer property"))
  | _ =>
    match config.path with
    | .value p =>
      -- Auxiliary routes do not have a slash at the start
      let path := pathArgument config p
      match ctors.newParamRoutePath path with
      | some thrown => .error thrown
      | none => .ok (.ParamRoutePath path)
    | _ => .error (.BaseException "Route must provide either a path or regex property")

/-- The method `config` (lines 32-78), with the outcome of the matcher
constructors that `_getRoutePath` calls taken from `ctors`.  Returns what the
call returns or throws, and the rule set as the call leaves it. -/
def configWith (ctors : RoutePathCtors) (env : Env) (self : RuleSet)
    (config : RouteDefinition) : Except ConfigError Bool × RuleSet :=
  match checkName env config with
  | some e => (.error e, self)
  | none =>
    if config.kind = .AuxRoute then
      match _getRoutePathWith ctors config with
      | .error e => (.error e, self)
      | .ok routePath =>
        let auxRule := Rule.RouteRule routePath (handlerOf config) config.name
        let self1 :=
          { self with
            auxRulesByPath := self.auxRulesByPath.set (env.routePathToString routePath) auxRule }
        let self2 :=
          match config.name with
          | .value name => { self1 with auxRulesByName := self1.auxRulesByName.set name auxRule }
          | _ => self1
        (.ok (env.terminal auxRule), self2)
    else if config.kind = .Redirect then
      match _getRoutePathWith ctors config with
      | .error e => (.error e, self)
      | .ok routePath =>
        let redirector := Rule.RedirectRule routePath config.redirectTo
        match _assertNoHashCollision env self (env.hash redirector) config.path with
        | .error e => (.error e, self)
        | .ok _ =>
          (.ok true, { self with rules := self.rules ++ [redirector] })
    else
      match _getRoutePathWith ctors config with
      | .error e => (.error e, self)
      | .ok routePath =>
        let newRule := Rule.RouteRule routePath (handlerOf config) config.name
        match _assertNoHashCollision env self (env.hash newRule) config.path with
        | .error e => (.error e, self)
        | .ok _ =>
          let finish := fun (self1 : RuleSet) =>
            let self2 := { self1 with rules := self1.rules ++ [newRule] }
            let self3 :=
              match config.name with
              | .value name => { self2 with rulesByName := self2.rulesByName.set name newRule }
              | _ => self2
            (Except.ok (env.terminal newRule), self3)
          if useAsDefaultOf config then
            if self.defaultRule.isSome then
              (.error (.BaseException "Only one route can be default"), self)
            else finish { self with defaultRule := some newRule }
          else finish self

/-- A sequence of `config` calls on one rule set, each call succeeding or
failing; a failure is caught by the caller and the next call goes on with the
rule set as the failed call left it. -/
def configAll (env : Env) : RuleSet → List RouteDefinition → RuleSet
  | self, [] => self
  | self, d :: ds => configAll env (config env self d).2 ds

/-! ## Recognition and the queries by name -/

/-- A parsed URL, as far as `RuleSet` reads it: its `path` string and its list
`auxiliary` of auxiliary URLs, which `RuleSet` counts and hands on without
looking inside. -/
structure Url where
  path : String
  auxiliary : List Value
  deriving DecidableEq, Repr

/-- The object `new PathMatch(a, b, c)`, recorded as the constructor call: in
the words of the spec, the consumed URL, the extracted parameters, and the
unconsumed auxiliary remainder. -/
structure PathMatch where
  consumed : Nullable Value
  params : Nullable Value
  remainingAux : List Value
  deriving DecidableEq, Repr

/-- A promise in a result of `RuleSet`: `PromiseWrapper.resolve(x)` with `x` null
or a `PathMatch`, or a promise handed out by a rule. -/
inductive Promise where
  | resolve (value : Option PathMatch)
  | ofRule (id : Nat)
  deriving DecidableEq, Repr

/-- The methods of rules and handlers that the queries of `RuleSet` call, taken
as parameters and taken to return normally where no error type is given:
`rule.recognize(url)` (null or a promise), `rule.generate(params)`,
`handler.componentType` and `handler.resolveComponentType()`. -/
structure RuleOps where
  recognize : Rule → Nullable Url → Option Promise
  generate : Rule → Value → Except ConfigError (Nullable Value)
  componentType : Handler → Nullable Value
  resolveComponentType : Handler → Value

/-- The property `handler` of a rule object: the second constructor argument of
a `RouteRule`; a `RedirectRule` has none. -/
def Rule.handler : Rule → Option Handler
  | .RouteRule _ handler _ => handler
  | .RedirectRule _ _ => none

/-- The `forEach` of `recognize` (lines 84-89): every rule is asked, in order,
and each result that is not null is pushed onto `solutions`. -/
def recognizeLoop (ops : RuleOps) (urlParse : Nullable Url) :
    List Rule → List Promise → List Promise
  | [], solutions => solutions
  | routeRecognizer :: rest, solutions =>
    match ops.recognize routeRecognizer urlParse with
    | some pathMatch => recognizeLoop ops urlParse rest (solutions ++ [pathMatch])
    | none => recognizeLoop ops urlParse rest solutions

/-- The method `recognize` (lines 82-95). -/
def recognize (ops : RuleOps) (self : RuleSet) (urlParse : Nullable Url) : List Promise :=
  let solutions := recognizeLoop ops urlParse self.rules []
  -- handle cases where we are routing just to an aux route
  match urlParse with
  | .value url =>
    if solutions.length = 0 ∧ url.auxiliary.length > 0 then
      [Promise.resolve (some (PathMatch.mk .null .null url.auxiliary))]
    else solutions
  | _ => solutions

/-- The method `recognizeAuxiliary` (lines 96-102).  Reading `urlParse.path` of
an absent URL is a `TypeError`; an entry of the result is what the rule
returned, which may be null. -/
def recognizeAuxiliary (ops : RuleOps) (self : RuleSet) (urlParse : Nullable Url) :
    Except ConfigError (List (Option Promise)) :=
  match urlParse with
  | .value url =>
    match JsMap.get self.auxRulesByPath url.path with
    | some routeRecognizer => .ok [ops.recognize routeRecognizer urlParse]
    | none => .ok [some (Promise.resolve none)]
  | _ => .error .TypeError

/-- The method `hasRoute` (line 103). -/
def hasRoute (self : RuleSet) (name : String) : Bool :=
  JsMap.has self.rulesByName name

/-- The method `componentLoaded` (lines 104-106).  Reading `componentType` of a
missing handler is a `TypeError`. -/
def componentLoaded (ops : RuleOps) (self : RuleSet) (name : String) :
    Except ConfigError Bool :=
  if hasRoute self name then
    match JsMap.get self.rulesByName name with
    | none => .error .TypeError
    | some rule =>
      match rule.handler with
      | none => .error .TypeError
      | some handler => .ok (isPresent (ops.componentType handler))
  else .ok false

/-- The method `loadComponent` (lines 107-109), with the rule set as the call
leaves it.  Reading `handler` of a missing rule, or calling a method of a
missing handler, is a `TypeError`. -/
def loadComponent (ops : RuleOps) (self : RuleSet) (name : String) :
    Except ConfigError Value × RuleSet :=
  match JsMap.get self.rulesByName name with
  | none => (.error .TypeError, self)
  | some rule =>
    match rule.handler with
    | none => (.error .TypeError, self)
    | some handler => (.ok (ops.resolveComponentType handler), self)

/-- The method `generate` (lines 110-116). -/
def generate (ops : RuleOps) (self : RuleSet) (name : String) (params : Value) :
    Except ConfigError (Nullable Value) :=
  match JsMap.get self.rulesByName name with
  | none => .ok .null
  | some rule => ops.generate rule params

/-- The method `generateAuxiliary` (lines 117-123). -/
def generateAuxiliary (ops : RuleOps) (self : RuleSet) (name : String) (params : Value) :
    Except ConfigError (Nullable Value) :=
  match JsMap.get self.auxRulesByName name with
  | none => .ok .null
  | some rule => ops.generate rule params

/-! ## Notions used in the statements -/

/-- The rule `config` builds from a definition and its path matcher: a
`RedirectRule` for a `Redirect` (line 51), a `RouteRule` otherwise (lines 41 and 65). -/
def ruleBuilt (d : RouteDefinition) (rp : RoutePath) : Rule :=
  if d.kind = .Redirect then .RedirectRule rp d.redirectTo
  else .RouteRule rp (handlerOf d) d.name

/-- The name map after registering a rule under a definition name, if present. -/
def registerByName (m : JsMap Rule) (name : Nullable String) (rule : Rule) : JsMap Rule :=
  match name with
  | .value n => JsMap.set m n rule
  | _ => m

/-- No two rules of the primary sequence have the same hash. -/
def HashesDistinct (env : Env) (rules : List Rule) : Prop :=
  (rules.map env.hash).Nodup

/-- A name that passes the check of `config`: it is not empty and uppercasing
its first character gives that character back. -/
def NamePasses (env : Env) (name : String) : Prop :=
  ∃ c rest, name.data = c :: rest ∧ env.toUpperCase (String.singleton c) = String.singleton c

/-- Every name registered in the rule set passes the check of `config`. -/
def NamesPass (env : Env) (self : RuleSet) : Prop :=
  (∀ k ∈ JsMap.keys self.rulesByName, NamePasses env k) ∧
    (∀ k ∈ JsMap.keys self.auxRulesByName, NamePasses env k)

/-- The call `config` of `d` on `self` succeeds and registers `name` in
`rulesByName`: `d` is neither an `AuxRoute` nor a `Redirect` and carries the name. -/
def Registers (env : Env) (self : RuleSet) (d : RouteDefinition) (name : String) : Prop :=
  d.kind ≠ .AuxRoute ∧ d.kind ≠ .Redirect ∧ d.name = .value name ∧
    ∃ b s, config env self d = (.ok b, s)

/-- The call `config` of `d` on `self` succeeds and registers `name` in
`auxRulesByName`: `d` is an `AuxRoute` and carries the name. -/
def RegistersAux (env : Env) (self : RuleSet) (d : RouteDefinition) (name : String) : Prop :=
  d.kind = .AuxRoute ∧ d.name = .value name ∧ ∃ b s, config env self d = (.ok b, s)

/-! ## A concrete instance of the collaborators -/

/-- Uppercasing of the ASCII letters of a string, as `toUpperCase` does on them. -/
def asciiToUpperCase (s : String) : String :=
  String.mk (s.data.map Char.toUpper)

/-- The source text of a path matcher: the regex or the path it was built from. -/
def RoutePath.source : RoutePath → String
  | .RegexRoutePath regex _ => regex
  | .ParamRoutePath path => path

/-- The path matcher a rule was built from. -/
def Rule.routePath : Rule → RoutePath
  | .RouteRule routePath _ _ => routePath
  | .RedirectRule routePath _ => routePath

/-- An instance of the collaborators on which the operations can be evaluated:
a rule takes its hash and its path from the source text of its path matcher, and
every rule is terminal. -/
def sampleEnv : Env :=
  { toUpperCase := asciiToUpperCase
    routePathToString := RoutePath.source
    hash := fun rule => rule.routePath.source
    path := fun rule => rule.routePath.source
    terminal := fun _ => true }

/-- A `Route` definition with a path and a name and nothing else. -/
def sampleRoute (path : String) (name : Nullable String) : RouteDefinition :=
  { kind := .Route, name := name, path := .value path, regex := .undefined,
    serializer := .undefined, useAsDefault := .undefined, component := .object 0,
    loader := .undefined, data := .undefined, redirectTo := .undefined }

/-- A `Redirect` definition with a path and nothing else but its target. -/
def sampleRedirect (path : String) : RouteDefinition :=
  { kind := .Redirect, name := .undefined, path := .value path, regex := .undefined,
    serializer := .undefined, useAsDefault := .undefined, component := .undefined,
    loader := .undefined, data := .undefined, redirectTo := .object 1 }

/-- A `Route` definition with a path, marked as the default route. -/
def sampleDefaultRoute (path : String) : RouteDefinition :=
  { sampleRoute path .undefined with useAsDefault := .value true }

/-- A `Route` definition that supplies a path and also a regex with a serializer
function. -/
def sampleRouteWithBoth : RouteDefinition :=
  { sampleRoute "/a" .undefined with regex := .value "^a$", serializer := .fn 0 }

/-- A `Redirect` definition that also carries a name and `useAsDefault`. -/
def sampleNamedRedirect : RouteDefinition :=
  { sampleRedirect "/old" with name := .value "Old", useAsDefault := .value true }

/-- An `AuxRoute` definition with a path and a name. -/
def sampleAuxRoute (path : String) (name : Nullable String) : RouteDefinition :=
  { sampleRoute path name with kind := .AuxRoute }

/-- The sample collaborators, but with no rule terminal. -/
def sampleEnvNonTerminal : Env :=
  { sampleEnv with terminal := fun _ => false }

/-- The rule set after configuring the route "/a" named "A" on the empty one. -/
def sampleSetA : RuleSet :=
  configAll sampleEnv RuleSet.new [sampleRoute "/a" (.value "A")]

/-- A `Route` definition with the path "/b", the name "B", marked as default. -/
def sampleDefaultNamedB : RouteDefinition :=
  { sampleRoute "/b" (.value "B") with useAsDefault := .value true }

/-- A `Route` definition with a regex but no serializer. -/
def sampleRegexOnly : RouteDefinition :=
  { sampleRoute "/a" .undefined with path := .undefined, regex := .value "^a$" }

/-- An instance of the rule methods on which the queries can be evaluated: a
rule recognizes the URLs whose path begins with the source text of its matcher,
with a promise numbered by the length of that text; it generates the object 9;
a synchronous handler has its component as `componentType`, an asynchronous one
has none yet; resolving gives the object 8. -/
def sampleOps : RuleOps :=
  { recognize := fun rule urlParse =>
      match urlParse with
      | .value url =>
        if rule.routePath.source.data.isPrefixOf url.path.data then
          some (Promise.ofRule rule.routePath.source.data.length)
        else none
      | _ => none
    generate := fun _ _ => .ok (.value (.object 9))
    componentType := fun handler =>
      match handler with
      | .SyncRouteHandler component _ => .value component
      | .AsyncRouteHandler _ _ => .null
    resolveComponentType := fun _ => .object 8 }

/-- The rule of the route "/a" named "A" of the samples. -/
def sampleRuleA : Rule :=
  .RouteRule (.ParamRoutePath "/a") (some (.SyncRouteHandler (.object 0) .undefined))
    (.value "A")

/-- An `AsyncRoute` definition with a path and a name. -/
def sampleAsyncRoute (path : String) (name : Nullable String) : RouteDefinition :=
  { sampleRoute path name with kind := .AsyncRoute, component := .undefined, loader := .fn 2 }

/-- The rule set with the routes "/a", "/b" and the asynchronous route "/a/b", in
this order, and the auxiliary route "side". -/
def sampleSetThree : RuleSet :=
  configAll sampleEnv RuleSet.new
    [sampleRoute "/a" (.value "A"), sampleRoute "/b" (.value "B"),
      sampleAsyncRoute "/a/b" (.value "AB"), sampleAuxRoute "/side" (.value "Side")]

/-- A `Route` definition with the path "/b2", the name "B" again, marked as default. -/
def sampleDefaultNamedB2 : RouteDefinition :=
  { sampleRoute "/b2" (.value "B") with useAsDefault := .value true }

/-- Whether a text contains two slashes in a row. -/
def hasDoubleSlash : List Char → Bool
  | [] => false
  | [_] => false
  | c :: d :: rest => (c == '/' && d == '/') || hasDoubleSlash (d :: rest)

/-- An instance of the matcher constructors on which the operations can be
evaluated: `new ParamRoutePath(path)` throws a `BaseException` on a path that
contains "//", and every other call returns. -/
def sampleCtors : RoutePathCtors :=
  { newRegexRoutePath := fun _ _ => none
    newParamRoutePath := fun path =>
      if hasDoubleSlash path.data then
        some (.BaseException
          ("Path \"" ++ path ++ "\" contains \"//\" which is not allowed in a route config."))
      else none }

end RuleSetModel

/-!
# i18n partitioning and messages (i18n/shared.js)

A shallow embedding of `partition`, of `meaning` and `description`, of
`messageFromAttribute`, `removeInterpolation` and `stringifyNodes`.  The nodes are the HTML syntax trees of
the compiler (its classes live in another file; a node is recorded with the
properties this file reads).  An array read `nodes[i]` gives a node, or
`undefined` past the end of the array.  The `while` loop of `partition` has no
bound of its own, so the loops take fuel: `none` means the fuel ran out.
-/

namespace I18nShared

open RuleSetModel (Nullable isPresent)

/-- A source span; only its identity matters here. -/
structure ParseSourceSpan where
  id : Nat
  deriving DecidableEq, Repr

/-- An attribute of an element: `HtmlAttrAst`. -/
structure HtmlAttrAst where
  name : String
  value : String
  sourceSpan : ParseSourceSpan
  deriving DecidableEq, Repr

/-- A node: `HtmlElementAst`, `HtmlTextAst` or `HtmlCommentAst`. -/
inductive HtmlAst where
  | HtmlElementAst (name : String) (attrs : List HtmlAttrAst) (children : List HtmlAst)
      (sourceSpan : ParseSourceSpan)
  | HtmlTextAst (value : String) (sourceSpan : ParseSourceSpan)
  | HtmlCommentAst (value : Nullable String) (sourceSpan : ParseSourceSpan)

/-- The property `sourceSpan` of a node. -/
def HtmlAst.sourceSpan : HtmlAst → ParseSourceSpan
  | .HtmlElementAst _ _ _ sourceSpan => sourceSpan
  | .HtmlTextAst _ sourceSpan => sourceSpan
  | .HtmlCommentAst _ sourceSpan => sourceSpan

/-- The constant `I18N_ATTR` (line 5). -/
def I18N_ATTR : String := "i18n"

/-- The class `I18nError` (lines 10-14): a span and a message. -/
structure I18nError where
  span : ParseSourceSpan
  msg : String
  deriving DecidableEq, Repr

/-- The class `Part` (lines 43-50).  `none` is `null`; a slot of `children`
holds a node or `undefined`. -/
structure Part where
  rootElement : Option HtmlAst
  rootTextNode : Option HtmlAst
  children : Option (List (Option HtmlAst))
  i18n : Option String
  hasI18n : Bool

/-- The string methods whose result depends on the Unicode tables of the
engine, taken as parameters: `trim`. -/
structure StringOps where
  trim : String → String

/-- The function `_isOpeningComment` (lines 63-65). -/
def _isOpeningComment : HtmlAst → Bool
  | .HtmlCommentAst (.value value) _ => "i18n:".data.isPrefixOf value.data
  | _ => false

/-- The function `_isClosingComment` (lines 66-68), on what `nodes[i]` gives:
`undefined` is an instance of no class. -/
def _isClosingComment : Option HtmlAst → Bool
  | some (.HtmlCommentAst (.value value) _) => value == "/i18n"
  | _ => false

/-- The function `_findI18nAttr` (lines 69-72). -/
def _findI18nAttr (attrs : List HtmlAttrAst) : Option HtmlAttrAst :=
  match attrs.filter (fun a => a.name == I18N_ATTR) with
  | [] => none
  | a :: _ => some a

/-- The `while` loop of `partition` (lines 24-30), from the index `i` on, with
`span` the span of the opening comment.  Returns the index, `temp` and the
errors at the exit of the loop. -/
def partitionWhile (nodes : List HtmlAst) (span : ParseSourceSpan) :
    Nat → Nat → List (Option HtmlAst) → List I18nError →
      Option (Nat × List (Option HtmlAst) × List I18nError)
  | 0, _, _, _ => none
  | fuel + 1, i, temp, errors =>
    if _isClosingComment nodes[i]? then some (i, temp, errors)
    else
      let temp1 := temp ++ [nodes[i]?]
      let i1 := i + 1
      if i1 = nodes.length then
        some (i1, temp1, errors ++ [I18nError.mk span "Missing closing 'i18n' comment."])
      else partitionWhile nodes span fuel i1 temp1 errors

/-- The `for` loop of `partition` (lines 18-40), from the index `i` on.  The
loop ends when `i < nodes.length` fails, that is when `nodes[i]` is past the end.
The branches are those of the source, in its order: an opening comment (only a
comment with a value is one), an element, a text; any other node is passed over. -/
def partitionFor (ops : StringOps) (nodes : List HtmlAst) :
    Nat → Nat → List Part → List I18nError → Option (List Part × List I18nError)
  | 0, _, _, _ => none
  | fuel + 1, i, res, errors =>
    match nodes[i]? with
    | none => some (res, errors)
    | some n =>
      match n, _isOpeningComment n with
      | .HtmlCommentAst (.value value) sourceSpan, true =>
        let i18n := ops.trim (String.mk (value.data.drop 5))
        match partitionWhile nodes sourceSpan fuel (i + 1) [] errors with
        | none => none
        | some (i1, temp, errors1) =>
          partitionFor ops nodes fuel (i1 + 1)
            (res ++ [Part.mk none none (some temp) (some i18n) true]) errors1
      | .HtmlElementAst _ attrs children _, _ =>
        let i18n := _findI18nAttr attrs
        partitionFor ops nodes fuel (i + 1)
          (res ++ [Part.mk (some n) none (some (children.map some))
            (i18n.map (fun a => a.value)) i18n.isSome]) errors
      | .HtmlTextAst _ _, _ =>
        partitionFor ops nodes fuel (i + 1) (res ++ [Part.mk none (some n) none none false])
          errors
      | .HtmlCommentAst _ _, _ => partitionFor ops nodes fuel (i + 1) res errors

/-- The function `partition` (lines 16-42): the parts, and the error collector
as the call leaves it. -/
def partition (ops : StringOps) (fuel : Nat) (nodes : List HtmlAst) (errors : List I18nError) :
    Option (List Part × List I18nError) :=
  partitionFor ops nodes fuel 0 [] errors

/-! ## Meaning, description and messages -/

/-- The loop of `s.split(sep)` for a separator `sep` of one character, with
`current` the piece being read, in reverse: the pieces of the string between
the occurrences of the separator. -/
def splitLoop (sep : Char) : List Char → List Char → List (List Char)
  | [], current => [current.reverse]
  | c :: cs, current =>
    if c = sep then current.reverse :: splitLoop sep cs []
    else splitLoop sep cs (c :: current)

/-- The string method `s.split(sep)` for a separator of one character. -/
def split (s : String) (sep : Char) : List String :=
  (splitLoop sep s.data []).map String.mk

/-- The function `meaning` (lines 73-77).  A blank argument is `undefined` or
`null`; the result `none` is `null`. -/
def meaning (i18n : Nullable String) : Option String :=
  match i18n with
  | .value s => if s == "" then none else (split s '|')[0]?
  | _ => none

/-- The function `description` (lines 78-83). -/
def description (i18n : Nullable String) : Option String :=
  match i18n with
  | .value s =>
    if s == "" then none
    else
      let parts := split s '|'
      if parts.length > 1 then parts[1]? else none
  | _ => none

/-- The object `new Message(content, meaning, description)`, recorded as the
constructor call. -/
structure Message where
  content : String
  meaning : Option String
  description : Option String
  deriving DecidableEq, Repr

/-- The collaborators of `removeInterpolation`, taken as parameters:
`source.toString()` and `parser.splitInterpolation(value, location)`, which
throws, or returns null, or returns an object whose `strings` are given. -/
structure Parser where
  spanToString : ParseSourceSpan → String
  splitInterpolation : String → String → Except String (Option (List String))

/-- The `for` loop of `removeInterpolation` (lines 100-105), at the index `i`,
with the strings from `i` on and `length` the number of all strings. -/
def removeInterpolationFor (length : Nat) : List String → Nat → String → String
  | [], _, res => res
  | s :: rest, i, res =>
    let res1 := res ++ s
    let res2 := if i ≠ length - 1 then res1 ++ ("<ph name=\"" ++ toString i ++ "\"/>") else res1
    removeInterpolationFor length rest (i + 1) res2

/-- The function `removeInterpolation` (lines 95-115). -/
def removeInterpolation (value : String) (source : ParseSourceSpan) (parser : Parser) :
    String :=
  match parser.splitInterpolation value (parser.spanToString source) with
  | .ok (some strings) => removeInterpolationFor strings.length strings 0 ""
  | .ok none => value
  | .error _ => value

/-- What `messageFromAttribute` throws: an `I18nError`, or the `TypeError` of
reading `attrs` of a node that has none. -/
inductive Thrown where
  | I18nError (error : I18nError)
  | TypeError
  deriving DecidableEq, Repr

/-- The function `messageFromAttribute` (lines 84-94). -/
def messageFromAttribute (parser : Parser) (p : HtmlAst) (attr : HtmlAttrAst) :
    Except Thrown Message :=
  match p with
  | .HtmlElementAst _ attrs _ sourceSpan =>
    let expectedName := String.mk (attr.name.data.drop 5)
    let matching := attrs.filter (fun a => a.name == expectedName)
    match matching with
    | first :: _ =>
      let value := removeInterpolation first.value first.sourceSpan parser
      .ok (Message.mk value (meaning (.value attr.value)) (description (.value attr.value)))
    | [] =>
      .error (.I18nError (I18nError.mk sourceSpan ("Missing attribute '" ++ expectedName ++ "'.")))
  | _ => .error .TypeError

/-- The getter `sourceSpan` of `Part` (lines 51-58).  Reading `sourceSpan` of
`children[0]` when that is `undefined`, or indexing `children` when it is null,
is a `TypeError`. -/
def Part.sourceSpan (self : Part) : Except Thrown ParseSourceSpan :=
  match self.rootElement with
  | some rootElement => .ok rootElement.sourceSpan
  | none =>
    match self.rootTextNode with
    | some rootTextNode => .ok rootTextNode.sourceSpan
    | none =>
      match self.children with
      | some (some first :: _) => .ok first.sourceSpan
      | _ => .error .TypeError

/-! ## Stringification -/

/-- The array method `strs.join(sep)` on strings. -/
def join (sep : String) : List String → String
  | [] => ""
  | [s] => s
  | s :: rest => s ++ sep ++ join sep rest

/-- The method `_join` of the visitor (lines 142-144). -/
def _join (strs : List String) (str : String) : String :=
  join str (strs.filter (fun s => s.length > 0))

mutual
/-- The methods `visitElement`, `visitText` and `visitComment` of
`_StringifyVisitor` (lines 125-141), chosen by the class of the node, with the
counter `_index` before the visit; they give the string and the counter after
the visit. -/
def visit (parser : Parser) : HtmlAst → Nat → String × Nat
  | .HtmlElementAst _ _ children _, index =>
    let name := index
    let visited := htmlVisitAll parser children (index + 1)
    let joined := _join visited.1 ""
    ("<ph name=\"e" ++ toString name ++ "\">" ++ joined ++ "</ph>", visited.2)
  | .HtmlTextAst value sourceSpan, index =>
    let noInterpolation := removeInterpolation value sourceSpan parser
    if noInterpolation ≠ value then
      ("<ph name=\"t" ++ toString index ++ "\">" ++ noInterpolation ++ "</ph>", index + 1)
    else (value, index + 1)
  | .HtmlCommentAst _ _, index => ("", index)
/-- Modelled from the spec: `htmlVisitAll` of the compiler, which is not in this
file.  It visits the nodes from left to right, each by the method of the
visitor for its class, and collects the results in order. -/
def htmlVisitAll (parser : Parser) : List HtmlAst → Nat → List String × Nat
  | [], index => ([], index)
  | ast :: asts, index =>
    let first := visit parser ast index
    let others := htmlVisitAll parser asts first.2
    (first.1 :: others.1, others.2)
end

/-- The function `stringifyNodes` (lines 116-119): a new visitor, with its
counter at 0, visits the nodes. -/
def stringifyNodes (nodes : List HtmlAst) (parser : Parser) : String :=
  join "" (htmlVisitAll parser nodes 0).1

/-! ## Notions used in the statements on `partition` -/

/-- The Part that the spec gives for a node outside marker comments: for an
element, the element, its children, the value of its first attribute named
"i18n" if there is one, and whether there is one; for a text node, the node
alone; for a comment, none. -/
def specPartOf : HtmlAst → Option Part
  | .HtmlElementAst name attrs children sourceSpan =>
    some (Part.mk (some (.HtmlElementAst name attrs children sourceSpan)) none
      (some (children.map some))
      ((attrs.find? (fun a => a.name == "i18n")).map (fun a => a.value))
      (attrs.any (fun a => a.name == "i18n")))
  | .HtmlTextAst value sourceSpan =>
    some (Part.mk none (some (.HtmlTextAst value sourceSpan)) none none false)
  | .HtmlCommentAst _ _ => none

/-- The result that the spec gives for literal strings `s0, ..., sk`: the
strings in order, with a placeholder between each two of them, numbered from `i`
on, and none after the last. -/
def specInterleave : Nat → List String → String
  | _, [] => ""
  | _, [s] => s
  | i, s :: rest => s ++ ("<ph name=\"" ++ toString i ++ "\"/>") ++ specInterleave (i + 1) rest

mutual
/-- The element and text nodes of a tree, in depth-first, left-to-right
pre-order; comments are left out. -/
def preorderOf : HtmlAst → List HtmlAst
  | .HtmlElementAst name attrs children sourceSpan =>
    .HtmlElementAst name attrs children sourceSpan :: preorderAll children
  | .HtmlTextAst value sourceSpan => [.HtmlTextAst value sourceSpan]
  | .HtmlCommentAst _ _ => []
/-- The element and text nodes of a list of trees, in pre-order. -/
def preorderAll : List HtmlAst → List HtmlAst
  | [] => []
  | ast :: asts => preorderOf ast ++ preorderAll asts
end

mutual
/-- The rendering that the spec gives to a node whose place in the pre-order is
`k`: an element is the placeholder `e{k}` around the joined renderings of its
children, whose places start at `k + 1`; a text with interpolation is the
placeholder `t{k}` around its text without the interpolation; another text is
itself; a comment is empty. -/
def specRender (parser : Parser) (k : Nat) : HtmlAst → String
  | .HtmlElementAst _ _ children _ =>
    "<ph name=\"e" ++ toString k ++ "\">" ++ _join (specRenderAll parser (k + 1) children) ""
      ++ "</ph>"
  | .HtmlTextAst value sourceSpan =>
    if removeInterpolation value sourceSpan parser ≠ value then
      "<ph name=\"t" ++ toString k ++ "\">" ++ removeInterpolation value sourceSpan parser
        ++ "</ph>"
    else value
  | .HtmlCommentAst _ _ => ""
/-- The renderings of a list of nodes, the first of whose element and text nodes
has the place `k` in the pre-order: each node is rendered at the place that
follows the element and text nodes before it. -/
def specRenderAll (parser : Parser) (k : Nat) : List HtmlAst → List String
  | [] => []
  | ast :: asts =>
    specRender parser k ast :: specRenderAll parser (k + (preorderOf ast).length) asts
end

mutual
/-- A node without the comments in it, at every depth: nothing for a comment. -/
def stripComment : HtmlAst → List HtmlAst
  | .HtmlElementAst name attrs children sourceSpan =>
    [.HtmlElementAst name attrs (stripComments children) sourceSpan]
  | .HtmlTextAst value sourceSpan => [.HtmlTextAst value sourceSpan]
  | .HtmlCommentAst _ _ => []
/-- A list of nodes without the comments in it, at every depth. -/
def stripComments : List HtmlAst → List HtmlAst
  | [] => []
  | ast :: asts => stripComment ast ++ stripComments asts
end

/-- The last node of the list, if there is one, is no opening comment. -/
def LastNotOpening (nodes : List HtmlAst) : Prop :=
  ∀ n, nodes.getLast? = some n → _isOpeningComment n = false

/-- Every slot of the children of the part holds a node, none is `undefined`;
and when the part is a run between marker comments (no root element, no root
text node) every slot holds a node that lies at an index inside the list. -/
def ChildrenInside (nodes : List HtmlAst) (part : Part) : Prop :=
  ∀ slots, part.children = some slots →
    (∀ slot ∈ slots, slot ≠ none) ∧
      (part.rootElement = none → part.rootTextNode = none →
        ∀ slot ∈ slots, ∃ i, i < nodes.length ∧ nodes[i]? = slot)

/-! ## A concrete instance of the string methods -/

/-- Trimming of the ASCII whitespace at both ends of a string, as `trim` does
with it. -/
def asciiTrim (s : String) : String :=
  String.mk ((s.data.dropWhile Char.isWhitespace).reverse.dropWhile Char.isWhitespace).reverse

/-- The string methods with ASCII trimming. -/
def sampleStringOps : StringOps :=
  { trim := asciiTrim }

/-- The comment node `Comment(value)` of the examples. -/
def sampleComment (value : String) : HtmlAst :=
  .HtmlCommentAst (.value value) { id := 0 }

/-- The text node `Text(value)` of the examples. -/
def sampleText (value : String) : HtmlAst :=
  .HtmlTextAst value { id := 1 }

/-- The element node `<name attrs>children</name>` of the examples. -/
def sampleElement (name : String) (attrs : List HtmlAttrAst) (children : List HtmlAst) :
    HtmlAst :=
  .HtmlElementAst name attrs children { id := 2 }

/-- The attribute `name="value"` of the examples. -/
def sampleAttr (name value : String) : HtmlAttrAst :=
  { name := name, value := value, sourceSpan := { id := 3 } }

/-- A splitter on which `removeInterpolation` can be evaluated: it knows three
texts with interpolation, fails on an unterminated one, and returns null on any
other text. -/
def sampleParser : Parser :=
  { spanToString := fun span => toString span.id
    splitInterpolation := fun value _ =>
      if value = "Hello \x7b\x7bname\x7d\x7d!" then .ok (some ["Hello ", "!"])
      else if value = "\x7b\x7ba\x7d\x7d and \x7b\x7bb\x7d\x7d" then .ok (some ["", " and ", ""])
      else if value = "none" then .ok (some [])
      else if value = "bad \x7b\x7b" then .error "unterminated"
      else .ok none }

end I18nShared

namespace RuleSetModel

/-! ## Lemmas on maps -/

theorem JsMap.get_set_self {β : Type} (m : JsMap β) (key : String) (val : β) :
    JsMap.get (JsMap.set m key val) key = some val := by
  induction m with
  | nil => simp [JsMap.set, JsMap.get]
  | cons e rest ih =>
    obtain ⟨k, v⟩ := e
    by_cases hk : k = key
    · simp [JsMap.set, JsMap.get, hk]
    · simp [JsMap.set, JsMap.get, hk, ih]

theorem JsMap.get_set_other {β : Type} (m : JsMap β) (key other : String) (val : β)
    (hne : other ≠ key) :
    JsMap.get (JsMap.set m key val) other = JsMap.get m other := by
  induction m with
  | nil => simp [JsMap.set, JsMap.get, Ne.symm hne]
  | cons e rest ih =>
    obtain ⟨k, v⟩ := e
    by_cases hk : k = key
    · subst hk
      simp [JsMap.set, JsMap.get, Ne.symm hne]
    · by_cases hko : k = other
      · subst hko
        simp [JsMap.set, JsMap.get, hk]
      · simp [JsMap.set, JsMap.get, hk, hko, ih]

theorem JsMap.mem_keys_set {β : Type} (m : JsMap β) (key k : String) (val : β)
    (hk : k ∈ JsMap.keys (JsMap.set m key val)) : k = key ∨ k ∈ JsMap.keys m := by
  induction m with
  | nil =>
    simp [JsMap.set, JsMap.keys] at hk
    exact Or.inl hk
  | cons e rest ih =>
    obtain ⟨k0, v0⟩ := e
    by_cases h0 : k0 = key
    · simp [JsMap.set, JsMap.keys, h0] at hk ⊢
      exact hk
    · simp only [JsMap.set, h0, if_false, JsMap.keys, List.map_cons, List.mem_cons] at hk ⊢
      rcases hk with hk | hk
      · exact Or.inr (Or.inl hk)
      · rcases ih hk with h | h
        · exact Or.inl h
        · exact Or.inr (Or.inr h)

/-! ## Lemmas on the collision check -/

theorem assertNoHashCollisionLoop_ok_iff (env : Env) (hash : String) (path : Nullable String)
    (rules : List Rule) :
    assertNoHashCollisionLoop env hash path rules = .ok () ↔
      ∀ r ∈ rules, env.hash r ≠ hash := by
  induction rules with
  | nil => simp [assertNoHashCollisionLoop]
  | cons rule rest ih =>
    by_cases h : hash = env.hash rule
    · simp [assertNoHashCollisionLoop, h]
    · simp [assertNoHashCollisionLoop, h, ih, Ne.symm h]

theorem assertNoHashCollisionLoop_error (env : Env) (hash : String) (path : Nullable String)
    (rules : List Rule) (hex : ∃ r ∈ rules, env.hash r = hash) :
    ∃ r ∈ rules, env.hash r = hash ∧
      assertNoHashCollisionLoop env hash path rules =
        .error (.BaseException
          ("Configuration '" ++ render path ++ "' conflicts with existing route '"
            ++ env.path r ++ "'")) := by
  induction rules with
  | nil => simp at hex
  | cons rule rest ih =>
    by_cases h : hash = env.hash rule
    · exact ⟨rule, List.mem_cons_self _ _, h.symm, by simp [assertNoHashCollisionLoop, h]⟩
    · obtain ⟨r, hr, hrh⟩ := hex
      have hr2 : r ∈ rest := by
        rcases List.mem_cons.mp hr with e | e
        · exact absurd (e ▸ hrh).symm h
        · exact e
      obtain ⟨r2, hm, hh, heq⟩ := ih ⟨r, hr2, hrh⟩
      exact ⟨r2, List.mem_cons_of_mem _ hm, hh, by simp [assertNoHashCollisionLoop, h, heq]⟩

theorem assertNoHashCollisionLoop_error_form (env : Env) (hash : String)
    (path : Nullable String) (rules : List Rule) (e : ConfigError)
    (herr : assertNoHashCollisionLoop env hash path rules = .error e) :
    ∃ r ∈ rules, env.hash r = hash ∧
      e = .BaseException
        ("Configuration '" ++ render path ++ "' conflicts with existing route '"
          ++ env.path r ++ "'") := by
  induction rules with
  | nil => simp [assertNoHashCollisionLoop] at herr
  | cons rule rest ih =>
    by_cases h : hash = env.hash rule
    · simp [assertNoHashCollisionLoop, h] at herr
      exact ⟨rule, List.mem_cons_self _ _, h.symm, herr.symm⟩
    · simp [assertNoHashCollisionLoop, h] at herr
      obtain ⟨r, hr, hh, he⟩ := ih herr
      exact ⟨r, List.mem_cons_of_mem _ hr, hh, he⟩

/-! ## The outcomes of `config`, path by path -/

theorem config_of_checkName_error (env : Env) (self : RuleSet) (d : RouteDefinition)
    (e : ConfigError) (hn : checkName env d = some e) :
    config env self d = (.error e, self) := by
  simp [config, hn]

theorem config_of_getRoutePath_error (env : Env) (self : RuleSet) (d : RouteDefinition)
    (e : ConfigError) (hn : checkName env d = none) (hp : _getRoutePath d = .error e) :
    config env self d = (.error e, self) := by
  by_cases hA : d.kind = .AuxRoute
  · simp [config, hn, hA, hp]
  · by_cases hR : d.kind = .Redirect
    · simp [config, hn, hR, hp]
    · simp [config, hn, hA, hR, hp]

theorem config_of_aux (env : Env) (self : RuleSet) (d : RouteDefinition) (rp : RoutePath)
    (hn : checkName env d = none) (hA : d.kind = .AuxRoute) (hp : _getRoutePath d = .ok rp) :
    config env self d =
      (.ok (env.terminal (.RouteRule rp (handlerOf d) d.name)),
        { self with
          auxRulesByPath :=
            JsMap.set self.auxRulesByPath (env.routePathToString rp)
              (.RouteRule rp (handlerOf d) d.name)
          auxRulesByName :=
            registerByName self.auxRulesByName d.name (.RouteRule rp (handlerOf d) d.name) }) := by
  cases hname : d.name <;> simp [config, hn, hA, hp, hname, registerByName]

theorem config_of_redirect_collision (env : Env) (self : RuleSet) (d : RouteDefinition)
    (rp : RoutePath) (e : ConfigError)
    (hn : checkName env d = none) (hR : d.kind = .Redirect) (hp : _getRoutePath d = .ok rp)
    (hc : assertNoHashCollisionLoop env (env.hash (.RedirectRule rp d.redirectTo)) d.path
      self.rules = .error e) :
    config env self d = (.error e, self) := by
  simp [config, hn, hR, hp, _assertNoHashCollision, hc]

theorem config_of_redirect_ok (env : Env) (self : RuleSet) (d : RouteDefinition)
    (rp : RoutePath)
    (hn : checkName env d = none) (hR : d.kind = .Redirect) (hp : _getRoutePath d = .ok rp)
    (hc : assertNoHashCollisionLoop env (env.hash (.RedirectRule rp d.redirectTo)) d.path
      self.rules = .ok ()) :
    config env self d =
      (.ok true, { self with rules := self.rules ++ [.RedirectRule rp d.redirectTo] }) := by
  simp [config, hn, hR, hp, _assertNoHashCollision, hc]

theorem config_of_route_collision (env : Env) (self : RuleSet) (d : RouteDefinition)
    (rp : RoutePath) (e : ConfigError)
    (hn : checkName env d = none) (hA : d.kind ≠ .AuxRoute) (hR : d.kind ≠ .Redirect)
    (hp : _getRoutePath d = .ok rp)
    (hc : assertNoHashCollisionLoop env (env.hash (.RouteRule rp (handlerOf d) d.name)) d.path
      self.rules = .error e) :
    config env self d = (.error e, self) := by
  simp [config, hn, hA, hR, hp, _assertNoHashCollision, hc]

theorem config_of_route_second_default (env : Env) (self : RuleSet) (d : RouteDefinition)
    (rp : RoutePath)
    (hn : checkName env d = none) (hA : d.kind ≠ .AuxRoute) (hR : d.kind ≠ .Redirect)
    (hp : _getRoutePath d = .ok rp)
    (hc : assertNoHashCollisionLoop env (env.hash (.RouteRule rp (handlerOf d) d.name)) d.path
      self.rules = .ok ())
    (hu : useAsDefaultOf d = true) (hd : self.defaultRule.isSome = true) :
    config env self d = (.error (.BaseException "Only one route can be default"), self) := by
  simp [config, hn, hA, hR, hp, _assertNoHashCollision, hc, hu, hd]

theorem config_of_route_ok (env : Env) (self : RuleSet) (d : RouteDefinition)
    (rp : RoutePath)
    (hn : checkName env d = none) (hA : d.kind ≠ .AuxRoute) (hR : d.kind ≠ .Redirect)
    (hp : _getRoutePath d = .ok rp)
    (hc : assertNoHashCollisionLoop env (env.hash (.RouteRule rp (handlerOf d) d.name)) d.path
      self.rules = .ok ())
    (hud : ¬ (useAsDefaultOf d = true ∧ self.defaultRule.isSome = true)) :
    config env self d =
      (.ok (env.terminal (.RouteRule rp (handlerOf d) d.name)),
        { self with
          rules := self.rules ++ [.RouteRule rp (handlerOf d) d.name]
          rulesByName :=
            registerByName self.rulesByName d.name (.RouteRule rp (handlerOf d) d.name)
          defaultRule :=
            if useAsDefaultOf d = true then some (.RouteRule rp (handlerOf d) d.name)
            else self.defaultRule }) := by
  by_cases hu : useAsDefaultOf d = true
  · have hd : self.defaultRule.isSome = false := by
      cases h : self.defaultRule.isSome
      · rfl
      · exact absurd ⟨hu, h⟩ hud
    cases hname : d.name <;> rw [hname] at hc <;>
      simp [config, hn, hA, hR, hp, _assertNoHashCollision, hc, hu, hd, hname, registerByName]
  · cases hname : d.name <;> rw [hname] at hc <;>
      simp [config, hn, hA, hR, hp, _assertNoHashCollision, hc, hu, hname, registerByName]

/-- Every `config` call takes one of four ways out: it throws and leaves the rule
set as it was, or it stores an auxiliary rule, or it appends a redirect rule, or
it appends a route rule. -/
theorem config_cases (env : Env) (self : RuleSet) (d : RouteDefinition) :
    (∃ e, config env self d = (.error e, self)) ∨
    (∃ rp, checkName env d = none ∧ d.kind = .AuxRoute ∧ _getRoutePath d = .ok rp ∧
      config env self d =
        (.ok (env.terminal (.RouteRule rp (handlerOf d) d.name)),
          { self with
            auxRulesByPath :=
              JsMap.set self.auxRulesByPath (env.routePathToString rp)
                (.RouteRule rp (handlerOf d) d.name)
            auxRulesByName :=
              registerByName self.auxRulesByName d.name
                (.RouteRule rp (handlerOf d) d.name) })) ∨
    (∃ rp, checkName env d = none ∧ d.kind = .Redirect ∧ _getRoutePath d = .ok rp ∧
      (∀ x ∈ self.rules, env.hash x ≠ env.hash (.RedirectRule rp d.redirectTo)) ∧
      config env self d =
        (.ok true, { self with rules := self.rules ++ [.RedirectRule rp d.redirectTo] })) ∨
    (∃ rp, checkName env d = none ∧ d.kind ≠ .AuxRoute ∧ d.kind ≠ .Redirect ∧
      _getRoutePath d = .ok rp ∧
      (∀ x ∈ self.rules, env.hash x ≠ env.hash (.RouteRule rp (handlerOf d) d.name)) ∧
      ¬ (useAsDefaultOf d = true ∧ self.defaultRule.isSome = true) ∧
      config env self d =
        (.ok (env.terminal (.RouteRule rp (handlerOf d) d.name)),
          { self with
            rules := self.rules ++ [.RouteRule rp (handlerOf d) d.name]
            rulesByName :=
              registerByName self.rulesByName d.name (.RouteRule rp (handlerOf d) d.name)
            defaultRule :=
              if useAsDefaultOf d = true then some (.RouteRule rp (handlerOf d) d.name)
              else self.defaultRule })) := by
  cases hn : checkName env d with
  | some e => exact Or.inl ⟨e, config_of_checkName_error env self d e hn⟩
  | none =>
    cases hp : _getRoutePath d with
    | error e => exact Or.inl ⟨e, config_of_getRoutePath_error env self d e hn hp⟩
    | ok rp =>
      by_cases hA : d.kind = .AuxRoute
      · exact Or.inr (Or.inl ⟨rp, rfl, hA, rfl, config_of_aux env self d rp hn hA hp⟩)
      · by_cases hR : d.kind = .Redirect
        · cases hc : assertNoHashCollisionLoop env (env.hash (.RedirectRule rp d.redirectTo))
            d.path self.rules with
          | error e =>
            exact Or.inl ⟨e, config_of_redirect_collision env self d rp e hn hR hp hc⟩
          | ok u =>
            cases u
            exact Or.inr (Or.inr (Or.inl ⟨rp, rfl, hR, rfl,
              (assertNoHashCollisionLoop_ok_iff env _ _ _).mp hc,
              config_of_redirect_ok env self d rp hn hR hp hc⟩))
        · cases hc : assertNoHashCollisionLoop env
            (env.hash (.RouteRule rp (handlerOf d) d.name)) d.path self.rules with
          | error e =>
            exact Or.inl ⟨e, config_of_route_collision env self d rp e hn hA hR hp hc⟩
          | ok u =>
            cases u
            by_cases hud : useAsDefaultOf d = true ∧ self.defaultRule.isSome = true
            · exact Or.inl ⟨_, config_of_route_second_default env self d rp hn hA hR hp hc
                hud.1 hud.2⟩
            · exact Or.inr (Or.inr (Or.inr ⟨rp, rfl, hA, hR, rfl,
                (assertNoHashCollisionLoop_ok_iff env _ _ _).mp hc, hud,
                config_of_route_ok env self d rp hn hA hR hp hc hud⟩))

/-! ## Invariants of the rule set -/

theorem hashesDistinct_append_one (env : Env) (rules : List Rule) (r : Rule)
    (h : HashesDistinct env rules) (hr : ∀ x ∈ rules, env.hash x ≠ env.hash r) :
    HashesDistinct env (rules ++ [r]) := by
  unfold HashesDistinct at *
  rw [List.map_append, List.nodup_append]
  refine ⟨h, by simp, ?_⟩
  intro a ha hb
  simp only [List.map_cons, List.map_nil, List.mem_singleton] at hb
  obtain ⟨x, hx, hxa⟩ := List.mem_map.mp ha
  exact hr x hx (hxa.trans hb)

theorem config_hashesDistinct (env : Env) (self : RuleSet) (d : RouteDefinition)
    (h : HashesDistinct env self.rules) :
    HashesDistinct env (config env self d).2.rules := by
  rcases config_cases env self d with ⟨e, he⟩ | ⟨rp, _, _, _, he⟩ | ⟨rp, _, _, _, hno, he⟩ |
    ⟨rp, _, _, _, _, hno, _, he⟩
  · rw [he]; exact h
  · rw [he]; exact h
  · rw [he]; exact hashesDistinct_append_one env _ _ h hno
  · rw [he]; exact hashesDistinct_append_one env _ _ h hno

theorem configAll_hashesDistinct (env : Env) (ds : List RouteDefinition) (self : RuleSet)
    (h : HashesDistinct env self.rules) :
    HashesDistinct env (configAll env self ds).rules := by
  induction ds generalizing self with
  | nil => exact h
  | cons d ds ih => exact ih _ (config_hashesDistinct env self d h)

theorem hashesDistinct_positions (env : Env) (rules : List Rule)
    (h : HashesDistinct env rules) (i j : Nat) (r1 r2 : Rule)
    (hi : rules[i]? = some r1) (hj : rules[j]? = some r2) (hij : i ≠ j) :
    env.hash r1 ≠ env.hash r2 := by
  have key : ∀ (a b : Nat) (ra rb : Rule), a < b → rules[a]? = some ra →
      rules[b]? = some rb → env.hash ra ≠ env.hash rb := by
    intro a b ra rb hab ha hb hh
    have hlen : b < (rules.map env.hash).length := by
      rw [List.length_map]
      exact (List.getElem?_eq_some.mp hb).1
    have hne := (List.nodup_iff_getElem?_ne_getElem?.mp h) a b hab hlen
    apply hne
    simp [List.getElem?_map, ha, hb, hh]
  rcases Nat.lt_or_gt_of_ne hij with hlt | hgt
  · exact key i j r1 r2 hlt hi hj
  · exact fun e => key j i r2 r1 hgt hj hi e.symm

theorem config_keeps_defaultRule (env : Env) (self : RuleSet) (d : RouteDefinition) (r : Rule)
    (hdef : self.defaultRule = some r) :
    (config env self d).2.defaultRule = some r := by
  rcases config_cases env self d with ⟨e, he⟩ | ⟨rp, _, _, _, he⟩ | ⟨rp, _, _, _, _, he⟩ |
    ⟨rp, _, _, _, _, _, hud, he⟩
  · rw [he]; exact hdef
  · rw [he]; exact hdef
  · rw [he]; exact hdef
  · rw [he]
    have hu : ¬ useAsDefaultOf d = true := fun hu => hud ⟨hu, by simp [hdef]⟩
    simp [hu, hdef]

theorem configAll_keeps_defaultRule (env : Env) (ds : List RouteDefinition) (self : RuleSet)
    (r : Rule) (hdef : self.defaultRule = some r) :
    (configAll env self ds).defaultRule = some r := by
  induction ds generalizing self with
  | nil => exact hdef
  | cons d ds ih => exact ih _ (config_keeps_defaultRule env self d r hdef)

theorem namePasses_of_checkName (env : Env) (d : RouteDefinition) (name : String)
    (hn : checkName env d = none) (hname : d.name = .value name) : NamePasses env name := by
  simp only [checkName, hname] at hn
  cases hdata : name.data with
  | nil => rw [hdata] at hn; simp at hn
  | cons c rest =>
    rw [hdata] at hn
    by_cases hc : env.toUpperCase (String.singleton c) = String.singleton c
    · exact ⟨c, rest, hdata, hc⟩
    · simp [hc] at hn

theorem registerByName_keys (env : Env) (m : JsMap Rule) (d : RouteDefinition) (rule : Rule)
    (hn : checkName env d = none) (hm : ∀ k ∈ JsMap.keys m, NamePasses env k) :
    ∀ k ∈ JsMap.keys (registerByName m d.name rule), NamePasses env k := by
  intro k hk
  cases hname : d.name with
  | undefined => rw [hname] at hk; exact hm k hk
  | null => rw [hname] at hk; exact hm k hk
  | value name =>
    rw [hname] at hk
    rcases JsMap.mem_keys_set m name k rule hk with h | h
    · rw [h]; exact namePasses_of_checkName env d name hn hname
    · exact hm k h

theorem config_namesPass (env : Env) (self : RuleSet) (d : RouteDefinition)
    (h : NamesPass env self) : NamesPass env (config env self d).2 := by
  rcases config_cases env self d with ⟨e, he⟩ | ⟨rp, hn, _, _, he⟩ | ⟨rp, _, _, _, _, he⟩ |
    ⟨rp, hn, _, _, _, _, _, he⟩
  · rw [he]; exact h
  · rw [he]; exact ⟨h.1, registerByName_keys env _ d _ hn h.2⟩
  · rw [he]; exact h
  · rw [he]; exact ⟨registerByName_keys env _ d _ hn h.1, h.2⟩

theorem configAll_namesPass (env : Env) (ds : List RouteDefinition) (self : RuleSet)
    (h : NamesPass env self) : NamesPass env (configAll env self ds) := by
  induction ds generalizing self with
  | nil => exact h
  | cons d ds ih => exact ih _ (config_namesPass env self d h)

/-! ## The claims on `config` -/

/-- C1: starting from an empty rule set, after any finite sequence of `config`
calls, each succeeding or failing, no two distinct positions of the primary
sequence `rules` hold rules with equal hash. -/
theorem C1_no_two_rules_share_a_hash (env : Env) (ds : List RouteDefinition)
    (i j : Nat) (r1 r2 : Rule)
    (hi : (configAll env RuleSet.new ds).rules[i]? = some r1)
    (hj : (configAll env RuleSet.new ds).rules[j]? = some r2)
    (hij : i ≠ j) :
    env.hash r1 ≠ env.hash r2 :=
  hashesDistinct_positions env _
    (configAll_hashesDistinct env ds RuleSet.new (by simp [HashesDistinct, RuleSet.new]))
    i j r1 r2 hi hj hij

theorem C1_no_two_rules_share_a_hash_witness :
    (configAll sampleEnv RuleSet.new
        [sampleRoute "/a" (.value "A"), sampleRoute "/a" (.value "B"),
          sampleRoute "/b" .undefined]).rules
      = [.RouteRule (.ParamRoutePath "/a") (some (.SyncRouteHandler (.object 0) .undefined))
            (.value "A"),
         .RouteRule (.ParamRoutePath "/b") (some (.SyncRouteHandler (.object 0) .undefined))
            .undefined] ∧
    sampleEnv.hash (.RouteRule (.ParamRoutePath "/a")
        (some (.SyncRouteHandler (.object 0) .undefined)) (.value "A")) ≠
      sampleEnv.hash (.RouteRule (.ParamRoutePath "/b")
        (some (.SyncRouteHandler (.object 0) .undefined)) .undefined) :=
  ⟨by decide,
    C1_no_two_rules_share_a_hash sampleEnv
      [sampleRoute "/a" (.value "A"), sampleRoute "/a" (.value "B"),
        sampleRoute "/b" .undefined] 0 1 _ _ (by decide) (by decide) (by decide)⟩

/-- C2: for every rule set and every definition that is not an `AuxRoute` (a
Route, an AsyncRoute, a Redirect), with an acceptable name and a derivable path
matcher: if the hash of the rule built from the definition equals the hash of a
rule of the primary sequence, `config` throws a `BaseException` whose message
names the path of the definition and the path of such an existing rule, and the
rule set is left as it was. -/
theorem C2_colliding_hash_is_rejected (env : Env) (self : RuleSet) (d : RouteDefinition)
    (rp : RoutePath)
    (hkind : d.kind = .Route ∨ d.kind = .AsyncRoute ∨ d.kind = .Redirect)
    (hname : checkName env d = none)
    (hpath : _getRoutePath d = .ok rp)
    (hcollide : ∃ r ∈ self.rules, env.hash r = env.hash (ruleBuilt d rp)) :
    ∃ r ∈ self.rules, env.hash r = env.hash (ruleBuilt d rp) ∧
      config env self d =
        (.error (.BaseException
          ("Configuration '" ++ render d.path ++ "' conflicts with existing route '"
            ++ env.path r ++ "'")), self) := by
  have hA : d.kind ≠ .AuxRoute := by
    rcases hkind with h | h | h <;> simp [h]
  by_cases hR : d.kind = .Redirect
  · simp only [ruleBuilt, hR, if_true] at hcollide ⊢
    obtain ⟨r, hr, hh, hc⟩ := assertNoHashCollisionLoop_error env _ d.path self.rules hcollide
    exact ⟨r, hr, hh, config_of_redirect_collision env self d rp _ hname hR hpath hc⟩
  · simp only [ruleBuilt, hR, if_false] at hcollide ⊢
    obtain ⟨r, hr, hh, hc⟩ := assertNoHashCollisionLoop_error env _ d.path self.rules hcollide
    exact ⟨r, hr, hh, config_of_route_collision env self d rp _ hname hA hR hpath hc⟩

theorem C2_colliding_hash_is_rejected_witness :
    ∃ r ∈ (configAll sampleEnv RuleSet.new [sampleRoute "/a" (.value "A")]).rules,
      sampleEnv.hash r = sampleEnv.hash (ruleBuilt (sampleRedirect "/a") (.ParamRoutePath "/a")) ∧
      config sampleEnv (configAll sampleEnv RuleSet.new [sampleRoute "/a" (.value "A")])
          (sampleRedirect "/a") =
        (.error (.BaseException
          ("Configuration '" ++ render (sampleRedirect "/a").path
            ++ "' conflicts with existing route '" ++ sampleEnv.path r ++ "'")),
          configAll sampleEnv RuleSet.new [sampleRoute "/a" (.value "A")]) :=
  C2_colliding_hash_is_rejected sampleEnv
    (configAll sampleEnv RuleSet.new [sampleRoute "/a" (.value "A")])
    (sampleRedirect "/a") (.ParamRoutePath "/a")
    (by decide) (by decide) rfl (by decide)

/-- C3: for every rule set whose `defaultRule` is already set, `config` of a
Route or AsyncRoute definition with `useAsDefault = true` fails and leaves the
rule set as it was; no `config` call replaces a `defaultRule` that is set, so
after any further sequence of `config` calls the default rule is still the same
one, and at most one rule is ever designated default. -/
theorem C3_second_default_is_rejected (env : Env) (self : RuleSet) (d : RouteDefinition)
    (r : Rule) (ds : List RouteDefinition)
    (hdef : self.defaultRule = some r) :
    ((d.kind = .Route ∨ d.kind = .AsyncRoute) → d.useAsDefault = .value true →
        ∃ e, config env self d = (.error e, self)) ∧
      (config env self d).2.defaultRule = some r ∧
      (configAll env self ds).defaultRule = some r := by
  refine ⟨?_, config_keeps_defaultRule env self d r hdef,
    configAll_keeps_defaultRule env ds self r hdef⟩
  intro hkind huse
  have hu : useAsDefaultOf d = true := by
    rcases hkind with h | h <;> simp [useAsDefaultOf, h, huse]
  rcases config_cases env self d with ⟨e, he⟩ | ⟨rp, _, hA, _, _⟩ | ⟨rp, _, hR, _, _, _⟩ |
    ⟨rp, _, _, _, _, _, hud, _⟩
  · exact ⟨e, he⟩
  · rcases hkind with h | h <;> simp [h] at hA
  · rcases hkind with h | h <;> simp [h] at hR
  · exact absurd ⟨hu, by simp [hdef]⟩ hud

theorem C3_second_default_is_rejected_witness :
    (configAll sampleEnv RuleSet.new [sampleDefaultRoute "/a"]).defaultRule =
        some (.RouteRule (.ParamRoutePath "/a")
          (some (.SyncRouteHandler (.object 0) .undefined)) .undefined) ∧
      (((sampleDefaultRoute "/b").kind = .Route ∨ (sampleDefaultRoute "/b").kind = .AsyncRoute) →
        (sampleDefaultRoute "/b").useAsDefault = .value true →
        ∃ e, config sampleEnv (configAll sampleEnv RuleSet.new [sampleDefaultRoute "/a"])
          (sampleDefaultRoute "/b") =
            (.error e, configAll sampleEnv RuleSet.new [sampleDefaultRoute "/a"])) ∧
      (config sampleEnv (configAll sampleEnv RuleSet.new [sampleDefaultRoute "/a"])
          (sampleDefaultRoute "/b")).2.defaultRule =
        some (.RouteRule (.ParamRoutePath "/a")
          (some (.SyncRouteHandler (.object 0) .undefined)) .undefined) ∧
      (configAll sampleEnv (configAll sampleEnv RuleSet.new [sampleDefaultRoute "/a"])
          [sampleDefaultRoute "/b", sampleRoute "/c" (.value "C")]).defaultRule =
        some (.RouteRule (.ParamRoutePath "/a")
          (some (.SyncRouteHandler (.object 0) .undefined)) .undefined) :=
  ⟨by decide,
    C3_second_default_is_rejected sampleEnv
      (configAll sampleEnv RuleSet.new [sampleDefaultRoute "/a"]) (sampleDefaultRoute "/b") _
      [sampleDefaultRoute "/b", sampleRoute "/c" (.value "C")] (by decide)⟩

/-- C4: for every definition of any kind that carries a name whose first
character differs from its uppercase form, `config` throws, whatever the path,
the regex and the rules already present, a `BaseException` whose message ends
with the suggested name `uppercase(name[0]) + name.substring(1)`, and leaves the
rule set as it was; for the name "home", where uppercasing "h" gives "H", the
suggested name is "Home". -/
theorem C4_name_casing_is_rejected (env : Env) (self : RuleSet) (d : RouteDefinition)
    (name : String) (c : Char) (rest : List Char)
    (hname : d.name = .value name)
    (hfirst : name.data = c :: rest)
    (hcase : env.toUpperCase (String.singleton c) ≠ String.singleton c) :
    config env self d =
        (.error (.BaseException
          ("Route \"" ++ render d.path ++ "\" with name \"" ++ name
            ++ "\" does not begin with an uppercase letter. Route names should be CamelCase like \""
            ++ (env.toUpperCase (String.singleton c) ++ String.mk rest) ++ "\".")), self) ∧
      (name = "home" → env.toUpperCase "h" = "H" →
        env.toUpperCase (String.singleton c) ++ String.mk rest = "Home") := by
  constructor
  · apply config_of_checkName_error
    simp only [checkName, hname]
    rw [hfirst]
    simp [hcase]
  · intro hhome hH
    subst hhome
    have hc : c = 'h' ∧ rest = ['o', 'm', 'e'] := by
      have h2 : ['h', 'o', 'm', 'e'] = c :: rest := hfirst
      simp at h2
      exact ⟨h2.1.symm, h2.2.symm⟩
    obtain ⟨h1, h2⟩ := hc
    subst h1 h2
    have h3 : String.singleton 'h' = "h" := by decide
    rw [h3, hH]
    decide

theorem C4_name_casing_is_rejected_witness :
    config sampleEnv RuleSet.new (sampleRoute "/home" (.value "home")) =
        (.error (.BaseException
          "Route \"/home\" with name \"home\" does not begin with an uppercase letter. Route names should be CamelCase like \"Home\"."),
          RuleSet.new) ∧
      sampleEnv.toUpperCase (String.singleton 'h') ++ String.mk ['o', 'm', 'e'] = "Home" :=
  ⟨(C4_name_casing_is_rejected sampleEnv RuleSet.new (sampleRoute "/home" (.value "home"))
      "home" 'h' ['o', 'm', 'e'] rfl rfl (by decide)).1,
    (C4_name_casing_is_rejected sampleEnv RuleSet.new (sampleRoute "/home" (.value "home"))
      "home" 'h' ['o', 'm', 'e'] rfl rfl (by decide)).2 rfl (by decide)⟩

/-- C5, as the code has it: after any finite sequence of `config` calls on an
initially empty rule set, every key of `rulesByName` and of `auxRulesByName` is a
non-empty string whose first character is left unchanged by uppercasing (it is
not a lowercase letter; it need not be a letter). -/
theorem C5_registered_names_pass_the_check (env : Env) (ds : List RouteDefinition)
    (k : String)
    (hk : k ∈ JsMap.keys (configAll env RuleSet.new ds).rulesByName ∨
      k ∈ JsMap.keys (configAll env RuleSet.new ds).auxRulesByName) :
    ∃ c rest, k.data = c :: rest ∧
      env.toUpperCase (String.singleton c) = String.singleton c := by
  have h := configAll_namesPass env ds RuleSet.new
    ⟨by simp [RuleSet.new, JsMap.keys], by simp [RuleSet.new, JsMap.keys]⟩
  rcases hk with hk | hk
  · exact h.1 k hk
  · exact h.2 k hk

theorem C5_registered_names_pass_the_check_witness :
    "Home" ∈ JsMap.keys
        (configAll sampleEnv RuleSet.new [sampleRoute "/home" (.value "Home")]).rulesByName ∧
      ∃ c rest, "Home".data = c :: rest ∧
        sampleEnv.toUpperCase (String.singleton c) = String.singleton c :=
  ⟨by decide,
    C5_registered_names_pass_the_check sampleEnv [sampleRoute "/home" (.value "Home")] "Home"
      (Or.inl (by decide))⟩

/-- C5 as stated fails: configuring a Route named "1st" on the empty rule set
registers the key "1st", whose first character is the digit 1 and no uppercase
letter. -/
theorem C5_counterexample_digit_name :
    JsMap.keys (configAll sampleEnv RuleSet.new [sampleRoute "/a" (.value "1st")]).rulesByName
        = ["1st"] ∧
      "1st".data.head? = some '1' ∧ Char.isUpper '1' = false ∧ Char.isAlpha '1' = false := by
  decide

/-! ## Path-matcher derivation with constructors that may throw -/

theorem getRoutePathWith_eq (ctors : RoutePathCtors) (d : RouteDefinition) :
    _getRoutePathWith ctors d =
      match _getRoutePath d with
      | .error e => .error e
      | .ok (.RegexRoutePath regex serializer) =>
        (match ctors.newRegexRoutePath regex serializer with
         | some thrown => .error thrown
         | none => .ok (.RegexRoutePath regex serializer))
      | .ok (.ParamRoutePath path) =>
        (match ctors.newParamRoutePath path with
         | some thrown => .error thrown
         | none => .ok (.ParamRoutePath path)) := by
  unfold _getRoutePathWith _getRoutePath pathArgument
  cases hr : d.regex with
  | value regex =>
    by_cases hs : isFunction d.serializer = true
    · simp [hs]
    · simp [hs]
  | undefined =>
    cases hp : d.path <;> simp
  | null =>
    cases hp : d.path <;> simp

theorem getRoutePathWith_ok (ctors : RoutePathCtors) (d : RouteDefinition) (rp : RoutePath)
    (h : _getRoutePathWith ctors d = .ok rp) : _getRoutePath d = .ok rp := by
  rw [getRoutePathWith_eq] at h
  cases hg : _getRoutePath d with
  | error e => rw [hg] at h; simp at h
  | ok rp2 =>
    rw [hg] at h
    cases rp2 with
    | RegexRoutePath regex serializer =>
      cases hc : ctors.newRegexRoutePath regex serializer <;> simp [hc] at h
      rw [h]
    | ParamRoutePath path =>
      cases hc : ctors.newParamRoutePath path <;> simp [hc] at h
      rw [h]

theorem getRoutePathWith_returning (d : RouteDefinition) :
    _getRoutePathWith RoutePathCtors.returning d = _getRoutePath d := by
  rw [getRoutePathWith_eq]
  cases hg : _getRoutePath d with
  | error e => rfl
  | ok rp => cases rp <;> rfl

theorem configWith_of_checkName_error (ctors : RoutePathCtors) (env : Env) (self : RuleSet)
    (d : RouteDefinition) (e : ConfigError) (hn : checkName env d = some e) :
    configWith ctors env self d = (.error e, self) := by
  simp [configWith, hn]

theorem configWith_of_getRoutePath_error (ctors : RoutePathCtors) (env : Env) (self : RuleSet)
    (d : RouteDefinition) (e : ConfigError) (hn : checkName env d = none)
    (hp : _getRoutePathWith ctors d = .error e) :
    configWith ctors env self d = (.error e, self) := by
  simp [configWith, hn, hp]

theorem configWith_of_getRoutePath_ok (ctors : RoutePathCtors) (env : Env) (self : RuleSet)
    (d : RouteDefinition) (rp : RoutePath) (hp : _getRoutePathWith ctors d = .ok rp) :
    configWith ctors env self d = config env self d := by
  have hp2 := getRoutePathWith_ok ctors d rp hp
  simp only [configWith, config, hp, hp2]

theorem configWith_returning (env : Env) (self : RuleSet) (d : RouteDefinition) :
    configWith RoutePathCtors.returning env self d = config env self d := by
  simp only [configWith, config, getRoutePathWith_returning]

theorem getRoutePath_of_path (d : RouteDefinition) (p : String)
    (hr : isPresent d.regex = false) (hp : d.path = .value p) :
    _getRoutePath d = .ok (.ParamRoutePath (pathArgument d p)) := by
  cases hr2 : d.regex <;> simp [hr2, isPresent] at hr <;>
    simp [_getRoutePath, pathArgument, hr2, hp]

theorem config_error_after_derivation (env : Env) (self : RuleSet) (d : RouteDefinition)
    (rp : RoutePath) (e : ConfigError) (s : RuleSet)
    (hn : checkName env d = none) (hp : _getRoutePath d = .ok rp)
    (hfail : config env self d = (.error e, s)) :
    e = .BaseException "Only one route can be default" ∨
      ∃ r ∈ self.rules, e = .BaseException
        ("Configuration '" ++ render d.path ++ "' conflicts with existing route '"
          ++ env.path r ++ "'") := by
  by_cases hA : d.kind = .AuxRoute
  · rw [config_of_aux env self d rp hn hA hp] at hfail
    simp at hfail
  · by_cases hR : d.kind = .Redirect
    · cases hc : assertNoHashCollisionLoop env (env.hash (.RedirectRule rp d.redirectTo))
        d.path self.rules with
      | error e2 =>
        rw [config_of_redirect_collision env self d rp e2 hn hR hp hc] at hfail
        obtain ⟨r, hr, _, he⟩ := assertNoHashCollisionLoop_error_form env _ _ _ e2 hc
        simp only [Prod.mk.injEq, Except.error.injEq] at hfail
        exact Or.inr ⟨r, hr, hfail.1 ▸ he⟩
      | ok u =>
        cases u
        rw [config_of_redirect_ok env self d rp hn hR hp hc] at hfail
        simp at hfail
    · cases hc : assertNoHashCollisionLoop env
        (env.hash (.RouteRule rp (handlerOf d) d.name)) d.path self.rules with
      | error e2 =>
        rw [config_of_route_collision env self d rp e2 hn hA hR hp hc] at hfail
        obtain ⟨r, hr, _, he⟩ := assertNoHashCollisionLoop_error_form env _ _ _ e2 hc
        simp only [Prod.mk.injEq, Except.error.injEq] at hfail
        exact Or.inr ⟨r, hr, hfail.1 ▸ he⟩
      | ok u =>
        cases u
        by_cases hud : useAsDefaultOf d = true ∧ self.defaultRule.isSome = true
        · rw [config_of_route_second_default env self d rp hn hA hR hp hc hud.1 hud.2]
            at hfail
          simp only [Prod.mk.injEq, Except.error.injEq] at hfail
          exact Or.inl hfail.1.symm
        · rw [config_of_route_ok env self d rp hn hA hR hp hc hud] at hfail
          simp at hfail

theorem getRoutePathWith_error_iff (ctors : RoutePathCtors) (d : RouteDefinition) :
    (∃ e, _getRoutePathWith ctors d = .error e) ↔
      (isPresent d.regex = true ∧ isFunction d.serializer = false) ∨
        (isPresent d.regex = false ∧ isPresent d.path = false) ∨
        (∃ regex e, d.regex = .value regex ∧ isFunction d.serializer = true ∧
          ctors.newRegexRoutePath regex d.serializer = some e) ∨
        (∃ p e, isPresent d.regex = false ∧ d.path = .value p ∧
          ctors.newParamRoutePath (pathArgument d p) = some e) := by
  cases hr : d.regex with
  | value regex =>
    by_cases hs : isFunction d.serializer = true
    · cases hc : ctors.newRegexRoutePath regex d.serializer <;>
        simp [_getRoutePathWith, hr, hs, hc, isPresent]
    · simp [_getRoutePathWith, hr, hs, isPresent]
  | undefined =>
    cases hp : d.path with
    | value p =>
      cases hc : ctors.newParamRoutePath (pathArgument d p) <;>
        simp [_getRoutePathWith, hr, hp, hc, isPresent]
    | undefined => simp [_getRoutePathWith, hr, hp, isPresent]
    | null => simp [_getRoutePathWith, hr, hp, isPresent]
  | null =>
    cases hp : d.path with
    | value p =>
      cases hc : ctors.newParamRoutePath (pathArgument d p) <;>
        simp [_getRoutePathWith, hr, hp, hc, isPresent]
    | undefined => simp [_getRoutePathWith, hr, hp, isPresent]
    | null => simp [_getRoutePathWith, hr, hp, isPresent]

/-- C6, as the code has it: `_getRoutePath` fails if and only if the definition
has a regex whose serializer is not a function, or has neither a regex nor a
path, or the matcher constructor it calls throws: `new RegexRoutePath(regex,
serializer)` for a regex with a serializer function, `new ParamRoutePath(path)`
for a path without a regex.  Its own two throws are `BaseException`s with the
messages of lines 137 and 147, and a throw of the constructor is passed on as it
is.  When the constructor returns, a regex with a serializer function gives the
regex-based matcher and a path without a regex gives the segment/parameter
matcher.  With constructors that always return, the first two causes are the
only ones.  In `config`, for a definition with an acceptable name, a failure of
`_getRoutePath` is the failure of the call and leaves the rule set as it was, and
when `_getRoutePath` succeeds the call can only fail on a hash collision or on a
second default. -/
theorem C6_path_matcher_derivation (ctors : RoutePathCtors) (env : Env) (self : RuleSet)
    (d : RouteDefinition) :
    ((∃ e, _getRoutePathWith ctors d = .error e) ↔
        (isPresent d.regex = true ∧ isFunction d.serializer = false) ∨
          (isPresent d.regex = false ∧ isPresent d.path = false) ∨
          (∃ regex e, d.regex = .value regex ∧ isFunction d.serializer = true ∧
            ctors.newRegexRoutePath regex d.serializer = some e) ∨
          (∃ p e, isPresent d.regex = false ∧ d.path = .value p ∧
            ctors.newParamRoutePath (pathArgument d p) = some e)) ∧
      (∀ regex, d.regex = .value regex → isFunction d.serializer = false →
        _getRoutePathWith ctors d = .error (.BaseException
          ("Route provides a regex property, '" ++ regex ++ "', but no serializer property"))) ∧
      (isPresent d.regex = false → isPresent d.path = false →
        _getRoutePathWith ctors d =
          .error (.BaseException "Route must provide either a path or regex property")) ∧
      (∀ regex e, d.regex = .value regex → isFunction d.serializer = true →
        ctors.newRegexRoutePath regex d.serializer = some e →
        _getRoutePathWith ctors d = .error e) ∧
      (∀ p e, isPresent d.regex = false → d.path = .value p →
        ctors.newParamRoutePath (pathArgument d p) = some e →
        _getRoutePathWith ctors d = .error e) ∧
      (∀ regex, d.regex = .value regex → isFunction d.serializer = true →
        ctors.newRegexRoutePath regex d.serializer = none →
        _getRoutePathWith ctors d = .ok (.RegexRoutePath regex d.serializer)) ∧
      (∀ p, isPresent d.regex = false → d.path = .value p →
        ctors.newParamRoutePath (pathArgument d p) = none →
        _getRoutePathWith ctors d = .ok (.ParamRoutePath (pathArgument d p))) ∧
      ((∀ regex serializer, ctors.newRegexRoutePath regex serializer = none) →
        (∀ path, ctors.newParamRoutePath path = none) →
        ((∃ e, _getRoutePathWith ctors d = .error e) ↔
          (isPresent d.regex = true ∧ isFunction d.serializer = false) ∨
            (isPresent d.regex = false ∧ isPresent d.path = false))) ∧
      (∀ e, checkName env d = none → _getRoutePathWith ctors d = .error e →
        configWith ctors env self d = (.error e, self)) ∧
      (∀ rp e s, checkName env d = none → _getRoutePathWith ctors d = .ok rp →
        configWith ctors env self d = (.error e, s) →
        e = .BaseException "Only one route can be default" ∨
          ∃ r ∈ self.rules, e = .BaseException
            ("Configuration '" ++ render d.path ++ "' conflicts with existing route '"
              ++ env.path r ++ "'")) := by
  refine ⟨getRoutePathWith_error_iff ctors d, ?_, ?_, ?_, ?_, ?_, ?_, ?_, ?_, ?_⟩
  · intro regex hr hs
    simp [_getRoutePathWith, hr, hs]
  · intro hr hp
    cases hr2 : d.regex <;> cases hp2 : d.path <;>
      simp [hr2, hp2, isPresent] at hr hp <;>
      simp [_getRoutePathWith, hr2, hp2]
  · intro regex e hr hs hc
    simp [_getRoutePathWith, hr, hs, hc]
  · intro p e hr hp hc
    cases hr2 : d.regex <;> simp [hr2, isPresent] at hr <;>
      simp [_getRoutePathWith, hr2, hp, hc]
  · intro regex hr hs hc
    simp [_getRoutePathWith, hr, hs, hc]
  · intro p hr hp hc
    cases hr2 : d.regex <;> simp [hr2, isPresent] at hr <;>
      simp [_getRoutePathWith, hr2, hp, hc]
  · intro hregex hparam
    rw [getRoutePathWith_error_iff ctors d]
    constructor
    · rintro (h | h | ⟨regex, e, _, _, hc⟩ | ⟨p, e, _, _, hc⟩)
      · exact Or.inl h
      · exact Or.inr h
      · rw [hregex] at hc
        exact absurd hc (by simp)
      · rw [hparam] at hc
        exact absurd hc (by simp)
    · rintro (h | h)
      · exact Or.inl h
      · exact Or.inr (Or.inl h)
  · intro e hn hp
    exact configWith_of_getRoutePath_error ctors env self d e hn hp
  · intro rp e s hn hp hfail
    rw [configWith_of_getRoutePath_ok ctors env self d rp hp] at hfail
    exact config_error_after_derivation env self d rp e s hn
      (getRoutePathWith_ok ctors d rp hp) hfail

theorem C6_path_matcher_derivation_witness :
    (∃ e, _getRoutePathWith sampleCtors sampleRegexOnly = .error e) ∧
      configWith sampleCtors sampleEnv sampleSetA sampleRegexOnly =
        (.error (.BaseException
          "Route provides a regex property, '^a$', but no serializer property"), sampleSetA) ∧
      _getRoutePathWith sampleCtors sampleRouteWithBoth = .ok (.RegexRoutePath "^a$" (.fn 0)) ∧
      _getRoutePathWith sampleCtors (sampleAuxRoute "//a" .undefined) =
        .ok (.ParamRoutePath "/a") ∧
      _getRoutePathWith sampleCtors (sampleRedirect "/x//y") =
        .error (.BaseException
          "Path \"/x//y\" contains \"//\" which is not allowed in a route config.") :=
  ⟨(C6_path_matcher_derivation sampleCtors sampleEnv sampleSetA sampleRegexOnly).1.mpr
      (Or.inl ⟨rfl, rfl⟩),
    (C6_path_matcher_derivation sampleCtors sampleEnv sampleSetA
      sampleRegexOnly).2.2.2.2.2.2.2.2.1 _ (by decide) rfl,
    (C6_path_matcher_derivation sampleCtors sampleEnv sampleSetA
      sampleRouteWithBoth).2.2.2.2.2.1 "^a$" rfl rfl rfl,
    (C6_path_matcher_derivation sampleCtors sampleEnv sampleSetA
      (sampleAuxRoute "//a" .undefined)).2.2.2.2.2.2.1 "//a" rfl rfl rfl,
    (C6_path_matcher_derivation sampleCtors sampleEnv sampleSetA
      (sampleRedirect "/x//y")).2.2.2.2.1 "/x//y" _ rfl rfl rfl⟩

/-- C6 as stated fails: a Route with the path "//a", no regex and no name has a
path, so neither of the two causes of the claim holds, and still path-matcher
derivation fails, because the call `new ParamRoutePath("//a")` throws; `config`
fails with that exception on the empty rule set and leaves it empty. -/
theorem C6_counterexample_constructor_rejects :
    isPresent (sampleRoute "//a" .undefined).regex = false ∧
      isPresent (sampleRoute "//a" .undefined).path = true ∧
      checkName sampleEnv (sampleRoute "//a" .undefined) = none ∧
      _getRoutePathWith sampleCtors (sampleRoute "//a" .undefined) =
        .error (.BaseException
          "Path \"//a\" contains \"//\" which is not allowed in a route config.") ∧
      configWith sampleCtors sampleEnv RuleSet.new (sampleRoute "//a" .undefined) =
        (.error (.BaseException
          "Path \"//a\" contains \"//\" which is not allowed in a route config."),
          RuleSet.new) :=
  ⟨rfl, rfl, by decide, rfl, rfl⟩

/-- C7, as the code has it: a definition may supply both a path and a regex
with a serializer function.  Path-matcher derivation then succeeds with the
regex-based matcher built from the regex and the serializer, the path taking no
part in it, and `config` does not fail on that account: on the empty rule set it
succeeds whenever the name is acceptable. -/
theorem C7_path_and_regex_together_are_accepted (env : Env) (d : RouteDefinition)
    (regex p : String)
    (hregex : d.regex = .value regex) (_hpath : d.path = .value p)
    (hser : isFunction d.serializer = true) :
    _getRoutePath d = .ok (.RegexRoutePath regex d.serializer) ∧
      (checkName env d = none → ∃ b s, config env RuleSet.new d = (.ok b, s)) := by
  have hp : _getRoutePath d = .ok (.RegexRoutePath regex d.serializer) := by
    simp [_getRoutePath, hregex, hser]
  refine ⟨hp, ?_⟩
  intro hn
  by_cases hA : d.kind = .AuxRoute
  · exact ⟨_, _, config_of_aux env RuleSet.new d _ hn hA hp⟩
  · by_cases hR : d.kind = .Redirect
    · exact ⟨_, _, config_of_redirect_ok env RuleSet.new d _ hn hR hp
        (by simp [RuleSet.new, assertNoHashCollisionLoop])⟩
    · exact ⟨_, _, config_of_route_ok env RuleSet.new d _ hn hA hR hp
        (by simp [RuleSet.new, assertNoHashCollisionLoop]) (by simp [RuleSet.new])⟩

theorem C7_path_and_regex_together_are_accepted_witness :
    _getRoutePath sampleRouteWithBoth = .ok (.RegexRoutePath "^a$" (.fn 0)) ∧
      (checkName sampleEnv sampleRouteWithBoth = none →
        ∃ b s, config sampleEnv RuleSet.new sampleRouteWithBoth = (.ok b, s)) :=
  C7_path_and_regex_together_are_accepted sampleEnv sampleRouteWithBoth "^a$" "/a"
    rfl rfl rfl

/-- C7 as stated fails: a Route with the path "/a", the regex "^a$" and a
serializer function is configured without error on the empty rule set, and its
rule is appended. -/
theorem C7_counterexample_both_supplied :
    sampleRouteWithBoth.path = .value "/a" ∧ sampleRouteWithBoth.regex = .value "^a$" ∧
      isFunction sampleRouteWithBoth.serializer = true ∧
      config sampleEnv RuleSet.new sampleRouteWithBoth =
        (.ok true,
          { RuleSet.new with
            rules := [.RouteRule (.RegexRoutePath "^a$" (.fn 0))
              (some (.SyncRouteHandler (.object 0) .undefined)) .undefined] }) :=
  ⟨rfl, rfl, rfl, rfl⟩

/-- C8: for every rule set and every Route or AsyncRoute definition on which
`config` succeeds: the new primary sequence is the old one followed by the one
new rule; `rulesByName` maps the name of the definition to the new rule if a
name is present (other keys keep their value) and is unchanged otherwise;
`defaultRule` is the new rule if `useAsDefault` is true and is unchanged
otherwise; both auxiliary maps are unchanged; and the call returns the terminal
flag of the new rule. -/
theorem C8_route_is_appended (env : Env) (self : RuleSet) (d : RouteDefinition)
    (b : Bool) (self' : RuleSet)
    (hkind : d.kind = .Route ∨ d.kind = .AsyncRoute)
    (hok : config env self d = (.ok b, self')) :
    ∃ rp newRule, _getRoutePath d = .ok rp ∧
      newRule = Rule.RouteRule rp
        (some (if d.kind = .Route then Handler.SyncRouteHandler d.component d.data
          else Handler.AsyncRouteHandler d.loader d.data)) d.name ∧
      self'.rules = self.rules ++ [newRule] ∧
      (∀ name, d.name = .value name →
        self'.rulesByName = JsMap.set self.rulesByName name newRule ∧
        JsMap.get self'.rulesByName name = some newRule ∧
        ∀ k, k ≠ name → JsMap.get self'.rulesByName k = JsMap.get self.rulesByName k) ∧
      (isPresent d.name = false → self'.rulesByName = self.rulesByName) ∧
      (d.useAsDefault = .value true → self'.defaultRule = some newRule) ∧
      (d.useAsDefault ≠ .value true → self'.defaultRule = self.defaultRule) ∧
      self'.auxRulesByName = self.auxRulesByName ∧
      self'.auxRulesByPath = self.auxRulesByPath ∧
      b = env.terminal newRule := by
  have hh : handlerOf d = some (if d.kind = .Route then
      Handler.SyncRouteHandler d.component d.data
      else Handler.AsyncRouteHandler d.loader d.data) := by
    rcases hkind with h | h <;> simp [handlerOf, h]
  have hu : useAsDefaultOf d = true ↔ d.useAsDefault = .value true := by
    rcases hkind with h | h <;> cases hv : d.useAsDefault <;> simp [useAsDefaultOf, h, hv]
  rcases config_cases env self d with ⟨e, he⟩ | ⟨rp, _, hA, _, _⟩ | ⟨rp, _, hR, _, _, _⟩ |
    ⟨rp, _, _, _, hp, _, _, he⟩
  · rw [he] at hok; simp at hok
  · rcases hkind with h | h <;> simp [h] at hA
  · rcases hkind with h | h <;> simp [h] at hR
  · rw [he, hh] at hok
    simp only [Prod.mk.injEq, Except.ok.injEq] at hok
    obtain ⟨hb, hs⟩ := hok
    subst hs
    refine ⟨rp, _, hp, rfl, rfl, ?_, ?_, ?_, ?_, rfl, rfl, hb.symm⟩
    · intro name hname
      exact ⟨by simp [registerByName, hname],
        by simp [registerByName, hname, JsMap.get_set_self],
        fun k hk => by simp [registerByName, hname, JsMap.get_set_other _ _ _ _ hk]⟩
    · intro hname
      cases hv : d.name <;> simp [hv, isPresent] at hname <;> simp [registerByName, hv]
    · intro huse
      simp [hu.mpr huse]
    · intro huse
      have : ¬ useAsDefaultOf d = true := fun h => huse (hu.mp h)
      simp [this]

theorem C8_route_is_appended_witness :
    config sampleEnv sampleSetA sampleDefaultNamedB =
        (.ok true,
          { rulesByName :=
              [("A", .RouteRule (.ParamRoutePath "/a")
                  (some (.SyncRouteHandler (.object 0) .undefined)) (.value "A")),
               ("B", .RouteRule (.ParamRoutePath "/b")
                  (some (.SyncRouteHandler (.object 0) .undefined)) (.value "B"))]
            auxRulesByName := []
            auxRulesByPath := []
            rules :=
              [.RouteRule (.ParamRoutePath "/a")
                  (some (.SyncRouteHandler (.object 0) .undefined)) (.value "A"),
               .RouteRule (.ParamRoutePath "/b")
                  (some (.SyncRouteHandler (.object 0) .undefined)) (.value "B")]
            defaultRule := some (.RouteRule (.ParamRoutePath "/b")
                  (some (.SyncRouteHandler (.object 0) .undefined)) (.value "B")) }) ∧
      ∃ rp newRule, _getRoutePath sampleDefaultNamedB = .ok rp ∧
        newRule = Rule.RouteRule rp
          (some (if sampleDefaultNamedB.kind = .Route then
            Handler.SyncRouteHandler sampleDefaultNamedB.component sampleDefaultNamedB.data
            else Handler.AsyncRouteHandler sampleDefaultNamedB.loader sampleDefaultNamedB.data))
          sampleDefaultNamedB.name ∧
        (config sampleEnv sampleSetA sampleDefaultNamedB).2.rules = sampleSetA.rules ++ [newRule] ∧
        (∀ name, sampleDefaultNamedB.name = .value name →
          (config sampleEnv sampleSetA sampleDefaultNamedB).2.rulesByName =
            JsMap.set sampleSetA.rulesByName name newRule ∧
          JsMap.get (config sampleEnv sampleSetA sampleDefaultNamedB).2.rulesByName name =
            some newRule ∧
          ∀ k, k ≠ name →
            JsMap.get (config sampleEnv sampleSetA sampleDefaultNamedB).2.rulesByName k =
              JsMap.get sampleSetA.rulesByName k) ∧
        (isPresent sampleDefaultNamedB.name = false →
          (config sampleEnv sampleSetA sampleDefaultNamedB).2.rulesByName =
            sampleSetA.rulesByName) ∧
        (sampleDefaultNamedB.useAsDefault = .value true →
          (config sampleEnv sampleSetA sampleDefaultNamedB).2.defaultRule = some newRule) ∧
        (sampleDefaultNamedB.useAsDefault ≠ .value true →
          (config sampleEnv sampleSetA sampleDefaultNamedB).2.defaultRule =
            sampleSetA.defaultRule) ∧
        (config sampleEnv sampleSetA sampleDefaultNamedB).2.auxRulesByName =
          sampleSetA.auxRulesByName ∧
        (config sampleEnv sampleSetA sampleDefaultNamedB).2.auxRulesByPath =
          sampleSetA.auxRulesByPath ∧
        true = sampleEnv.terminal newRule :=
  ⟨rfl,
    C8_route_is_appended sampleEnv sampleSetA sampleDefaultNamedB true
      (config sampleEnv sampleSetA sampleDefaultNamedB).2 (Or.inl rfl) rfl⟩

/-- C9: for every rule set and every Redirect definition on which `config`
succeeds: the call returns true, whatever the terminal flag of the redirect
rule; exactly one redirect rule is appended to the primary sequence; and
`rulesByName`, both auxiliary maps and `defaultRule` are unchanged, also when
the definition carries a name or `useAsDefault`. -/
theorem C9_redirect_is_appended (env : Env) (self : RuleSet) (d : RouteDefinition)
    (b : Bool) (self' : RuleSet)
    (hkind : d.kind = .Redirect)
    (hok : config env self d = (.ok b, self')) :
    b = true ∧
      ∃ rp, _getRoutePath d = .ok rp ∧
        self'.rules = self.rules ++ [.RedirectRule rp d.redirectTo] ∧
        self'.rulesByName = self.rulesByName ∧
        self'.auxRulesByName = self.auxRulesByName ∧
        self'.auxRulesByPath = self.auxRulesByPath ∧
        self'.defaultRule = self.defaultRule := by
  rcases config_cases env self d with ⟨e, he⟩ | ⟨rp, _, hA, _, _⟩ | ⟨rp, _, _, hp, _, he⟩ |
    ⟨rp, _, _, hR, _, _, _, _⟩
  · rw [he] at hok; simp at hok
  · simp [hkind] at hA
  · rw [he] at hok
    simp only [Prod.mk.injEq, Except.ok.injEq] at hok
    obtain ⟨hb, hs⟩ := hok
    subst hs
    exact ⟨hb.symm, rp, hp, rfl, rfl, rfl, rfl, rfl⟩
  · exact absurd hkind hR

theorem C9_redirect_is_appended_witness :
    sampleNamedRedirect.name = .value "Old" ∧
      sampleNamedRedirect.useAsDefault = .value true ∧
      sampleEnvNonTerminal.terminal
        (.RedirectRule (.ParamRoutePath "/old") sampleNamedRedirect.redirectTo) = false ∧
      (true = true ∧
        ∃ rp, _getRoutePath sampleNamedRedirect = .ok rp ∧
          (config sampleEnvNonTerminal sampleSetA sampleNamedRedirect).2.rules =
            sampleSetA.rules ++ [.RedirectRule rp sampleNamedRedirect.redirectTo] ∧
          (config sampleEnvNonTerminal sampleSetA sampleNamedRedirect).2.rulesByName =
            sampleSetA.rulesByName ∧
          (config sampleEnvNonTerminal sampleSetA sampleNamedRedirect).2.auxRulesByName =
            sampleSetA.auxRulesByName ∧
          (config sampleEnvNonTerminal sampleSetA sampleNamedRedirect).2.auxRulesByPath =
            sampleSetA.auxRulesByPath ∧
          (config sampleEnvNonTerminal sampleSetA sampleNamedRedirect).2.defaultRule =
            sampleSetA.defaultRule) :=
  ⟨rfl, rfl, rfl,
    C9_redirect_is_appended sampleEnvNonTerminal sampleSetA sampleNamedRedirect true
      (config sampleEnvNonTerminal sampleSetA sampleNamedRedirect).2 rfl rfl⟩

/-- C10: for every rule set and every AuxRoute definition with an acceptable
name and a derivable path matcher: `config` succeeds, with no hash-collision
check; `auxRulesByPath` holds the new rule at the serialized path of the matcher
(an earlier entry at that key is replaced, other keys keep their value);
`auxRulesByName` holds it at the name if a name is present and is unchanged
otherwise; the call returns the terminal flag of the new rule; and the primary
sequence, `rulesByName` and `defaultRule` are unchanged. -/
theorem C10_aux_route_is_stored (env : Env) (self : RuleSet) (d : RouteDefinition)
    (rp : RoutePath)
    (hkind : d.kind = .AuxRoute)
    (hname : checkName env d = none)
    (hpath : _getRoutePath d = .ok rp) :
    ∃ auxRule self',
      auxRule = Rule.RouteRule rp (some (.SyncRouteHandler d.component d.data)) d.name ∧
      config env self d = (.ok (env.terminal auxRule), self') ∧
      self'.auxRulesByPath =
        JsMap.set self.auxRulesByPath (env.routePathToString rp) auxRule ∧
      JsMap.get self'.auxRulesByPath (env.routePathToString rp) = some auxRule ∧
      (∀ k, k ≠ env.routePathToString rp →
        JsMap.get self'.auxRulesByPath k = JsMap.get self.auxRulesByPath k) ∧
      (∀ name, d.name = .value name →
        self'.auxRulesByName = JsMap.set self.auxRulesByName name auxRule ∧
        JsMap.get self'.auxRulesByName name = some auxRule) ∧
      (isPresent d.name = false → self'.auxRulesByName = self.auxRulesByName) ∧
      self'.rules = self.rules ∧
      self'.rulesByName = self.rulesByName ∧
      self'.defaultRule = self.defaultRule := by
  have hh : handlerOf d = some (.SyncRouteHandler d.component d.data) := by
    simp [handlerOf, hkind]
  have he := config_of_aux env self d rp hname hkind hpath
  rw [hh] at he
  refine ⟨_, _, rfl, he, rfl, JsMap.get_set_self _ _ _,
    fun k hk => JsMap.get_set_other _ _ _ _ hk, ?_, ?_, rfl, rfl, rfl⟩
  · intro name hn
    exact ⟨by simp [registerByName, hn], by simp [registerByName, hn, JsMap.get_set_self]⟩
  · intro hn
    cases hv : d.name <;> simp [hv, isPresent] at hn <;> simp [registerByName, hv]

theorem C10_aux_route_is_stored_witness :
    (∃ r ∈ sampleSetA.rules, sampleEnv.hash r =
        sampleEnv.hash (.RouteRule (.ParamRoutePath "/a")
          (some (.SyncRouteHandler (sampleAuxRoute "//a" (.value "Side")).component
            (sampleAuxRoute "//a" (.value "Side")).data))
          (sampleAuxRoute "//a" (.value "Side")).name)) ∧
      ∃ auxRule self',
        auxRule = Rule.RouteRule (.ParamRoutePath "/a")
          (some (.SyncRouteHandler (sampleAuxRoute "//a" (.value "Side")).component
            (sampleAuxRoute "//a" (.value "Side")).data))
          (sampleAuxRoute "//a" (.value "Side")).name ∧
        config sampleEnv sampleSetA (sampleAuxRoute "//a" (.value "Side")) =
          (.ok (sampleEnv.terminal auxRule), self') ∧
        self'.auxRulesByPath =
          JsMap.set sampleSetA.auxRulesByPath
            (sampleEnv.routePathToString (.ParamRoutePath "/a")) auxRule ∧
        JsMap.get self'.auxRulesByPath (sampleEnv.routePathToString (.ParamRoutePath "/a")) =
          some auxRule ∧
        (∀ k, k ≠ sampleEnv.routePathToString (.ParamRoutePath "/a") →
          JsMap.get self'.auxRulesByPath k = JsMap.get sampleSetA.auxRulesByPath k) ∧
        (∀ name, (sampleAuxRoute "//a" (.value "Side")).name = .value name →
          self'.auxRulesByName = JsMap.set sampleSetA.auxRulesByName name auxRule ∧
          JsMap.get self'.auxRulesByName name = some auxRule) ∧
        (isPresent (sampleAuxRoute "//a" (.value "Side")).name = false →
          self'.auxRulesByName = sampleSetA.auxRulesByName) ∧
        self'.rules = sampleSetA.rules ∧
        self'.rulesByName = sampleSetA.rulesByName ∧
        self'.defaultRule = sampleSetA.defaultRule :=
  ⟨by decide,
    C10_aux_route_is_stored sampleEnv sampleSetA (sampleAuxRoute "//a" (.value "Side"))
      (.ParamRoutePath "/a") rfl (by decide) rfl⟩

/-! ## Recognition -/

theorem recognizeLoop_eq_filterMap (ops : RuleOps) (urlParse : Nullable Url)
    (rules : List Rule) (solutions : List Promise) :
    recognizeLoop ops urlParse rules solutions =
      solutions ++ rules.filterMap (fun r => ops.recognize r urlParse) := by
  induction rules generalizing solutions with
  | nil => simp [recognizeLoop]
  | cons r rest ih =>
    cases h : ops.recognize r urlParse with
    | none => simp [recognizeLoop, h, ih, List.filterMap_cons]
    | some pm => simp [recognizeLoop, h, ih, List.filterMap_cons]

/-- C11: for every rule set and URL that at least one primary rule recognizes,
`recognize` returns exactly the results of the primary rules that are not null,
one per matching rule, in the order of the rules; nothing is cut short after the
first match and no entry is synthesized, whatever the auxiliary list of the URL. -/
theorem C11_recognize_collects_every_match (ops : RuleOps) (self : RuleSet)
    (urlParse : Nullable Url)
    (hmatch : ∃ r ∈ self.rules, (ops.recognize r urlParse).isSome = true) :
    recognize ops self urlParse =
      self.rules.filterMap (fun r => ops.recognize r urlParse) := by
  have hne : self.rules.filterMap (fun r => ops.recognize r urlParse) ≠ [] := by
    obtain ⟨r, hr, hsome⟩ := hmatch
    obtain ⟨pm, hpm⟩ := Option.isSome_iff_exists.mp hsome
    intro hnil
    have hmem : pm ∈ self.rules.filterMap (fun r => ops.recognize r urlParse) :=
      List.mem_filterMap.mpr ⟨r, hr, hpm⟩
    rw [hnil] at hmem
    exact List.not_mem_nil _ hmem
  have hlen : (self.rules.filterMap (fun r => ops.recognize r urlParse)).length ≠ 0 :=
    fun h => hne (List.length_eq_zero.mp h)
  cases urlParse with
  | undefined => simp [recognize, recognizeLoop_eq_filterMap]
  | null => simp [recognize, recognizeLoop_eq_filterMap]
  | value url =>
    simp only [recognize, recognizeLoop_eq_filterMap, List.nil_append]
    rw [if_neg (fun h => hlen h.1)]

theorem C11_recognize_collects_every_match_witness :
    recognize sampleOps sampleSetThree (.value { path := "/a/b", auxiliary := [.object 1] }) =
        [Promise.ofRule 2, Promise.ofRule 4] ∧
      recognize sampleOps sampleSetThree (.value { path := "/a/b", auxiliary := [.object 1] }) =
        sampleSetThree.rules.filterMap
          (fun r => sampleOps.recognize r (.value { path := "/a/b", auxiliary := [.object 1] })) :=
  ⟨by decide,
    C11_recognize_collects_every_match sampleOps sampleSetThree
      (.value { path := "/a/b", auxiliary := [.object 1] }) (by decide)⟩

/-- C12: for every rule set and URL that no primary rule recognizes (the empty
rule set included): if the URL is present and its auxiliary list is not empty,
`recognize` returns exactly one entry, the resolved promise of
`new PathMatch(null, null, urlParse.auxiliary)`; otherwise it returns the empty
sequence. -/
theorem C12_recognize_without_a_match (ops : RuleOps) (self : RuleSet)
    (urlParse : Nullable Url)
    (hnone : ∀ r ∈ self.rules, ops.recognize r urlParse = none) :
    (∀ url, urlParse = .value url → url.auxiliary ≠ [] →
        recognize ops self urlParse =
          [Promise.resolve (some (PathMatch.mk .null .null url.auxiliary))]) ∧
      (isPresent urlParse = false → recognize ops self urlParse = []) ∧
      (∀ url, urlParse = .value url → url.auxiliary = [] →
        recognize ops self urlParse = []) := by
  have hnil : self.rules.filterMap (fun r => ops.recognize r urlParse) = [] := by
    apply List.filterMap_eq_nil_iff.mpr
    intro r hr
    exact hnone r hr
  refine ⟨?_, ?_, ?_⟩
  · intro url hurl haux
    have hpos : url.auxiliary.length > 0 := List.length_pos.mpr haux
    subst hurl
    simp only [recognize, recognizeLoop_eq_filterMap, List.nil_append, hnil]
    simp [hpos]
  · intro habsent
    cases urlParse with
    | undefined => simpa [recognize, recognizeLoop_eq_filterMap] using hnil
    | null => simpa [recognize, recognizeLoop_eq_filterMap] using hnil
    | value url => simp [isPresent] at habsent
  · intro url hurl haux
    subst hurl
    simp only [recognize, recognizeLoop_eq_filterMap, List.nil_append, hnil]
    simp [haux]

theorem C12_recognize_without_a_match_witness :
    (∀ url, (Nullable.value { path := "/c", auxiliary := [.object 1] } : Nullable Url)
          = .value url → url.auxiliary ≠ [] →
        recognize sampleOps sampleSetThree (.value { path := "/c", auxiliary := [.object 1] }) =
          [Promise.resolve (some (PathMatch.mk .null .null url.auxiliary))]) ∧
      (isPresent (Nullable.value { path := "/c", auxiliary := [.object 1] } : Nullable Url)
          = false →
        recognize sampleOps sampleSetThree (.value { path := "/c", auxiliary := [.object 1] })
          = []) ∧
      (∀ url, (Nullable.value { path := "/c", auxiliary := [.object 1] } : Nullable Url)
          = .value url → url.auxiliary = [] →
        recognize sampleOps sampleSetThree (.value { path := "/c", auxiliary := [.object 1] })
          = []) :=
  C12_recognize_without_a_match sampleOps sampleSetThree
    (.value { path := "/c", auxiliary := [.object 1] }) (by decide)

/-- C13: for every rule set and URL, `recognizeAuxiliary` returns a sequence of
exactly one entry: what the rule stored in `auxRulesByPath` under the path
string of the URL returns for the URL, if there is such a rule, and a promise
resolved with null otherwise; the result depends on no other field of the rule
set than `auxRulesByPath`. -/
theorem C13_recognizeAuxiliary_one_entry (ops : RuleOps) (self : RuleSet) (url : Url) :
    (∃ entry, recognizeAuxiliary ops self (.value url) = .ok [entry]) ∧
      (∀ rule, JsMap.get self.auxRulesByPath url.path = some rule →
        recognizeAuxiliary ops self (.value url) = .ok [ops.recognize rule (.value url)]) ∧
      (JsMap.get self.auxRulesByPath url.path = none →
        recognizeAuxiliary ops self (.value url) = .ok [some (Promise.resolve none)]) ∧
      (∀ other : RuleSet, other.auxRulesByPath = self.auxRulesByPath →
        recognizeAuxiliary ops other (.value url) = recognizeAuxiliary ops self (.value url)) := by
  refine ⟨?_, ?_, ?_, ?_⟩
  · cases h : JsMap.get self.auxRulesByPath url.path with
    | none => exact ⟨some (Promise.resolve none), by simp [recognizeAuxiliary, h]⟩
    | some rule =>
      exact ⟨ops.recognize rule (.value url), by simp [recognizeAuxiliary, h]⟩
  · intro rule h
    simp [recognizeAuxiliary, h]
  · intro h
    simp [recognizeAuxiliary, h]
  · intro other h
    simp [recognizeAuxiliary, h]

theorem C13_recognizeAuxiliary_one_entry_witness :
    recognizeAuxiliary sampleOps sampleSetThree (.value { path := "side", auxiliary := [] }) =
        .ok [some (Promise.ofRule 4)] ∧
      recognizeAuxiliary sampleOps sampleSetThree (.value { path := "/a", auxiliary := [] }) =
        .ok [some (Promise.resolve none)] :=
  ⟨(C13_recognizeAuxiliary_one_entry sampleOps sampleSetThree
      { path := "side", auxiliary := [] }).2.1
      (.RouteRule (.ParamRoutePath "side") (some (.SyncRouteHandler (.object 0) .undefined))
        (.value "Side")) (by decide),
    (C13_recognizeAuxiliary_one_entry sampleOps sampleSetThree
      { path := "/a", auxiliary := [] }).2.2.1 (by decide)⟩

/-! ## The names registered by `config` -/

theorem JsMap.has_iff_mem_keys {β : Type} (m : JsMap β) (key : String) :
    JsMap.has m key = true ↔ key ∈ JsMap.keys m := by
  induction m with
  | nil => simp [JsMap.has, JsMap.get, JsMap.keys]
  | cons e rest ih =>
    obtain ⟨k, v⟩ := e
    by_cases hk : k = key
    · simp [JsMap.has, JsMap.get, JsMap.keys, hk]
    · have ih2 : (JsMap.get rest key).isSome = true ↔ key ∈ List.map Prod.fst rest := ih
      simp [JsMap.has, JsMap.get, JsMap.keys, hk, ih2, Ne.symm hk]

theorem JsMap.get_eq_none_iff {β : Type} (m : JsMap β) (key : String) :
    JsMap.get m key = none ↔ key ∉ JsMap.keys m := by
  rw [← JsMap.has_iff_mem_keys]
  simp [JsMap.has]

theorem JsMap.mem_keys_set_iff {β : Type} (m : JsMap β) (key k : String) (val : β) :
    k ∈ JsMap.keys (JsMap.set m key val) ↔ k = key ∨ k ∈ JsMap.keys m := by
  constructor
  · exact JsMap.mem_keys_set m key k val
  · intro h
    rw [← JsMap.has_iff_mem_keys]
    by_cases hk : k = key
    · subst hk
      simp [JsMap.has, JsMap.get_set_self]
    · rcases h with h | h
      · exact absurd h hk
      · simp only [JsMap.has, JsMap.get_set_other m key k val hk]
        exact (JsMap.has_iff_mem_keys m k).mpr h

theorem registerByName_mem_keys (m : JsMap Rule) (name : Nullable String) (rule : Rule)
    (k : String) :
    k ∈ JsMap.keys (registerByName m name rule) ↔ name = .value k ∨ k ∈ JsMap.keys m := by
  cases name with
  | undefined => simp [registerByName]
  | null => simp [registerByName]
  | value n =>
    simp only [registerByName, JsMap.mem_keys_set_iff, Nullable.value.injEq]
    constructor
    · rintro (h | h)
      · exact Or.inl h.symm
      · exact Or.inr h
    · rintro (h | h)
      · exact Or.inl h.symm
      · exact Or.inr h

theorem config_rulesByName_keys (env : Env) (self : RuleSet) (d : RouteDefinition)
    (k : String) :
    k ∈ JsMap.keys (config env self d).2.rulesByName ↔
      k ∈ JsMap.keys self.rulesByName ∨ Registers env self d k := by
  rcases config_cases env self d with ⟨e, he⟩ | ⟨rp, _, hA, _, he⟩ | ⟨rp, _, hR, _, _, he⟩ |
    ⟨rp, _, hA, hR, _, _, _, he⟩
  · simp [he, Registers]
  · simp [he, Registers, hA]
  · simp [he, Registers, hR]
  · rw [he]
    simp only [registerByName_mem_keys, Registers]
    constructor
    · rintro (h | h)
      · exact Or.inr ⟨hA, hR, h, _, _, he⟩
      · exact Or.inl h
    · rintro (h | h)
      · exact Or.inr h
      · exact Or.inl h.2.2.1

theorem config_auxRulesByName_keys (env : Env) (self : RuleSet) (d : RouteDefinition)
    (k : String) :
    k ∈ JsMap.keys (config env self d).2.auxRulesByName ↔
      k ∈ JsMap.keys self.auxRulesByName ∨ RegistersAux env self d k := by
  rcases config_cases env self d with ⟨e, he⟩ | ⟨rp, _, hA, _, he⟩ | ⟨rp, _, hR, _, _, he⟩ |
    ⟨rp, _, hA, hR, _, _, _, he⟩
  · simp [he, RegistersAux]
  · rw [he]
    simp only [registerByName_mem_keys, RegistersAux]
    constructor
    · rintro (h | h)
      · exact Or.inr ⟨hA, h, _, _, he⟩
      · exact Or.inl h
    · rintro (h | h)
      · exact Or.inr h
      · exact Or.inl h.2.1
  · simp [he, RegistersAux, hR]
  · simp [he, RegistersAux, hA]

theorem configAll_append (env : Env) (self : RuleSet) (ds1 ds2 : List RouteDefinition) :
    configAll env self (ds1 ++ ds2) = configAll env (configAll env self ds1) ds2 := by
  induction ds1 generalizing self with
  | nil => rfl
  | cons d ds1 ih => exact ih _

theorem configAll_rulesByName_keys (env : Env) (ds : List RouteDefinition) (self : RuleSet)
    (k : String) :
    k ∈ JsMap.keys (configAll env self ds).rulesByName ↔
      k ∈ JsMap.keys self.rulesByName ∨
        ∃ ds1 d ds2, ds = ds1 ++ d :: ds2 ∧ Registers env (configAll env self ds1) d k := by
  induction ds generalizing self with
  | nil => simp [configAll]
  | cons d ds ih =>
    simp only [configAll]
    rw [ih, config_rulesByName_keys]
    constructor
    · rintro ((h | h) | ⟨ds1, d0, ds2, hds, hreg⟩)
      · exact Or.inl h
      · exact Or.inr ⟨[], d, ds, rfl, h⟩
      · exact Or.inr ⟨d :: ds1, d0, ds2, by simp [hds], hreg⟩
    · rintro (h | ⟨ds1, d0, ds2, hds, hreg⟩)
      · exact Or.inl (Or.inl h)
      · cases ds1 with
        | nil =>
          simp only [List.nil_append, List.cons.injEq] at hds
          obtain ⟨h1, _⟩ := hds
          subst h1
          exact Or.inl (Or.inr hreg)
        | cons d1 ds1 =>
          simp only [List.cons_append, List.cons.injEq] at hds
          obtain ⟨h1, h2⟩ := hds
          subst h1
          exact Or.inr ⟨ds1, d0, ds2, h2, hreg⟩

theorem configAll_auxRulesByName_keys (env : Env) (ds : List RouteDefinition) (self : RuleSet)
    (k : String) :
    k ∈ JsMap.keys (configAll env self ds).auxRulesByName ↔
      k ∈ JsMap.keys self.auxRulesByName ∨
        ∃ ds1 d ds2, ds = ds1 ++ d :: ds2 ∧ RegistersAux env (configAll env self ds1) d k := by
  induction ds generalizing self with
  | nil => simp [configAll]
  | cons d ds ih =>
    simp only [configAll]
    rw [ih, config_auxRulesByName_keys]
    constructor
    · rintro ((h | h) | ⟨ds1, d0, ds2, hds, hreg⟩)
      · exact Or.inl h
      · exact Or.inr ⟨[], d, ds, rfl, h⟩
      · exact Or.inr ⟨d :: ds1, d0, ds2, by simp [hds], hreg⟩
    · rintro (h | ⟨ds1, d0, ds2, hds, hreg⟩)
      · exact Or.inl (Or.inl h)
      · cases ds1 with
        | nil =>
          simp only [List.nil_append, List.cons.injEq] at hds
          obtain ⟨h1, _⟩ := hds
          subst h1
          exact Or.inl (Or.inr hreg)
        | cons d1 ds1 =>
          simp only [List.cons_append, List.cons.injEq] at hds
          obtain ⟨h1, h2⟩ := hds
          subst h1
          exact Or.inr ⟨ds1, d0, ds2, h2, hreg⟩

theorem config_rulesByName_of_no_registration (env : Env) (self : RuleSet)
    (d : RouteDefinition)
    (h : d.kind = .AuxRoute ∨ d.kind = .Redirect ∨ ∃ e s, config env self d = (.error e, s)) :
    (config env self d).2.rulesByName = self.rulesByName := by
  rcases config_cases env self d with ⟨e, he⟩ | ⟨rp, _, hA, _, he⟩ | ⟨rp, _, hR, _, _, he⟩ |
    ⟨rp, _, hA, hR, _, _, _, he⟩
  · rw [he]
  · rw [he]
  · rw [he]
  · rcases h with h | h | ⟨e, s, h⟩
    · exact absurd h hA
    · exact absurd h hR
    · rw [he] at h
      simp at h

theorem get_registerByName (m : JsMap Rule) (name : Nullable String) (rule r : Rule)
    (k : String) (h : JsMap.get (registerByName m name rule) k = some r) :
    r = rule ∨ JsMap.get m k = some r := by
  cases name with
  | undefined => exact Or.inr h
  | null => exact Or.inr h
  | value n =>
    by_cases hk : k = n
    · subst hk
      simp only [registerByName, JsMap.get_set_self, Option.some.injEq] at h
      exact Or.inl h.symm
    · simp only [registerByName, JsMap.get_set_other m n k rule hk] at h
      exact Or.inr h

/-- Every rule registered by name has a handler. -/
theorem config_named_rules_have_handlers (env : Env) (self : RuleSet) (d : RouteDefinition)
    (hkind : d.kind ≠ .Plain)
    (h : ∀ k r, JsMap.get self.rulesByName k = some r → ∃ handler, r.handler = some handler) :
    ∀ k r, JsMap.get (config env self d).2.rulesByName k = some r →
      ∃ handler, r.handler = some handler := by
  rcases config_cases env self d with ⟨e, he⟩ | ⟨rp, _, hA, _, he⟩ | ⟨rp, _, hR, _, _, he⟩ |
    ⟨rp, _, hA, hR, _, _, _, he⟩
  · rw [he]; exact h
  · rw [he]; exact h
  · rw [he]; exact h
  · rw [he]
    intro k r hget
    rcases get_registerByName _ _ _ _ _ hget with hr | hr
    · subst hr
      cases hk : d.kind <;> simp [hk] at hA hR hkind <;> simp [Rule.handler, handlerOf, hk]
    · exact h k r hr

theorem configAll_named_rules_have_handlers (env : Env) (ds : List RouteDefinition)
    (self : RuleSet) (hkinds : ∀ d ∈ ds, d.kind ≠ .Plain)
    (h : ∀ k r, JsMap.get self.rulesByName k = some r → ∃ handler, r.handler = some handler) :
    ∀ k r, JsMap.get (configAll env self ds).rulesByName k = some r →
      ∃ handler, r.handler = some handler := by
  induction ds generalizing self with
  | nil => exact h
  | cons d ds ih =>
    exact ih _ (fun d0 hd0 => hkinds d0 (List.mem_cons_of_mem _ hd0))
      (config_named_rules_have_handlers env self d (hkinds d (List.mem_cons_self _ _)) h)

/-! ## The claims on the queries by name -/

/-- C14: for every sequence of `config` calls on an initially empty rule set,
with definitions of the four classes, and every name: `hasRoute(name)` is true
if and only if some call of the sequence succeeded for a Route or AsyncRoute
carrying that name; and a successful call for an AuxRoute or a Redirect, or a
failed call, leaves the value of `hasRoute` as it was. -/
theorem C14_hasRoute_iff_registered (env : Env) (ds : List RouteDefinition) (name : String)
    (hkinds : ∀ d ∈ ds, d.kind ≠ .Plain) :
    (hasRoute (configAll env RuleSet.new ds) name = true ↔
        ∃ ds1 d ds2, ds = ds1 ++ d :: ds2 ∧ (d.kind = .Route ∨ d.kind = .AsyncRoute) ∧
          d.name = .value name ∧
          ∃ b s, config env (configAll env RuleSet.new ds1) d = (.ok b, s)) ∧
      (∀ self d,
        (d.kind = .AuxRoute ∨ d.kind = .Redirect ∨ ∃ e s, config env self d = (.error e, s)) →
        hasRoute (config env self d).2 name = hasRoute self name) := by
  constructor
  · rw [hasRoute, JsMap.has_iff_mem_keys, configAll_rulesByName_keys]
    constructor
    · rintro (h | ⟨ds1, d, ds2, hds, hA, hR, hname, hok⟩)
      · simp [RuleSet.new, JsMap.keys] at h
      · refine ⟨ds1, d, ds2, hds, ?_, hname, hok⟩
        have hP : d.kind ≠ .Plain := hkinds d (by simp [hds])
        cases hk : d.kind <;> simp [hk] at hA hR hP ⊢
    · rintro ⟨ds1, d, ds2, hds, hkind, hname, hok⟩
      refine Or.inr ⟨ds1, d, ds2, hds, ?_, ?_, hname, hok⟩
      · rcases hkind with h | h <;> simp [h]
      · rcases hkind with h | h <;> simp [h]
  · intro self d h
    simp only [hasRoute, config_rulesByName_of_no_registration env self d h]

theorem C14_hasRoute_iff_registered_witness :
    hasRoute (configAll sampleEnv RuleSet.new
        [sampleAuxRoute "/side" (.value "Side"), sampleRoute "/a" (.value "A"),
          sampleRedirect "/old"]) "A" = true ∧
      hasRoute (configAll sampleEnv RuleSet.new
        [sampleAuxRoute "/side" (.value "Side"), sampleRoute "/a" (.value "A"),
          sampleRedirect "/old"]) "Side" = false ∧
      ∃ ds1 d ds2,
        [sampleAuxRoute "/side" (.value "Side"), sampleRoute "/a" (.value "A"),
          sampleRedirect "/old"] = ds1 ++ d :: ds2 ∧
        (d.kind = .Route ∨ d.kind = .AsyncRoute) ∧ d.name = .value "A" ∧
        ∃ b s, config sampleEnv (configAll sampleEnv RuleSet.new ds1) d = (.ok b, s) :=
  ⟨by decide, by decide,
    (C14_hasRoute_iff_registered sampleEnv
      [sampleAuxRoute "/side" (.value "Side"), sampleRoute "/a" (.value "A"),
        sampleRedirect "/old"] "A" (by decide)).1.mp (by decide)⟩

/-- C15: for every rule set and name, `componentLoaded(name)` returns true if
and only if `hasRoute(name)` holds and the handler of the rule registered under
the name has a present `componentType`; when the rule has a handler the call
returns whether that `componentType` is present; and for a name that is not
registered it returns false without failing. -/
theorem C15_componentLoaded (ops : RuleOps) (self : RuleSet) (name : String) :
    (componentLoaded ops self name = .ok true ↔
        hasRoute self name = true ∧
          ∃ rule handler, JsMap.get self.rulesByName name = some rule ∧
            rule.handler = some handler ∧ isPresent (ops.componentType handler) = true) ∧
      (∀ rule handler, JsMap.get self.rulesByName name = some rule →
        rule.handler = some handler →
        componentLoaded ops self name = .ok (isPresent (ops.componentType handler))) ∧
      (hasRoute self name = false → componentLoaded ops self name = .ok false) := by
  refine ⟨?_, ?_, ?_⟩
  · cases hget : JsMap.get self.rulesByName name with
    | none => simp [componentLoaded, hasRoute, JsMap.has, hget]
    | some rule =>
      cases hh : rule.handler with
      | none => simp [componentLoaded, hasRoute, JsMap.has, hget, hh]
      | some handler => simp [componentLoaded, hasRoute, JsMap.has, hget, hh]
  · intro rule handler hget hh
    simp [componentLoaded, hasRoute, JsMap.has, hget, hh]
  · intro hno
    simp [componentLoaded, hno]

theorem C15_componentLoaded_witness :
    componentLoaded sampleOps sampleSetThree "A" = .ok true ∧
      componentLoaded sampleOps sampleSetThree "AB" = .ok false ∧
      componentLoaded sampleOps sampleSetThree "Side" = .ok false :=
  ⟨(C15_componentLoaded sampleOps sampleSetThree "A").1.mpr
      ⟨by decide, sampleRuleA, .SyncRouteHandler (.object 0) .undefined,
        by decide, rfl, rfl⟩,
    (C15_componentLoaded sampleOps sampleSetThree "AB").2.1
      (.RouteRule (.ParamRoutePath "/a/b") (some (.AsyncRouteHandler (.fn 2) .undefined))
        (.value "AB"))
      (.AsyncRouteHandler (.fn 2) .undefined) (by decide) rfl,
    (C15_componentLoaded sampleOps sampleSetThree "Side").2.2 (by decide)⟩

/-- C16: for every rule set and name, where the rule registered under the name,
if any, has a handler (as every rule has that `config` registers for a Route or
an AsyncRoute): `loadComponent(name)` fails if and only if `hasRoute(name)` is
false; when `hasRoute(name)` is true it returns what `resolveComponentType` of
the handler of the registered rule returns; and the rule set is left as it was. -/
theorem C16_loadComponent (ops : RuleOps) (self : RuleSet) (name : String)
    (hhandler : ∀ rule, JsMap.get self.rulesByName name = some rule →
      ∃ handler, rule.handler = some handler) :
    ((∃ e, loadComponent ops self name = (.error e, self)) ↔ hasRoute self name = false) ∧
      (hasRoute self name = true →
        ∃ rule handler, JsMap.get self.rulesByName name = some rule ∧
          rule.handler = some handler ∧
          loadComponent ops self name = (.ok (ops.resolveComponentType handler), self)) ∧
      (loadComponent ops self name).2 = self := by
  cases hget : JsMap.get self.rulesByName name with
  | none =>
    refine ⟨?_, ?_, ?_⟩
    · simp [loadComponent, hasRoute, JsMap.has, hget]
    · simp [hasRoute, JsMap.has, hget]
    · simp [loadComponent, hget]
  | some rule =>
    obtain ⟨handler, hh⟩ := hhandler rule hget
    refine ⟨?_, ?_, ?_⟩
    · simp [loadComponent, hasRoute, JsMap.has, hget, hh]
    · intro _
      exact ⟨rule, handler, rfl, hh, by simp [loadComponent, hget, hh]⟩
    · simp [loadComponent, hget, hh]

theorem C16_loadComponent_witness :
    loadComponent sampleOps sampleSetThree "AB" = (.ok (.object 8), sampleSetThree) ∧
      (∃ e, loadComponent sampleOps sampleSetThree "Side" = (.error e, sampleSetThree)) ∧
      ∃ rule handler, JsMap.get sampleSetThree.rulesByName "AB" = some rule ∧
        rule.handler = some handler ∧
        loadComponent sampleOps sampleSetThree "AB" =
          (.ok (sampleOps.resolveComponentType handler), sampleSetThree) :=
  ⟨rfl,
    (C16_loadComponent sampleOps sampleSetThree "Side"
      (fun rule h => by
        have hnone : JsMap.get sampleSetThree.rulesByName "Side" = none := by decide
        rw [hnone] at h
        cases h)).1.mpr (by decide),
    (C16_loadComponent sampleOps sampleSetThree "AB"
      (fun rule h => by
        have hsome : JsMap.get sampleSetThree.rulesByName "AB" =
            some (.RouteRule (.ParamRoutePath "/a/b")
              (some (.AsyncRouteHandler (.fn 2) .undefined)) (.value "AB")) := by decide
        rw [hsome] at h
        cases h
        exact ⟨_, rfl⟩)).2.1 (by decide)⟩

/-- C17: for every rule set, name and params: `generate(name, params)` returns
null, without failing, when the name is no key of `rulesByName`, and otherwise
is what `generate(params)` of the registered rule gives; `generateAuxiliary` does
the same over `auxRulesByName`.  The two maps are independent: after any
sequence of `config` calls on the empty rule set in which only AuxRoute
definitions carry the name, `generate` returns null for it, and when only Route
and AsyncRoute definitions carry it, `generateAuxiliary` returns null for it. -/
theorem C17_generate (ops : RuleOps) (env : Env) (self : RuleSet) (name : String)
    (params : Value) :
    (hasRoute self name = false → generate ops self name params = .ok .null) ∧
      (∀ rule, JsMap.get self.rulesByName name = some rule →
        generate ops self name params = ops.generate rule params) ∧
      (JsMap.has self.auxRulesByName name = false →
        generateAuxiliary ops self name params = .ok .null) ∧
      (∀ rule, JsMap.get self.auxRulesByName name = some rule →
        generateAuxiliary ops self name params = ops.generate rule params) ∧
      (∀ ds : List RouteDefinition, (∀ d ∈ ds, d.name = .value name → d.kind = .AuxRoute) →
        generate ops (configAll env RuleSet.new ds) name params = .ok .null) ∧
      (∀ ds : List RouteDefinition,
        (∀ d ∈ ds, d.name = .value name → d.kind = .Route ∨ d.kind = .AsyncRoute) →
        generateAuxiliary ops (configAll env RuleSet.new ds) name params = .ok .null) := by
  have hgen : ∀ s : RuleSet, name ∉ JsMap.keys s.rulesByName →
      generate ops s name params = .ok .null := by
    intro s hk
    simp [generate, (JsMap.get_eq_none_iff _ _).mpr hk]
  have hgenAux : ∀ s : RuleSet, name ∉ JsMap.keys s.auxRulesByName →
      generateAuxiliary ops s name params = .ok .null := by
    intro s hk
    simp [generateAuxiliary, (JsMap.get_eq_none_iff _ _).mpr hk]
  refine ⟨?_, ?_, ?_, ?_, ?_, ?_⟩
  · intro h
    apply hgen
    intro hk
    rw [hasRoute, (JsMap.has_iff_mem_keys _ _).mpr hk] at h
    cases h
  · intro rule h
    simp [generate, h]
  · intro h
    apply hgenAux
    intro hk
    rw [(JsMap.has_iff_mem_keys _ _).mpr hk] at h
    cases h
  · intro rule h
    simp [generateAuxiliary, h]
  · intro ds hds
    apply hgen
    rw [configAll_rulesByName_keys]
    rintro (h | ⟨ds1, d, ds2, hsplit, hA, _, hname, _⟩)
    · simp [RuleSet.new, JsMap.keys] at h
    · exact hA (hds d (by simp [hsplit]) hname)
  · intro ds hds
    apply hgenAux
    rw [configAll_auxRulesByName_keys]
    rintro (h | ⟨ds1, d, ds2, hsplit, hA, hname, _⟩)
    · simp [RuleSet.new, JsMap.keys] at h
    · rcases hds d (by simp [hsplit]) hname with hk | hk <;> simp [hk] at hA

theorem C17_generate_witness :
    generate sampleOps sampleSetThree "NoSuchRoute" .null = .ok .null ∧
      generate sampleOps sampleSetThree "A" .null = sampleOps.generate sampleRuleA .null ∧
      generate sampleOps
        (configAll sampleEnv RuleSet.new
          [sampleRoute "/a" (.value "A"), sampleAuxRoute "/side" (.value "Side")])
        "Side" .null = .ok .null ∧
      generateAuxiliary sampleOps
        (configAll sampleEnv RuleSet.new
          [sampleRoute "/a" (.value "A"), sampleAuxRoute "/side" (.value "Side")])
        "A" .null = .ok .null :=
  ⟨(C17_generate sampleOps sampleEnv sampleSetThree "NoSuchRoute" .null).1 (by decide),
    (C17_generate sampleOps sampleEnv sampleSetThree "A" .null).2.1 sampleRuleA (by decide),
    (C17_generate sampleOps sampleEnv sampleSetThree "Side" .null).2.2.2.2.1
      [sampleRoute "/a" (.value "A"), sampleAuxRoute "/side" (.value "Side")] (by decide),
    (C17_generate sampleOps sampleEnv sampleSetThree "A" .null).2.2.2.2.2
      [sampleRoute "/a" (.value "A"), sampleAuxRoute "/side" (.value "Side")] (by decide)⟩

/-! ## Rules by name and the primary sequence -/

/-- Every rule that `config` registers by name is a rule of the primary sequence. -/
theorem config_named_rules_in_rules (env : Env) (self : RuleSet) (d : RouteDefinition)
    (h : ∀ k r, JsMap.get self.rulesByName k = some r → r ∈ self.rules) :
    ∀ k r, JsMap.get (config env self d).2.rulesByName k = some r →
      r ∈ (config env self d).2.rules := by
  rcases config_cases env self d with ⟨e, he⟩ | ⟨rp, _, _, _, he⟩ | ⟨rp, _, _, _, _, he⟩ |
    ⟨rp, _, _, _, _, _, _, he⟩
  · rw [he]; exact h
  · rw [he]; exact h
  · rw [he]
    intro k r hget
    exact List.mem_append_left _ (h k r hget)
  · rw [he]
    intro k r hget
    rcases get_registerByName _ _ _ _ _ hget with hr | hr
    · subst hr
      exact List.mem_append_right _ (List.mem_singleton_self _)
    · exact List.mem_append_left _ (h k r hr)

theorem configAll_named_rules_in_rules (env : Env) (ds : List RouteDefinition) (self : RuleSet)
    (h : ∀ k r, JsMap.get self.rulesByName k = some r → r ∈ self.rules) :
    ∀ k r, JsMap.get (configAll env self ds).rulesByName k = some r →
      r ∈ (configAll env self ds).rules := by
  induction ds generalizing self with
  | nil => exact h
  | cons d ds ih => exact ih _ (config_named_rules_in_rules env self d h)

/-- What a rule of the primary sequence returns for a URL, if not null, is an
entry of the result of `recognize`. -/
theorem recognize_mem_of_rule (ops : RuleOps) (self : RuleSet) (urlParse : Nullable Url)
    (r : Rule) (pm : Promise) (hr : r ∈ self.rules) (hpm : ops.recognize r urlParse = some pm) :
    pm ∈ recognize ops self urlParse := by
  have hmem : pm ∈ self.rules.filterMap (fun r => ops.recognize r urlParse) :=
    List.mem_filterMap.mpr ⟨r, hr, hpm⟩
  have hlen : (self.rules.filterMap (fun r => ops.recognize r urlParse)).length ≠ 0 := by
    intro h0
    rw [List.length_eq_zero.mp h0] at hmem
    exact List.not_mem_nil _ hmem
  cases urlParse with
  | undefined => simpa [recognize, recognizeLoop_eq_filterMap] using hmem
  | null => simpa [recognize, recognizeLoop_eq_filterMap] using hmem
  | value url =>
    simp only [recognize, recognizeLoop_eq_filterMap, List.nil_append]
    rw [if_neg (fun h => hlen h.1)]
    exact hmem

/-! ## The path of an auxiliary route -/

/-- C30: for every definition with a path `p` and no regex: if it is an AuxRoute,
the path matcher is built from `p` without its first character when `p` starts
with "/" (exactly one "/" is removed), and from `p` itself otherwise; if it is a
Route, an AsyncRoute or a Redirect, the matcher is built from `p` itself.
`config` stores an AuxRoute under the serialized path of that matcher, so the
AuxRoute paths "/a" and "a" share one key. -/
theorem C30_aux_route_path_is_stripped (env : Env) (self : RuleSet) (d : RouteDefinition)
    (p : String)
    (hregex : isPresent d.regex = false) (hpath : d.path = .value p) :
    (d.kind = .AuxRoute → ∀ rest, p.data = '/' :: rest →
        _getRoutePath d = .ok (.ParamRoutePath (String.mk rest))) ∧
      (d.kind = .AuxRoute → (∀ rest, p.data ≠ '/' :: rest) →
        _getRoutePath d = .ok (.ParamRoutePath p)) ∧
      (d.kind = .Route ∨ d.kind = .AsyncRoute ∨ d.kind = .Redirect →
        _getRoutePath d = .ok (.ParamRoutePath p)) ∧
      (d.kind = .AuxRoute → checkName env d = none → ∀ rp, _getRoutePath d = .ok rp →
        (config env self d).2.auxRulesByPath =
          JsMap.set self.auxRulesByPath (env.routePathToString rp)
            (.RouteRule rp (handlerOf d) d.name)) := by
  refine ⟨?_, ?_, ?_, ?_⟩
  · intro hk rest hrest
    cases hd : d.regex <;> simp [hd, isPresent] at hregex <;>
      simp [_getRoutePath, hd, hpath, hk, hrest]
  · intro hk hrest
    cases hd : d.regex <;> simp [hd, isPresent] at hregex <;>
      (cases hdata : p.data with
        | nil => simp [_getRoutePath, hd, hpath, hk, hdata]
        | cons c cs =>
          have hc : c ≠ '/' := fun hc => hrest cs (by rw [hdata, hc])
          simp [_getRoutePath, hd, hpath, hk, hdata, hc])
  · intro hk
    cases hd : d.regex <;> simp [hd, isPresent] at hregex <;>
      (rcases hk with hk | hk | hk <;> simp [_getRoutePath, hd, hpath, hk])
  · intro hk hn rp hp
    rw [config_of_aux env self d rp hn hk hp]

theorem C30_aux_route_path_is_stripped_witness :
    _getRoutePath (sampleAuxRoute "/a" .undefined) = .ok (.ParamRoutePath "a") ∧
      _getRoutePath (sampleAuxRoute "a" .undefined) = .ok (.ParamRoutePath "a") ∧
      _getRoutePath (sampleAuxRoute "//a" .undefined) = .ok (.ParamRoutePath "/a") ∧
      _getRoutePath (sampleRoute "/a" .undefined) = .ok (.ParamRoutePath "/a") ∧
      JsMap.keys (configAll sampleEnv RuleSet.new
        [sampleAuxRoute "/a" .undefined, sampleAuxRoute "a" .undefined]).auxRulesByPath =
          ["a"] :=
  ⟨(C30_aux_route_path_is_stripped sampleEnv RuleSet.new (sampleAuxRoute "/a" .undefined) "/a"
      rfl rfl).1 rfl ['a'] rfl,
    (C30_aux_route_path_is_stripped sampleEnv RuleSet.new (sampleAuxRoute "a" .undefined) "a"
      rfl rfl).2.1 rfl
      (by
        intro rest h
        have h2 : ['a'] = '/' :: rest := h
        simp at h2),
    (C30_aux_route_path_is_stripped sampleEnv RuleSet.new (sampleAuxRoute "//a" .undefined)
      "//a" rfl rfl).1 rfl ['/', 'a'] rfl,
    (C30_aux_route_path_is_stripped sampleEnv RuleSet.new (sampleRoute "/a" .undefined) "/a"
      rfl rfl).2.2.1 (Or.inl rfl),
    by decide⟩

/-! ## Atomicity of `config` and repeated names -/

theorem checkName_of_same_name (env : Env) (d1 d2 : RouteDefinition)
    (hname : d2.name = d1.name) (h1 : checkName env d1 = none) : checkName env d2 = none := by
  cases hn : d1.name with
  | undefined => simp [checkName, hname, hn]
  | null => simp [checkName, hname, hn]
  | value name =>
    simp only [checkName, hn] at h1
    simp only [checkName, hname, hn]
    cases hdata : name.data with
    | nil => rw [hdata] at h1; simp at h1
    | cons c rest =>
      rw [hdata] at h1
      by_cases hc : env.toUpperCase (String.singleton c) = String.singleton c
      · simp [hc]
      · simp [hc] at h1

/-- The outcome of `config`, apart from the rule set it leaves, is the same on
two rule sets with the same primary sequence and the same default rule. -/
theorem config_outcome_of_same_rules (env : Env) (self other : RuleSet) (d : RouteDefinition)
    (hrules : other.rules = self.rules) (hdef : other.defaultRule = self.defaultRule) :
    (config env other d).1 = (config env self d).1 := by
  cases hn : checkName env d with
  | some e =>
    rw [config_of_checkName_error env other d e hn, config_of_checkName_error env self d e hn]
  | none =>
    cases hp : _getRoutePath d with
    | error e =>
      rw [config_of_getRoutePath_error env other d e hn hp,
        config_of_getRoutePath_error env self d e hn hp]
    | ok rp =>
      by_cases hA : d.kind = .AuxRoute
      · rw [config_of_aux env other d rp hn hA hp, config_of_aux env self d rp hn hA hp]
      · by_cases hR : d.kind = .Redirect
        · cases hc : assertNoHashCollisionLoop env (env.hash (.RedirectRule rp d.redirectTo))
            d.path self.rules with
          | error e =>
            rw [config_of_redirect_collision env other d rp e hn hR hp (hrules ▸ hc),
              config_of_redirect_collision env self d rp e hn hR hp hc]
          | ok u =>
            cases u
            rw [config_of_redirect_ok env other d rp hn hR hp (hrules ▸ hc),
              config_of_redirect_ok env self d rp hn hR hp hc]
        · cases hc : assertNoHashCollisionLoop env
            (env.hash (.RouteRule rp (handlerOf d) d.name)) d.path self.rules with
          | error e =>
            rw [config_of_route_collision env other d rp e hn hA hR hp (hrules ▸ hc),
              config_of_route_collision env self d rp e hn hA hR hp hc]
          | ok u =>
            cases u
            by_cases hud : useAsDefaultOf d = true ∧ self.defaultRule.isSome = true
            · rw [config_of_route_second_default env other d rp hn hA hR hp (hrules ▸ hc)
                  hud.1 (hdef ▸ hud.2),
                config_of_route_second_default env self d rp hn hA hR hp hc hud.1 hud.2]
            · rw [config_of_route_ok env other d rp hn hA hR hp (hrules ▸ hc)
                  (hdef ▸ hud),
                config_of_route_ok env self d rp hn hA hR hp hc hud]

/-- C31: `config` is atomic on every failure: whenever a call throws, the rule
set is left with `rules`, `rulesByName`, `auxRulesByName`, `auxRulesByPath` and
`defaultRule` as they were before the call.  This is so for a failure of the
name check, for a failure of the path-matcher derivation (no path and no regex,
or a regex without a serializer function), and for a second default-marked
route, which throws and keeps the earlier default. -/
theorem C31_config_is_atomic (env : Env) (self : RuleSet) (d : RouteDefinition) :
    (∀ e s, config env self d = (.error e, s) →
        s = self ∧ s.rules = self.rules ∧ s.rulesByName = self.rulesByName ∧
          s.auxRulesByName = self.auxRulesByName ∧ s.auxRulesByPath = self.auxRulesByPath ∧
          s.defaultRule = self.defaultRule) ∧
      (∀ e, checkName env d = some e → config env self d = (.error e, self)) ∧
      (∀ e, checkName env d = none → _getRoutePath d = .error e →
        config env self d = (.error e, self)) ∧
      (∀ r, self.defaultRule = some r → (d.kind = .Route ∨ d.kind = .AsyncRoute) →
        d.useAsDefault = .value true →
        (∃ e, config env self d = (.error e, self)) ∧
          (config env self d).2.defaultRule = some r) := by
  refine ⟨?_, fun e hn => config_of_checkName_error env self d e hn,
    fun e hn hp => config_of_getRoutePath_error env self d e hn hp, ?_⟩
  · intro e s hfail
    have hs : s = self := by
      rcases config_cases env self d with ⟨e2, he⟩ | ⟨rp, _, _, _, he⟩ | ⟨rp, _, _, _, _, he⟩ |
        ⟨rp, _, _, _, _, _, _, he⟩
      · rw [he] at hfail
        exact (Prod.mk.inj hfail).2.symm
      · rw [he] at hfail; simp at hfail
      · rw [he] at hfail; simp at hfail
      · rw [he] at hfail; simp at hfail
    subst hs
    exact ⟨rfl, rfl, rfl, rfl, rfl, rfl⟩
  · intro r hdef hkind huse
    have hu : useAsDefaultOf d = true := by
      rcases hkind with h | h <;> simp [useAsDefaultOf, h, huse]
    refine ⟨?_, config_keeps_defaultRule env self d r hdef⟩
    rcases config_cases env self d with ⟨e, he⟩ | ⟨rp, _, hA, _, _⟩ | ⟨rp, _, hR, _, _, _⟩ |
      ⟨rp, _, _, _, _, _, hud, _⟩
    · exact ⟨e, he⟩
    · rcases hkind with h | h <;> simp [h] at hA
    · rcases hkind with h | h <;> simp [h] at hR
    · exact absurd ⟨hu, by simp [hdef]⟩ hud

theorem C31_config_is_atomic_witness :
    config sampleEnv (configAll sampleEnv RuleSet.new [sampleDefaultRoute "/a"])
        sampleDefaultNamedB =
        (.error (.BaseException "Only one route can be default"),
          configAll sampleEnv RuleSet.new [sampleDefaultRoute "/a"]) ∧
      (config sampleEnv (configAll sampleEnv RuleSet.new [sampleDefaultRoute "/a"])
        sampleDefaultNamedB).2.rules =
        (configAll sampleEnv RuleSet.new [sampleDefaultRoute "/a"]).rules ∧
      config sampleEnv sampleSetA sampleRegexOnly =
        (.error (.BaseException
          "Route provides a regex property, '^a$', but no serializer property"), sampleSetA) :=
  ⟨rfl,
    ((C31_config_is_atomic sampleEnv (configAll sampleEnv RuleSet.new [sampleDefaultRoute "/a"])
      sampleDefaultNamedB).1 (.BaseException "Only one route can be default") _ rfl).2.1,
    (C31_config_is_atomic sampleEnv sampleSetA sampleRegexOnly).2.2.1 _ (by decide) rfl⟩

theorem useAsDefaultOf_iff (d : RouteDefinition)
    (hkind : d.kind = .Route ∨ d.kind = .AsyncRoute) :
    useAsDefaultOf d = true ↔ d.useAsDefault = .value true := by
  rcases hkind with h | h <;> cases hv : d.useAsDefault <;> simp [useAsDefaultOf, h, hv]

/-- C34, as the code has it: `config` never rejects a definition because its
name is already registered (the outcome of a call does not depend on
`rulesByName`).  For every rule set and two Route or AsyncRoute definitions with
the same acceptable name and derivable path matchers, whose rules differ in hash
from each other and from every rule already in the primary sequence, and
neither of which is a second default: `config` succeeds both times, both rules
are at the end of the primary sequence in insertion order, and afterwards
`rulesByName` maps the name to the later rule, which `generate`,
`componentLoaded` and `loadComponent` then use. -/
theorem C34_later_rule_wins_a_repeated_name (env : Env) (ops : RuleOps) (self : RuleSet)
    (d1 d2 : RouteDefinition) (name : String) (rp1 rp2 : RoutePath) (params : Value)
    (hk1 : d1.kind = .Route ∨ d1.kind = .AsyncRoute)
    (hk2 : d2.kind = .Route ∨ d2.kind = .AsyncRoute)
    (hn1 : d1.name = .value name) (hn2 : d2.name = .value name)
    (hname : checkName env d1 = none)
    (hp1 : _getRoutePath d1 = .ok rp1) (hp2 : _getRoutePath d2 = .ok rp2)
    (hh : env.hash (.RouteRule rp1 (handlerOf d1) d1.name) ≠
      env.hash (.RouteRule rp2 (handlerOf d2) d2.name))
    (hh1 : ∀ x ∈ self.rules, env.hash x ≠ env.hash (.RouteRule rp1 (handlerOf d1) d1.name))
    (hh2 : ∀ x ∈ self.rules, env.hash x ≠ env.hash (.RouteRule rp2 (handlerOf d2) d2.name))
    (hd1 : d1.useAsDefault = .value true → self.defaultRule = none)
    (hd2 : d2.useAsDefault = .value true →
      self.defaultRule = none ∧ d1.useAsDefault ≠ .value true) :
    ∃ s1 s2 handler2,
      config env self d1 = (.ok (env.terminal (.RouteRule rp1 (handlerOf d1) d1.name)), s1) ∧
      config env s1 d2 = (.ok (env.terminal (.RouteRule rp2 (handlerOf d2) d2.name)), s2) ∧
      s2.rules = self.rules ++
        [.RouteRule rp1 (handlerOf d1) d1.name, .RouteRule rp2 (handlerOf d2) d2.name] ∧
      JsMap.get s2.rulesByName name = some (.RouteRule rp2 (handlerOf d2) d2.name) ∧
      handlerOf d2 = some handler2 ∧
      generate ops s2 name params =
        ops.generate (.RouteRule rp2 (handlerOf d2) d2.name) params ∧
      componentLoaded ops s2 name = .ok (isPresent (ops.componentType handler2)) ∧
      loadComponent ops s2 name = (.ok (ops.resolveComponentType handler2), s2) ∧
      ∀ (d : RouteDefinition) (m : JsMap Rule),
        (config env { self with rulesByName := m } d).1 = (config env self d).1 := by
  have hA1 : d1.kind ≠ .AuxRoute := by rcases hk1 with h | h <;> simp [h]
  have hR1 : d1.kind ≠ .Redirect := by rcases hk1 with h | h <;> simp [h]
  have hA2 : d2.kind ≠ .AuxRoute := by rcases hk2 with h | h <;> simp [h]
  have hR2 : d2.kind ≠ .Redirect := by rcases hk2 with h | h <;> simp [h]
  have hu1 : ¬ (useAsDefaultOf d1 = true ∧ self.defaultRule.isSome = true) := by
    rintro ⟨hu, hs⟩
    rw [hd1 ((useAsDefaultOf_iff d1 hk1).mp hu)] at hs
    simp at hs
  have he1 := config_of_route_ok env self d1 rp1 hname hA1 hR1 hp1
    ((assertNoHashCollisionLoop_ok_iff env _ _ _).mpr hh1) hu1
  have hname2 : checkName env d2 = none :=
    checkName_of_same_name env d1 d2 (hn2.trans hn1.symm) hname
  obtain ⟨handler2, hhandler2⟩ : ∃ handler2, handlerOf d2 = some handler2 := by
    rcases hk2 with h | h <;> simp [handlerOf, h]
  have hc2 : assertNoHashCollisionLoop env
      (env.hash (.RouteRule rp2 (handlerOf d2) d2.name)) d2.path
      (self.rules ++ [.RouteRule rp1 (handlerOf d1) d1.name]) = .ok () := by
    apply (assertNoHashCollisionLoop_ok_iff env _ _ _).mpr
    intro x hx
    rcases List.mem_append.mp hx with h | h
    · exact hh2 x h
    · rw [List.mem_singleton.mp h]
      exact hh
  have hu2 : ¬ (useAsDefaultOf d2 = true ∧
      (if useAsDefaultOf d1 = true then some (Rule.RouteRule rp1 (handlerOf d1) d1.name)
        else self.defaultRule).isSome = true) := by
    rintro ⟨hu, hs⟩
    obtain ⟨hnone, hnot⟩ := hd2 ((useAsDefaultOf_iff d2 hk2).mp hu)
    have hu1f : ¬ useAsDefaultOf d1 = true := fun h => hnot ((useAsDefaultOf_iff d1 hk1).mp h)
    simp [hu1f, hnone] at hs
  have he2 := config_of_route_ok env
    { self with
      rules := self.rules ++ [.RouteRule rp1 (handlerOf d1) d1.name]
      rulesByName :=
        registerByName self.rulesByName d1.name (.RouteRule rp1 (handlerOf d1) d1.name)
      defaultRule :=
        if useAsDefaultOf d1 = true then some (.RouteRule rp1 (handlerOf d1) d1.name)
        else self.defaultRule }
    d2 rp2 hname2 hA2 hR2 hp2 hc2 hu2
  refine ⟨_, _, handler2, he1, he2, ?_, ?_, hhandler2, ?_, ?_, ?_, ?_⟩
  · simp
  · simp [registerByName, hn1, hn2, JsMap.get_set_self]
  · simp [generate, registerByName, hn1, hn2, JsMap.get_set_self]
  · simp [componentLoaded, hasRoute, JsMap.has, registerByName, hn1, hn2, JsMap.get_set_self,
      Rule.handler, hhandler2]
  · simp [loadComponent, registerByName, hn1, hn2, JsMap.get_set_self, Rule.handler, hhandler2]
  · intro d m
    exact config_outcome_of_same_rules env self _ d rfl rfl

/-- C34 as stated fails: on the empty rule set, of two Routes with the name "B"
and the paths "/b" and "/b2" (rules of different hash), both marked as default,
the second is rejected; and on a rule set that holds the route "/a", of two
Routes with the name "X" and the paths "/a" and "/b", the first is rejected. -/
theorem C34_counterexample_same_name_rejected :
    sampleDefaultNamedB.name = sampleDefaultNamedB2.name ∧
      sampleEnv.hash (.RouteRule (.ParamRoutePath "/b") (handlerOf sampleDefaultNamedB)
          sampleDefaultNamedB.name) ≠
        sampleEnv.hash (.RouteRule (.ParamRoutePath "/b2") (handlerOf sampleDefaultNamedB2)
          sampleDefaultNamedB2.name) ∧
      (config sampleEnv RuleSet.new sampleDefaultNamedB).1 = .ok true ∧
      (config sampleEnv (config sampleEnv RuleSet.new sampleDefaultNamedB).2
        sampleDefaultNamedB2).1 = .error (.BaseException "Only one route can be default") ∧
      (config sampleEnv sampleSetA (sampleRoute "/a" (.value "X"))).1 =
        .error (.BaseException "Configuration '/a' conflicts with existing route '/a'") :=
  ⟨rfl, by decide, rfl, rfl, rfl⟩

theorem C34_later_rule_wins_a_repeated_name_witness :
    ∃ s1 s2 handler2,
      config sampleEnv sampleSetA (sampleRoute "/b" (.value "B")) =
        (.ok (sampleEnv.terminal (.RouteRule (.ParamRoutePath "/b")
          (handlerOf (sampleRoute "/b" (.value "B"))) (sampleRoute "/b" (.value "B")).name)),
          s1) ∧
      config sampleEnv s1 (sampleAsyncRoute "/b2" (.value "B")) =
        (.ok (sampleEnv.terminal (.RouteRule (.ParamRoutePath "/b2")
          (handlerOf (sampleAsyncRoute "/b2" (.value "B")))
          (sampleAsyncRoute "/b2" (.value "B")).name)), s2) ∧
      s2.rules = sampleSetA.rules ++
        [.RouteRule (.ParamRoutePath "/b") (handlerOf (sampleRoute "/b" (.value "B")))
            (sampleRoute "/b" (.value "B")).name,
          .RouteRule (.ParamRoutePath "/b2") (handlerOf (sampleAsyncRoute "/b2" (.value "B")))
            (sampleAsyncRoute "/b2" (.value "B")).name] ∧
      JsMap.get s2.rulesByName "B" =
        some (.RouteRule (.ParamRoutePath "/b2")
          (handlerOf (sampleAsyncRoute "/b2" (.value "B")))
          (sampleAsyncRoute "/b2" (.value "B")).name) ∧
      handlerOf (sampleAsyncRoute "/b2" (.value "B")) = some handler2 ∧
      generate sampleOps s2 "B" .null =
        sampleOps.generate (.RouteRule (.ParamRoutePath "/b2")
          (handlerOf (sampleAsyncRoute "/b2" (.value "B")))
          (sampleAsyncRoute "/b2" (.value "B")).name) .null ∧
      componentLoaded sampleOps s2 "B" = .ok (isPresent (sampleOps.componentType handler2)) ∧
      loadComponent sampleOps s2 "B" = (.ok (sampleOps.resolveComponentType handler2), s2) ∧
      ∀ (d : RouteDefinition) (m : JsMap Rule),
        (config sampleEnv { sampleSetA with rulesByName := m } d).1 =
          (config sampleEnv sampleSetA d).1 :=
  C34_later_rule_wins_a_repeated_name sampleEnv sampleOps sampleSetA
    (sampleRoute "/b" (.value "B")) (sampleAsyncRoute "/b2" (.value "B")) "B"
    (.ParamRoutePath "/b") (.ParamRoutePath "/b2") .null
    (Or.inl rfl) (Or.inr rfl) rfl rfl (by decide) rfl rfl (by decide) (by decide) (by decide)
    (by decide) (by decide)

end RuleSetModel

namespace I18nShared

open RuleSetModel (Nullable isPresent)

/-! ## Lemmas on `partition` -/

theorem getElem?_append_cons_length {α : Type} (pre : List α) (x : α) (rest : List α) :
    (pre ++ x :: rest)[pre.length]? = some x := by
  induction pre with
  | nil => simp
  | cons a pre ih => simpa using ih

theorem getElem?_of_length_le {α : Type} (l : List α) (i : Nat) (h : l.length ≤ i) :
    l[i]? = none :=
  List.getElem?_eq_none h

theorem openingComment_data (v : String) :
    ("i18n:" ++ v).data = 'i' :: '1' :: '8' :: 'n' :: ':' :: v.data := by
  rw [String.data_append]
  rfl

theorem isOpeningComment_of_marker (v : String) (span : ParseSourceSpan) :
    _isOpeningComment (.HtmlCommentAst (.value ("i18n:" ++ v)) span) = true := by
  simp only [_isOpeningComment, openingComment_data]
  simp [List.isPrefixOf]

theorem substring5_of_marker (v : String) :
    String.mk ((("i18n:" ++ v).data).drop 5) = v := by
  rw [openingComment_data]
  rfl

/-- The `while` loop, started in front of nodes `xs` that are no closing comment
and that a closing comment follows, collects `xs` and stops at the closing
comment, with no error. -/
theorem partitionWhile_closing (span : ParseSourceSpan) (xs : List HtmlAst) (c : HtmlAst)
    (post : List HtmlAst)
    (hxs : ∀ x ∈ xs, _isClosingComment (some x) = false)
    (hc : _isClosingComment (some c) = true)
    (pre : List HtmlAst) (temp : List (Option HtmlAst)) (errors : List I18nError)
    (fuel : Nat) (hfuel : xs.length < fuel) :
    partitionWhile (pre ++ xs ++ c :: post) span fuel pre.length temp errors =
      some (pre.length + xs.length, temp ++ xs.map some, errors) := by
  induction xs generalizing pre temp fuel with
  | nil =>
    cases fuel with
    | zero => simp at hfuel
    | succ fuel =>
      have hget : (pre ++ [] ++ c :: post)[pre.length]? = some c := by
        rw [List.append_nil]
        exact getElem?_append_cons_length pre c post
      simp only [partitionWhile, hget, hc, if_true]
      simp
  | cons x xs ih =>
    cases fuel with
    | zero => simp at hfuel
    | succ fuel =>
      have hx : _isClosingComment (some x) = false := hxs x (List.mem_cons_self _ _)
      have hget : (pre ++ x :: xs ++ c :: post)[pre.length]? = some x := by
        rw [List.append_assoc, List.cons_append]
        exact getElem?_append_cons_length pre x _
      have hlen : pre.length + 1 ≠ (pre ++ x :: xs ++ c :: post).length := by
        simp only [List.length_append, List.length_cons]
        omega
      have hrec := ih (fun y hy => hxs y (List.mem_cons_of_mem _ hy)) (pre ++ [x])
        (temp ++ [some x]) fuel (by simpa using hfuel)
      have hnodes : pre ++ [x] ++ xs ++ c :: post = pre ++ x :: xs ++ c :: post := by simp
      rw [hnodes] at hrec
      simp only [partitionWhile, hget, hx, hlen, if_false, Bool.false_eq_true]
      rw [show pre.length + 1 = (pre ++ [x]).length by simp, hrec]
      simp [Nat.add_assoc, Nat.add_comm 1]

/-- Once the index is at or past the end of the array the `while` loop never
exits: `nodes[i]` is `undefined`, which is no closing comment, and the index,
already past `nodes.length - 1`, is never equal to `nodes.length` after the
increment. -/
theorem partitionWhile_past_end (nodes : List HtmlAst) (span : ParseSourceSpan) (fuel : Nat)
    (i : Nat) (temp : List (Option HtmlAst)) (errors : List I18nError)
    (hi : nodes.length ≤ i) :
    partitionWhile nodes span fuel i temp errors = none := by
  induction fuel generalizing i temp with
  | zero => rfl
  | succ fuel ih =>
    have hget : nodes[i]? = none := getElem?_of_length_le nodes i hi
    have hlen : i + 1 ≠ nodes.length := by omega
    simp only [partitionWhile, hget, _isClosingComment, hlen, if_false, Bool.false_eq_true]
    exact ih (i + 1) _ (by omega)

/-- On a list that is one opening comment and nothing else, `partition` runs out
of any fuel. -/
theorem partition_lone_opening_comment (ops : StringOps) (v : String) (span : ParseSourceSpan)
    (errors : List I18nError) (fuel : Nat) :
    partition ops fuel [.HtmlCommentAst (.value ("i18n:" ++ v)) span] errors = none := by
  cases fuel with
  | zero => rfl
  | succ fuel =>
    simp only [partition, partitionFor, List.getElem?_cons_zero, isOpeningComment_of_marker]
    rw [partitionWhile_past_end _ span fuel 1 [] errors (by simp)]

/-- The `while` loop, started in front of a non-empty run `xs` of nodes that are
no closing comment and that ends the array, collects `xs`, reports the missing
closing comment and stops at the end of the array. -/
theorem partitionWhile_no_closing (span : ParseSourceSpan) (xs : List HtmlAst)
    (hne : xs ≠ [])
    (hxs : ∀ x ∈ xs, _isClosingComment (some x) = false)
    (pre : List HtmlAst) (temp : List (Option HtmlAst)) (errors : List I18nError)
    (fuel : Nat) (hfuel : xs.length ≤ fuel) :
    partitionWhile (pre ++ xs) span fuel pre.length temp errors =
      some (pre.length + xs.length, temp ++ xs.map some,
        errors ++ [I18nError.mk span "Missing closing 'i18n' comment."]) := by
  induction xs generalizing pre temp fuel with
  | nil => exact absurd rfl hne
  | cons x xs ih =>
    cases fuel with
    | zero => simp at hfuel
    | succ fuel =>
      have hx : _isClosingComment (some x) = false := hxs x (List.mem_cons_self _ _)
      have hget : (pre ++ x :: xs)[pre.length]? = some x :=
        getElem?_append_cons_length pre x xs
      cases xs with
      | nil =>
        have hlen : pre.length + 1 = (pre ++ [x]).length := by simp
        simp only [partitionWhile, hget, hx, hlen, if_true, if_false, Bool.false_eq_true]
        simp
      | cons y ys =>
        have hlen : pre.length + 1 ≠ (pre ++ x :: y :: ys).length := by
          simp only [List.length_append, List.length_cons]
          omega
        have hrec := ih (by simp) (fun z hz => hxs z (List.mem_cons_of_mem _ hz)) (pre ++ [x])
          (temp ++ [some x]) fuel (by simpa using hfuel)
        have hnodes : pre ++ [x] ++ y :: ys = pre ++ x :: y :: ys := by simp
        rw [hnodes] at hrec
        simp only [partitionWhile, hget, hx, hlen, if_false, Bool.false_eq_true]
        rw [show pre.length + 1 = (pre ++ [x]).length by simp, hrec]
        simp [Nat.add_assoc, Nat.add_comm 1]

theorem findI18nAttr_eq_find (attrs : List HtmlAttrAst) :
    _findI18nAttr attrs = attrs.find? (fun a => a.name == "i18n") := by
  induction attrs with
  | nil => rfl
  | cons a rest ih =>
    by_cases h : (a.name == "i18n") = true
    · simp [_findI18nAttr, I18N_ATTR, List.filter_cons, List.find?_cons, h]
    · have h2 : (a.name == "i18n") = false := by simpa using h
      simp only [_findI18nAttr, I18N_ATTR, List.filter_cons, List.find?_cons, h2] at ih ⊢
      exact ih

theorem isSome_find_eq_any (attrs : List HtmlAttrAst) :
    (attrs.find? (fun a => a.name == "i18n")).isSome =
      attrs.any (fun a => a.name == "i18n") := by
  induction attrs with
  | nil => rfl
  | cons a rest ih =>
    by_cases h : (a.name == "i18n") = true
    · simp [List.find?_cons, h]
    · have h2 : (a.name == "i18n") = false := by simpa using h
      simp only [List.find?_cons, h2, List.any_cons, Bool.false_or]
      exact ih

/-- The `for` loop over nodes none of which is an opening comment pushes the
Part of each element and text node, in order, and leaves the errors alone. -/
theorem partitionFor_plain (ops : StringOps) (rest : List HtmlAst)
    (hno : ∀ n ∈ rest, _isOpeningComment n = false)
    (pre : List HtmlAst) (res : List Part) (errors : List I18nError)
    (fuel : Nat) (hfuel : rest.length < fuel) :
    partitionFor ops (pre ++ rest) fuel pre.length res errors =
      some (res ++ rest.filterMap specPartOf, errors) := by
  induction rest generalizing pre res fuel with
  | nil =>
    cases fuel with
    | zero => simp at hfuel
    | succ fuel =>
      have hget : (pre ++ ([] : List HtmlAst))[pre.length]? = none :=
        getElem?_of_length_le _ _ (by simp)
      simp only [partitionFor, hget]
      simp
  | cons n rest ih =>
    cases fuel with
    | zero => simp at hfuel
    | succ fuel =>
      have hget : (pre ++ n :: rest)[pre.length]? = some n :=
        getElem?_append_cons_length pre n rest
      have hn : _isOpeningComment n = false := hno n (List.mem_cons_self _ _)
      have hrec := fun res2 => ih (fun m hm => hno m (List.mem_cons_of_mem _ hm)) (pre ++ [n])
        res2 fuel (by simpa using hfuel)
      have hnodes : pre ++ [n] ++ rest = pre ++ n :: rest := by simp
      have hlen : (pre ++ [n]).length = pre.length + 1 := by simp
      rw [hnodes, hlen] at hrec
      cases n with
      | HtmlElementAst name attrs children sourceSpan =>
        simp only [partitionFor, hget, hrec, List.filterMap_cons, specPartOf,
          findI18nAttr_eq_find, isSome_find_eq_any]
        simp
      | HtmlTextAst value sourceSpan =>
        simp only [partitionFor, hget, hrec, List.filterMap_cons, specPartOf]
        simp
      | HtmlCommentAst value sourceSpan =>
        cases value with
        | undefined => simp only [partitionFor, hget, hrec, List.filterMap_cons, specPartOf]
        | null => simp only [partitionFor, hget, hrec, List.filterMap_cons, specPartOf]
        | value w =>
          simp only [partitionFor, hget, hn, hrec, List.filterMap_cons, specPartOf]

/-! ## Lemmas on `split` -/

theorem splitLoop_of_not_mem (sep : Char) (pre current : List Char) (hpre : sep ∉ pre) :
    splitLoop sep pre current = [current.reverse ++ pre] := by
  induction pre generalizing current with
  | nil => simp [splitLoop]
  | cons c cs ih =>
    have hc : c ≠ sep := fun h => hpre (by simp [h])
    have hcs : sep ∉ cs := fun h => hpre (List.mem_cons_of_mem _ h)
    simp [splitLoop, hc, ih (c :: current) hcs]

theorem splitLoop_at_first (sep : Char) (pre rest current : List Char) (hpre : sep ∉ pre) :
    splitLoop sep (pre ++ sep :: rest) current =
      (current.reverse ++ pre) :: splitLoop sep rest [] := by
  induction pre generalizing current with
  | nil => simp [splitLoop]
  | cons c cs ih =>
    have hc : c ≠ sep := fun h => hpre (by simp [h])
    have hcs : sep ∉ cs := fun h => hpre (List.mem_cons_of_mem _ h)
    simp [splitLoop, hc, ih (c :: current) hcs]

theorem splitLoop_pieces (sep : Char) (cs current : List Char) (hcur : sep ∉ current) :
    ∀ piece ∈ splitLoop sep cs current, sep ∉ piece := by
  induction cs generalizing current with
  | nil =>
    intro piece hp
    simp only [splitLoop, List.mem_singleton] at hp
    rw [hp]
    simpa using hcur
  | cons c cs ih =>
    intro piece hp
    by_cases hc : c = sep
    · simp only [splitLoop, hc, if_true, List.mem_cons] at hp
      rcases hp with hp | hp
      · rw [hp]; simpa using hcur
      · exact ih [] (by simp) piece hp
    · simp only [splitLoop, hc, if_false] at hp
      refine ih (c :: current) ?_ piece hp
      intro hmem
      rcases List.mem_cons.mp hmem with h | h
      · exact hc h.symm
      · exact hcur h

theorem splitLoop_ne_nil (sep : Char) (cs current : List Char) :
    splitLoop sep cs current ≠ [] := by
  induction cs generalizing current with
  | nil => simp [splitLoop]
  | cons c cs ih =>
    by_cases hc : c = sep
    · simp [splitLoop, hc]
    · simpa [splitLoop, hc] using ih (c :: current)

/-- Either the separator does not occur, or the list splits at its first
occurrence. -/
theorem split_at_first_occurrence (sep : Char) (cs : List Char) :
    sep ∉ cs ∨ ∃ pre rest, cs = pre ++ sep :: rest ∧ sep ∉ pre := by
  induction cs with
  | nil => exact Or.inl (by simp)
  | cons c cs ih =>
    by_cases hc : c = sep
    · exact Or.inr ⟨[], cs, by simp [hc], by simp⟩
    · rcases ih with h | ⟨pre, rest, hcs, hpre⟩
      · left
        intro hmem
        rcases List.mem_cons.mp hmem with h2 | h2
        · exact hc h2.symm
        · exact h h2
      · right
        refine ⟨c :: pre, rest, by simp [hcs], ?_⟩
        intro hmem
        rcases List.mem_cons.mp hmem with h2 | h2
        · exact hc h2.symm
        · exact hpre h2

/-! ## The claims on `partition` -/

/-- C19: for every string `v` and every node list `xs` that contains no closing
comment (a comment whose value is exactly "/i18n"), `partition` on the opening
comment "i18n:" + v, then `xs`, then a closing comment returns, given fuel for
its loops, exactly one Part: `rootElement` and `rootTextNode` are null,
`hasI18n` is true, `i18n` is `v` trimmed, and `children` is `xs` in order; no
error is appended. -/
theorem C19_marked_run_is_one_part (ops : StringOps) (v : String) (xs : List HtmlAst)
    (span spanClose : ParseSourceSpan) (errors : List I18nError) (fuel : Nat)
    (hxs : ∀ x ∈ xs, _isClosingComment (some x) = false)
    (hfuel : xs.length + 2 ≤ fuel) :
    partition ops fuel
        (.HtmlCommentAst (.value ("i18n:" ++ v)) span :: xs ++
          [.HtmlCommentAst (.value "/i18n") spanClose]) errors =
      some ([Part.mk none none (some (xs.map some)) (some (ops.trim v)) true], errors) := by
  obtain ⟨f, rfl⟩ : ∃ f, fuel = f + 2 := ⟨fuel - 2, by omega⟩
  have hclose : _isClosingComment (some (.HtmlCommentAst (.value "/i18n") spanClose)) = true := by
    simp [_isClosingComment]
  have hwhile := partitionWhile_closing span xs (.HtmlCommentAst (.value "/i18n") spanClose) []
    hxs hclose [.HtmlCommentAst (.value ("i18n:" ++ v)) span] [] errors (f + 1) (by omega)
  simp only [List.singleton_append, List.length_singleton, List.nil_append, List.cons_append]
    at hwhile
  have hend : (HtmlAst.HtmlCommentAst (.value ("i18n:" ++ v)) span :: (xs ++
      [HtmlAst.HtmlCommentAst (.value "/i18n") spanClose]))[1 + xs.length + 1]? = none := by
    apply getElem?_of_length_le
    simp only [List.length_cons, List.length_append, List.length_singleton, List.length_nil]
    omega
  simp only [partition, partitionFor, List.getElem?_cons_zero, isOpeningComment_of_marker,
    List.cons_append, Nat.zero_add, hwhile, hend, substring5_of_marker, List.nil_append]

theorem C19_marked_run_is_one_part_witness :
    partition sampleStringOps 3
        [sampleComment "i18n: greeting", sampleText "Hi", sampleComment "/i18n"] [] =
      some ([Part.mk none none (some [some (sampleText "Hi")]) (some "greeting") true], []) :=
  C19_marked_run_is_one_part sampleStringOps " greeting" [sampleText "Hi"] { id := 0 }
    { id := 0 } [] 3 (by simp [_isClosingComment, sampleText]) (by decide)

/-- C20, at its failing input: on the node list `[Comment("i18n: missing")]`
the call of `partition` does not return, whatever fuel its loops are given; no
Part is returned and no error is appended. -/
theorem C20_lone_opening_comment_never_returns (ops : StringOps) (fuel : Nat) :
    partition ops fuel [sampleComment "i18n: missing"] [] = none :=
  partition_lone_opening_comment ops " missing" { id := 0 } [] fuel

/-- C21: for every string `v` and every non-empty node list `xs` that contains
no closing comment, `partition` on the opening comment "i18n:" + v followed by
`xs` returns, given fuel for its loops: it appends exactly one error, with the
message "Missing closing 'i18n' comment." and the span of the opening comment,
after the errors already collected, and returns exactly one Part, with
`hasI18n` true, `i18n` the trimmed `v`, and `children` equal to `xs`. -/
theorem C21_missing_closing_comment_is_reported (ops : StringOps) (v : String)
    (xs : List HtmlAst) (span : ParseSourceSpan) (errors : List I18nError) (fuel : Nat)
    (hne : xs ≠ [])
    (hxs : ∀ x ∈ xs, _isClosingComment (some x) = false)
    (hfuel : xs.length + 2 ≤ fuel) :
    partition ops fuel (.HtmlCommentAst (.value ("i18n:" ++ v)) span :: xs) errors =
      some ([Part.mk none none (some (xs.map some)) (some (ops.trim v)) true],
        errors ++ [I18nError.mk span "Missing closing 'i18n' comment."]) := by
  obtain ⟨f, rfl⟩ : ∃ f, fuel = f + 2 := ⟨fuel - 2, by omega⟩
  have hwhile := partitionWhile_no_closing span xs hne hxs
    [.HtmlCommentAst (.value ("i18n:" ++ v)) span] [] errors (f + 1) (by omega)
  simp only [List.singleton_append, List.length_singleton, List.nil_append] at hwhile
  have hend : (HtmlAst.HtmlCommentAst (.value ("i18n:" ++ v)) span :: xs)[1 + xs.length + 1]?
      = none := by
    apply getElem?_of_length_le
    simp only [List.length_cons]
    omega
  simp only [partition, partitionFor, List.getElem?_cons_zero, isOpeningComment_of_marker,
    Nat.zero_add, hwhile, hend, substring5_of_marker, List.nil_append]

theorem C21_missing_closing_comment_is_reported_witness :
    partition sampleStringOps 4
        [sampleComment "i18n: missing", sampleText "Hi", sampleComment "later"]
        [I18nError.mk { id := 9 } "earlier"] =
      some ([Part.mk none none (some [some (sampleText "Hi"), some (sampleComment "later")])
          (some "missing") true],
        [I18nError.mk { id := 9 } "earlier",
          I18nError.mk { id := 0 } "Missing closing 'i18n' comment."]) :=
  C21_missing_closing_comment_is_reported sampleStringOps " missing"
    [sampleText "Hi", sampleComment "later"] { id := 0 } [I18nError.mk { id := 9 } "earlier"] 4
    (by simp) (by simp [_isClosingComment, sampleText, sampleComment]) (by decide)

/-- C22: for every node list that contains no opening comment, `partition`
returns, given fuel for its loop, appends no error, and gives, in the order of
the input, exactly one Part for each element and each text node and none for a
comment: for an element `n`, Part(n, null, n.children, the value of the first
attribute of `n` named "i18n" or null, whether there is such an attribute); for
a text node `n`, Part(null, n, null, null, false). -/
theorem C22_unmarked_nodes_give_one_part_each (ops : StringOps) (nodes : List HtmlAst)
    (errors : List I18nError) (fuel : Nat)
    (hno : ∀ n ∈ nodes, _isOpeningComment n = false)
    (hfuel : nodes.length + 1 ≤ fuel) :
    partition ops fuel nodes errors = some (nodes.filterMap specPartOf, errors) := by
  have h := partitionFor_plain ops nodes hno [] [] errors fuel (by omega)
  simpa [partition] using h

theorem C22_unmarked_nodes_give_one_part_each_witness :
    partition sampleStringOps 4
        [sampleElement "p" [sampleAttr "id" "x", sampleAttr "i18n" "m|d", sampleAttr "i18n" "z"]
          [sampleText "in"],
          sampleComment "note", sampleText "Hi"] [] =
      some ([Part.mk
            (some (sampleElement "p"
              [sampleAttr "id" "x", sampleAttr "i18n" "m|d", sampleAttr "i18n" "z"]
              [sampleText "in"]))
            none (some [some (sampleText "in")]) (some "m|d") true,
          Part.mk none (some (sampleText "Hi")) none none false], []) :=
  C22_unmarked_nodes_give_one_part_each sampleStringOps
    [sampleElement "p" [sampleAttr "id" "x", sampleAttr "i18n" "m|d", sampleAttr "i18n" "z"]
      [sampleText "in"],
      sampleComment "note", sampleText "Hi"] [] 4
    (by simp [_isOpeningComment, sampleElement, sampleComment, sampleText, List.isPrefixOf])
    (by decide)

/-! ## The claims on messages -/

theorem split_of_not_mem (v : String) (h : '|' ∉ v.data) : split v '|' = [v] := by
  simp [split, splitLoop_of_not_mem '|' v.data [] h]

theorem split_at_first (v : String) (pre rest : List Char) (hv : v.data = pre ++ '|' :: rest)
    (hpre : '|' ∉ pre) :
    split v '|' = String.mk pre :: (splitLoop '|' rest []).map String.mk := by
  simp [split, hv, splitLoop_at_first '|' pre rest [] hpre]

theorem ne_empty_of_data (v : String) (c : Char) (pre rest : List Char)
    (hv : v.data = pre ++ c :: rest) : (v == "") = false := by
  have hne : v ≠ "" := by
    intro h
    rw [h] at hv
    have h2 : ([] : List Char) = pre ++ c :: rest := hv
    simp at h2
  simpa using hne

/-- C23: `meaning(v)` is null if and only if `v` is blank or the empty string,
and otherwise it is the part of `v` before its first "|", all of `v` when there
is none; `description(v)` is null if and only if `v` is blank, empty or without
"|", and otherwise it is the part of `v` between its first "|" and its second
one, or the end of `v` when there is only one; no result contains "|".  So
meaning("greet|a friendly hello") = "greet", description("greet|a friendly
hello") = "a friendly hello", meaning("") is null and description("solo") is
null. -/
theorem C23_meaning_and_description (i18n : Nullable String) :
    (meaning i18n = none ↔ isPresent i18n = false ∨ i18n = .value "") ∧
      (∀ v pre rest, v.data = pre ++ '|' :: rest → '|' ∉ pre →
        meaning (.value v) = some (String.mk pre)) ∧
      (∀ v, v ≠ "" → '|' ∉ v.data → meaning (.value v) = some v) ∧
      (description i18n = none ↔
        isPresent i18n = false ∨ i18n = .value "" ∨ ∃ v, i18n = .value v ∧ '|' ∉ v.data) ∧
      (∀ v pre mid rest, v.data = pre ++ '|' :: (mid ++ '|' :: rest) → '|' ∉ pre → '|' ∉ mid →
        description (.value v) = some (String.mk mid)) ∧
      (∀ v pre mid, v.data = pre ++ '|' :: mid → '|' ∉ pre → '|' ∉ mid →
        description (.value v) = some (String.mk mid)) ∧
      (∀ r, meaning i18n = some r → '|' ∉ r.data) ∧
      (∀ r, description i18n = some r → '|' ∉ r.data) ∧
      meaning (.value "greet|a friendly hello") = some "greet" ∧
      description (.value "greet|a friendly hello") = some "a friendly hello" ∧
      meaning (.value "") = none ∧
      description (.value "solo") = none := by
  have hpiece : ∀ (v r : String), r ∈ split v '|' → '|' ∉ r.data := by
    intro v r hr
    simp only [split, List.mem_map] at hr
    obtain ⟨piece, hp, hmk⟩ := hr
    rw [← hmk]
    exact splitLoop_pieces '|' v.data [] (by simp) piece hp
  have hmeanBar : ∀ v pre rest, v.data = pre ++ '|' :: rest → '|' ∉ pre →
      meaning (.value v) = some (String.mk pre) := by
    intro v pre rest hv hpre
    simp [meaning, ne_empty_of_data v '|' pre rest hv, split_at_first v pre rest hv hpre]
  have hdescTwo : ∀ v pre mid rest, v.data = pre ++ '|' :: (mid ++ '|' :: rest) → '|' ∉ pre →
      '|' ∉ mid → description (.value v) = some (String.mk mid) := by
    intro v pre mid rest hv hpre hmid
    simp [description, ne_empty_of_data v '|' pre _ hv, split_at_first v pre _ hv hpre,
      splitLoop_at_first '|' mid rest [] hmid]
  have hdescOne : ∀ v pre mid, v.data = pre ++ '|' :: mid → '|' ∉ pre → '|' ∉ mid →
      description (.value v) = some (String.mk mid) := by
    intro v pre mid hv hpre hmid
    simp [description, ne_empty_of_data v '|' pre _ hv, split_at_first v pre _ hv hpre,
      splitLoop_of_not_mem '|' mid [] hmid]
  have hdescNone : ∀ v, '|' ∉ v.data → description (.value v) = none := by
    intro v hv
    simp [description, split_of_not_mem v hv]
  refine ⟨?_, hmeanBar, ?_, ?_, hdescTwo, hdescOne, ?_, ?_, by decide, by decide, by decide,
    by decide⟩
  · cases i18n with
    | undefined => simp [meaning, isPresent]
    | null => simp [meaning, isPresent]
    | value v =>
      by_cases hv : v = ""
      · simp [meaning, hv]
      · have hne : split v '|' ≠ [] := by
          simp only [split, ne_eq, List.map_eq_nil_iff]
          exact splitLoop_ne_nil '|' v.data []
        cases hs : split v '|' with
        | nil => exact absurd hs hne
        | cons first others => simp [meaning, hv, hs, isPresent]
  · intro v hv hbar
    have hv2 : (v == "") = false := by simpa using hv
    simp [meaning, hv2, split_of_not_mem v hbar]
  · cases i18n with
    | undefined => simp [description, isPresent]
    | null => simp [description, isPresent]
    | value v =>
      by_cases hv : v = ""
      · simp [description, hv]
      · rcases split_at_first_occurrence '|' v.data with hbar | ⟨pre, rest, hsplit, hpre⟩
        · rw [hdescNone v hbar]
          simp [hbar]
        · have hmem : '|' ∈ v.data := by simp [hsplit]
          rcases split_at_first_occurrence '|' rest with hrest | ⟨mid, rest2, hsplit2, hmid⟩
          · rw [hdescOne v pre rest hsplit hpre hrest]
            simp [isPresent, hv, hmem]
          · rw [hsplit2] at hsplit
            rw [hdescTwo v pre mid rest2 hsplit hpre hmid]
            simp [isPresent, hv, hmem]
  · intro r hr
    cases i18n with
    | undefined => simp [meaning] at hr
    | null => simp [meaning] at hr
    | value v =>
      by_cases hv : v = ""
      · simp [meaning, hv] at hr
      · have hv2 : (v == "") = false := by simpa using hv
        simp only [meaning, hv2] at hr
        exact hpiece v r (List.getElem?_mem hr)
  · intro r hr
    cases i18n with
    | undefined => simp [description] at hr
    | null => simp [description] at hr
    | value v =>
      by_cases hv : v = ""
      · simp [description, hv] at hr
      · have hv2 : (v == "") = false := by simpa using hv
        simp only [description, hv2] at hr
        by_cases hlen : (split v '|').length > 1
        · simp only [hlen, if_true] at hr
          exact hpiece v r (List.getElem?_mem hr)
        · simp [hlen] at hr

theorem C23_meaning_and_description_witness :
    meaning (.value "greet|a friendly hello|more") = some "greet" ∧
      description (.value "greet|a friendly hello|more") = some "a friendly hello" ∧
      meaning (.value "solo") = some "solo" :=
  ⟨(C23_meaning_and_description .null).2.1 "greet|a friendly hello|more"
      "greet".data "a friendly hello|more".data rfl (by decide),
    (C23_meaning_and_description .null).2.2.2.2.1 "greet|a friendly hello|more"
      "greet".data "a friendly hello".data "more".data rfl (by decide) (by decide),
    (C23_meaning_and_description .null).2.2.1 "solo" (by decide) (by decide)⟩

theorem removeInterpolationFor_eq_spec (length : Nat) (rest : List String) (i : Nat)
    (res : String) (hlen : length = i + rest.length) :
    removeInterpolationFor length rest i res = res ++ specInterleave i rest := by
  induction rest generalizing i res with
  | nil => simp [removeInterpolationFor, specInterleave]
  | cons s rest ih =>
    cases rest with
    | nil =>
      have hi : i = length - 1 := by simp at hlen; omega
      simp [removeInterpolationFor, specInterleave, hi]
    | cons t ts =>
      have hi : i ≠ length - 1 := by simp at hlen; omega
      have hrec := ih (i + 1) (res ++ s ++ ("<ph name=\"" ++ toString i ++ "\"/>"))
        (by simp at hlen ⊢; omega)
      rw [removeInterpolationFor]
      simp only [hi, ne_eq, not_false_eq_true, if_true]
      rw [hrec]
      simp only [specInterleave, String.append_assoc]

/-- C27: for every value, source span and splitter: if the splitter throws on
the value, or returns null, `removeInterpolation` returns the value unchanged;
the failure is caught. -/
theorem C27_removeInterpolation_falls_back (value : String) (source : ParseSourceSpan)
    (parser : Parser) :
    (∀ e, parser.splitInterpolation value (parser.spanToString source) = .error e →
        removeInterpolation value source parser = value) ∧
      (parser.splitInterpolation value (parser.spanToString source) = .ok none →
        removeInterpolation value source parser = value) := by
  constructor
  · intro e h
    simp [removeInterpolation, h]
  · intro h
    simp [removeInterpolation, h]

theorem C27_removeInterpolation_falls_back_witness :
    removeInterpolation "bad \x7b\x7b" { id := 1 } sampleParser = "bad \x7b\x7b" ∧
      removeInterpolation "plain" { id := 1 } sampleParser = "plain" :=
  ⟨(C27_removeInterpolation_falls_back "bad \x7b\x7b" { id := 1 } sampleParser).1
      "unterminated" rfl,
    (C27_removeInterpolation_falls_back "plain" { id := 1 } sampleParser).2 rfl⟩

/-- C28: for every value on which the splitter returns the literal strings
`s0, ..., sk`, `removeInterpolation` returns `s0`, the placeholder named 0, `s1`,
the placeholder named 1, and so on up to `sk`: every string verbatim and in
order, a placeholder between each two, the i-th named `i`, none after the last;
for an empty list of strings the result is the empty string. -/
theorem C28_removeInterpolation_interleaves (value : String) (source : ParseSourceSpan)
    (parser : Parser) (strings : List String)
    (hsplit : parser.splitInterpolation value (parser.spanToString source) =
      .ok (some strings)) :
    removeInterpolation value source parser = specInterleave 0 strings ∧
      (strings = [] → removeInterpolation value source parser = "") ∧
      (∀ s0, strings = [s0] → removeInterpolation value source parser = s0) ∧
      (∀ s0 s1, strings = [s0, s1] →
        removeInterpolation value source parser = s0 ++ "<ph name=\"0\"/>" ++ s1) ∧
      (∀ s0 s1 s2, strings = [s0, s1, s2] →
        removeInterpolation value source parser =
          s0 ++ "<ph name=\"0\"/>" ++ s1 ++ "<ph name=\"1\"/>" ++ s2) := by
  have h : removeInterpolation value source parser = specInterleave 0 strings := by
    simp only [removeInterpolation, hsplit]
    rw [removeInterpolationFor_eq_spec strings.length strings 0 "" (by simp)]
    simp
  refine ⟨h, ?_, ?_, ?_, ?_⟩
  · intro hs
    rw [h, hs]
    rfl
  · intro s0 hs
    rw [h, hs]
    rfl
  · intro s0 s1 hs
    rw [h, hs]
    simp only [specInterleave]
    rfl
  · intro s0 s1 s2 hs
    rw [h, hs]
    simp only [specInterleave, String.append_assoc]
    rfl

theorem C28_removeInterpolation_interleaves_witness :
    removeInterpolation "\x7b\x7ba\x7d\x7d and \x7b\x7bb\x7d\x7d" { id := 1 } sampleParser =
        "<ph name=\"0\"/> and <ph name=\"1\"/>" ∧
      removeInterpolation "none" { id := 1 } sampleParser = "" :=
  ⟨(C28_removeInterpolation_interleaves "\x7b\x7ba\x7d\x7d and \x7b\x7bb\x7d\x7d" { id := 1 }
      sampleParser ["", " and ", ""] rfl).1,
    (C28_removeInterpolation_interleaves "none" { id := 1 } sampleParser [] rfl).2.1 rfl⟩

theorem markerAttr_data (x : String) :
    ("i18n-" ++ x).data = 'i' :: '1' :: '8' :: 'n' :: '-' :: x.data := by
  rw [String.data_append]
  rfl

theorem substring5_of_markerAttr (x : String) :
    String.mk ((("i18n-" ++ x).data).drop 5) = x := by
  rw [markerAttr_data]
  rfl

theorem filter_eq_nil_or_head (attrs : List HtmlAttrAst) (x : String) :
    (attrs.filter (fun a => a.name == x) = [] ∧ attrs.find? (fun a => a.name == x) = none) ∨
      ∃ first others, attrs.filter (fun a => a.name == x) = first :: others ∧
        attrs.find? (fun a => a.name == x) = some first := by
  induction attrs with
  | nil => exact Or.inl ⟨rfl, rfl⟩
  | cons a rest ih =>
    by_cases h : (a.name == x) = true
    · exact Or.inr ⟨a, rest.filter (fun a => a.name == x), by simp [List.filter_cons, h],
        by simp [List.find?_cons, h]⟩
    · have h2 : (a.name == x) = false := by simpa using h
      rcases ih with ⟨h3, h4⟩ | ⟨first, others, h3, h4⟩
      · exact Or.inl ⟨by simp [List.filter_cons, h2, h3], by simp [List.find?_cons, h2, h4]⟩
      · exact Or.inr ⟨first, others, by simp [List.filter_cons, h2, h3],
          by simp [List.find?_cons, h2, h4]⟩

/-- C29: for every element `p` and every marker attribute `attr` named
"i18n-" + X: `messageFromAttribute` throws if and only if `p` has no attribute
named X, and what it throws is the `I18nError` with the message
"Missing attribute 'X'." at the span of `p`; otherwise it returns the Message
whose content is `removeInterpolation` of the value of the first attribute of
`p` named X, whose meaning is `meaning(attr.value)` and whose description is
`description(attr.value)`. -/
theorem C29_messageFromAttribute (parser : Parser) (name : String) (attrs : List HtmlAttrAst)
    (children : List HtmlAst) (sourceSpan : ParseSourceSpan) (attr : HtmlAttrAst) (x : String)
    (hattr : attr.name = "i18n-" ++ x) :
    ((∃ e, messageFromAttribute parser (.HtmlElementAst name attrs children sourceSpan) attr
          = .error e) ↔ ∀ a ∈ attrs, a.name ≠ x) ∧
      ((∀ a ∈ attrs, a.name ≠ x) →
        messageFromAttribute parser (.HtmlElementAst name attrs children sourceSpan) attr =
          .error (.I18nError (I18nError.mk sourceSpan ("Missing attribute '" ++ x ++ "'.")))) ∧
      (∀ first, attrs.find? (fun a => a.name == x) = some first →
        messageFromAttribute parser (.HtmlElementAst name attrs children sourceSpan) attr =
          .ok (Message.mk (removeInterpolation first.value first.sourceSpan parser)
            (meaning (.value attr.value)) (description (.value attr.value)))) := by
  have hnone : attrs.find? (fun a => a.name == x) = none ↔ ∀ a ∈ attrs, a.name ≠ x := by
    simp [List.find?_eq_none]
  rcases filter_eq_nil_or_head attrs x with ⟨hf, hfind⟩ | ⟨first, others, hf, hfind⟩
  · have hall := hnone.mp hfind
    have herr : messageFromAttribute parser (.HtmlElementAst name attrs children sourceSpan)
        attr = .error (.I18nError
          (I18nError.mk sourceSpan ("Missing attribute '" ++ x ++ "'."))) := by
      simp only [messageFromAttribute, hattr, substring5_of_markerAttr, hf]
    refine ⟨⟨fun _ => hall, fun _ => ⟨_, herr⟩⟩, fun _ => herr, ?_⟩
    intro f hfnd
    rw [hfind] at hfnd
    cases hfnd
  · have hok : messageFromAttribute parser (.HtmlElementAst name attrs children sourceSpan)
        attr = .ok (Message.mk (removeInterpolation first.value first.sourceSpan parser)
          (meaning (.value attr.value)) (description (.value attr.value))) := by
      simp only [messageFromAttribute, hattr, substring5_of_markerAttr, hf]
    have hnot : ¬ ∀ a ∈ attrs, a.name ≠ x := by
      intro hall
      rw [hnone.mpr hall] at hfind
      cases hfind
    refine ⟨⟨?_, fun hall => absurd hall hnot⟩, fun hall => absurd hall hnot, ?_⟩
    · rintro ⟨e, he⟩
      rw [hok] at he
      cases he
    · intro f hfnd
      rw [hfind] at hfnd
      cases hfnd
      exact hok

theorem C29_messageFromAttribute_witness :
    messageFromAttribute sampleParser
        (sampleElement "img" [sampleAttr "title" "Hello \x7b\x7bname\x7d\x7d!",
          sampleAttr "title" "second"] [])
        (sampleAttr "i18n-title" "greet|a friendly hello") =
        .ok (Message.mk "Hello <ph name=\"0\"/>!" (some "greet") (some "a friendly hello")) ∧
      messageFromAttribute sampleParser (sampleElement "img" [sampleAttr "alt" "x"] [])
        (sampleAttr "i18n-title" "greet") =
        .error (.I18nError (I18nError.mk { id := 2 } "Missing attribute 'title'.")) :=
  ⟨(C29_messageFromAttribute sampleParser "img"
      [sampleAttr "title" "Hello \x7b\x7bname\x7d\x7d!", sampleAttr "title" "second"] []
      { id := 2 } (sampleAttr "i18n-title" "greet|a friendly hello") "title" rfl).2.2
      (sampleAttr "title" "Hello \x7b\x7bname\x7d\x7d!") rfl,
    (C29_messageFromAttribute sampleParser "img" [sampleAttr "alt" "x"] []
      { id := 2 } (sampleAttr "i18n-title" "greet") "title" rfl).2.1 (by decide)⟩

/-! ## The claims on stringification -/

theorem join_singleton (s : String) : join "" [s] = s := rfl

/-- C24: for every element whose only child is a text node with the value `v`,
and every splitter for which `removeInterpolation` of `v` gives a string
different from `v`: `stringifyNodes` of the list of that element alone is the
placeholder `e0` around the placeholder `t1` around that string. -/
theorem C24_element_with_interpolated_text (parser : Parser) (name : String)
    (attrs : List HtmlAttrAst) (v : String) (textSpan elementSpan : ParseSourceSpan)
    (hdiff : removeInterpolation v textSpan parser ≠ v) :
    stringifyNodes [.HtmlElementAst name attrs [.HtmlTextAst v textSpan] elementSpan] parser =
      "<ph name=\"e0\"><ph name=\"t1\">" ++ removeInterpolation v textSpan parser
        ++ "</ph></ph>" := by
  have hpos : (("<ph name=\"t" ++ toString 1 ++ "\">") ++ removeInterpolation v textSpan parser
      ++ "</ph>").length > 0 := by
    simp only [String.length_append]
    have h : ("<ph name=\"t").length = 11 := by decide
    omega
  simp only [stringifyNodes, htmlVisitAll, visit, hdiff, ne_eq, not_false_eq_true, if_true,
    _join, List.filter_cons, hpos, decide_True, List.filter_nil, join, Nat.zero_add]
  have h0 : toString 0 = "0" := by decide
  have h1 : toString 1 = "1" := by decide
  rw [h0, h1]
  simp only [String.append_assoc]
  rfl

theorem C24_element_with_interpolated_text_witness :
    stringifyNodes
        [sampleElement "b" [] [.HtmlTextAst "Hello \x7b\x7bname\x7d\x7d!" { id := 1 }]]
        sampleParser =
      "<ph name=\"e0\"><ph name=\"t1\">Hello <ph name=\"0\"/>!</ph></ph>" :=
  C24_element_with_interpolated_text sampleParser "b" [] "Hello \x7b\x7bname\x7d\x7d!"
    { id := 1 } { id := 2 } (by decide)

theorem join_cons (s : String) (rest : List String) :
    join "" (s :: rest) = s ++ join "" rest := by
  cases rest with
  | nil => simp [join]
  | cons t ts => simp [join]

theorem join_append (a b : List String) : join "" (a ++ b) = join "" a ++ join "" b := by
  induction a with
  | nil => simp [join]
  | cons s rest ih => simp only [List.cons_append, join_cons, ih, String.append_assoc]

theorem eq_empty_of_length (s : String) (h : ¬ s.length > 0) : s = "" := by
  have h0 : s.length = 0 := by omega
  have hd : s.data = [] := List.length_eq_zero.mp h0
  exact String.ext hd

theorem join_filter (l : List String) :
    join "" (l.filter (fun s => s.length > 0)) = join "" l := by
  induction l with
  | nil => rfl
  | cons s rest ih =>
    by_cases hs : s.length > 0
    · simp only [List.filter_cons, hs, decide_True, if_true, join_cons, ih]
    · have he := eq_empty_of_length s hs
      rw [List.filter_cons, if_neg (by simpa using hs), join_cons, ih, he]
      simp

theorem _join_eq_join (strs : List String) : _join strs "" = join "" strs :=
  join_filter strs

theorem htmlVisitAll_append (parser : Parser) (a b : List HtmlAst) (i : Nat) :
    htmlVisitAll parser (a ++ b) i =
      ((htmlVisitAll parser a i).1 ++ (htmlVisitAll parser b (htmlVisitAll parser a i).2).1,
        (htmlVisitAll parser b (htmlVisitAll parser a i).2).2) := by
  induction a generalizing i with
  | nil => simp [htmlVisitAll]
  | cons n rest ih => simp [htmlVisitAll, ih]

mutual
/-- The visitor renders a node as the spec does at the place given by the
counter, and moves the counter past the element and text nodes of the node. -/
theorem visit_eq_spec (parser : Parser) :
    ∀ (ast : HtmlAst) (i : Nat),
      visit parser ast i = (specRender parser i ast, i + (preorderOf ast).length)
  | .HtmlElementAst _ _ children _, i => by
    simp only [visit, specRender, preorderOf, htmlVisitAll_eq_spec parser children (i + 1),
      List.length_cons]
    simp [Nat.add_assoc, Nat.add_comm 1]
  | .HtmlTextAst value sourceSpan, i => by
    by_cases h : removeInterpolation value sourceSpan parser = value
    · simp [visit, specRender, preorderOf, h]
    · simp [visit, specRender, preorderOf, h]
  | .HtmlCommentAst _ _, i => by
    simp [visit, specRender, preorderOf]
theorem htmlVisitAll_eq_spec (parser : Parser) :
    ∀ (asts : List HtmlAst) (i : Nat),
      htmlVisitAll parser asts i =
        (specRenderAll parser i asts, i + (preorderAll asts).length)
  | [], i => by simp [htmlVisitAll, specRenderAll, preorderAll]
  | ast :: asts, i => by
    simp only [htmlVisitAll, specRenderAll, preorderAll, visit_eq_spec parser ast i,
      htmlVisitAll_eq_spec parser asts (i + (preorderOf ast).length), List.length_append]
    simp [Nat.add_assoc]
end

mutual
/-- Stripping the comments of a node changes neither the counter after its visit
nor the renderings that are not empty. -/
theorem visit_stripComment (parser : Parser) :
    ∀ (ast : HtmlAst) (i : Nat),
      (htmlVisitAll parser (stripComment ast) i).2 = (visit parser ast i).2 ∧
        join "" (htmlVisitAll parser (stripComment ast) i).1 = (visit parser ast i).1
  | .HtmlElementAst _ _ children _, i => by
    have h := htmlVisitAll_stripComments parser children (i + 1)
    simp only [stripComment, htmlVisitAll, visit, _join_eq_join, h.1, h.2, join_cons]
    simp [join]
  | .HtmlTextAst value sourceSpan, i => by
    simp only [stripComment, htmlVisitAll, join_cons]
    simp [join]
  | .HtmlCommentAst _ _, i => by
    simp [stripComment, htmlVisitAll, visit, join]
theorem htmlVisitAll_stripComments (parser : Parser) :
    ∀ (asts : List HtmlAst) (i : Nat),
      (htmlVisitAll parser (stripComments asts) i).2 = (htmlVisitAll parser asts i).2 ∧
        join "" (htmlVisitAll parser (stripComments asts) i).1 =
          join "" (htmlVisitAll parser asts i).1
  | [], i => by simp [stripComments]
  | ast :: asts, i => by
    have h1 := visit_stripComment parser ast i
    have h2 := htmlVisitAll_stripComments parser asts (visit parser ast i).2
    simp only [stripComments, htmlVisitAll_append, htmlVisitAll, join_append, join_cons,
      h1.1, h1.2, h2.1, h2.2]
    simp
end

/-- C26: comments are dropped by stringification: for every node list and
splitter, `stringifyNodes` of the list equals `stringifyNodes` of the list
without its comment nodes, at every depth. -/
theorem C26_comments_are_dropped (nodes : List HtmlAst) (parser : Parser) :
    stringifyNodes nodes parser = stringifyNodes (stripComments nodes) parser := by
  simp only [stringifyNodes, (htmlVisitAll_stripComments parser nodes 0).2]

mutual
/-- The rendering of a node contains, for each element and text node of its
tree, the rendering of that node at its place in the pre-order. -/
theorem specRender_contains (parser : Parser) :
    ∀ (ast : HtmlAst) (k j : Nat) (m : HtmlAst), (preorderOf ast)[j]? = some m →
      ∃ before after, specRender parser k ast = before ++ specRender parser (k + j) m ++ after
  | .HtmlElementAst name attrs children sourceSpan, k, j, m, hm => by
    cases j with
    | zero =>
      simp only [preorderOf, List.getElem?_cons_zero, Option.some.injEq] at hm
      subst hm
      exact ⟨"", "", by simp⟩
    | succ j =>
      simp only [preorderOf, List.getElem?_cons_succ] at hm
      obtain ⟨b, a, h⟩ := specRenderAll_contains parser children (k + 1) j m hm
      refine ⟨"<ph name=\"e" ++ toString k ++ "\">" ++ b, a ++ "</ph>", ?_⟩
      have hk : k + (j + 1) = k + 1 + j := by omega
      rw [hk]
      simp only [specRender, _join_eq_join, h, String.append_assoc]
  | .HtmlTextAst value sourceSpan, k, j, m, hm => by
    cases j with
    | zero =>
      simp only [preorderOf, List.getElem?_cons_zero, Option.some.injEq] at hm
      subst hm
      exact ⟨"", "", by simp⟩
    | succ j => simp [preorderOf] at hm
  | .HtmlCommentAst _ _, k, j, m, hm => by
    simp [preorderOf] at hm
theorem specRenderAll_contains (parser : Parser) :
    ∀ (asts : List HtmlAst) (k j : Nat) (m : HtmlAst), (preorderAll asts)[j]? = some m →
      ∃ before after,
        join "" (specRenderAll parser k asts) = before ++ specRender parser (k + j) m ++ after
  | [], k, j, m, hm => by simp [preorderAll] at hm
  | ast :: asts, k, j, m, hm => by
    simp only [preorderAll] at hm
    by_cases hj : j < (preorderOf ast).length
    · rw [List.getElem?_append_left hj] at hm
      obtain ⟨b, a, h⟩ := specRender_contains parser ast k j m hm
      refine ⟨b, a ++ join "" (specRenderAll parser (k + (preorderOf ast).length) asts), ?_⟩
      simp only [specRenderAll, join_cons, h, String.append_assoc]
    · rw [List.getElem?_append_right (by omega)] at hm
      obtain ⟨b, a, h⟩ := specRenderAll_contains parser asts (k + (preorderOf ast).length)
        (j - (preorderOf ast).length) m hm
      refine ⟨specRender parser k ast ++ b, a, ?_⟩
      have hk : k + (preorderOf ast).length + (j - (preorderOf ast).length) = k + j := by omega
      rw [hk] at h
      simp only [specRenderAll, join_cons, h, String.append_assoc]
end

/-- C25: for every node list, `stringifyNodes` numbers the nodes with one
counter that starts at 0 in each call and moves by one for every element and
every text node, in depth-first, left-to-right pre-order, a comment taking no
index: the result is the joined rendering of the spec from the place 0 on, the
counter ends at the number of element and text nodes, and the k-th element or
text node in pre-order occurs in the result rendered at the place `k`, which for
an element is the placeholder `e{k}` and for a text with interpolation the
placeholder `t{k}`. -/
theorem C25_indices_follow_the_preorder (nodes : List HtmlAst) (parser : Parser) :
    stringifyNodes nodes parser = join "" (specRenderAll parser 0 nodes) ∧
      (htmlVisitAll parser nodes 0).2 = (preorderAll nodes).length ∧
      (∀ k m, (preorderAll nodes)[k]? = some m →
        ∃ before after,
          stringifyNodes nodes parser = before ++ specRender parser k m ++ after) ∧
      (∀ k name attrs children sourceSpan,
        specRender parser k (.HtmlElementAst name attrs children sourceSpan) =
          "<ph name=\"e" ++ toString k ++ "\">"
            ++ _join (specRenderAll parser (k + 1) children) "" ++ "</ph>") ∧
      (∀ k value sourceSpan, removeInterpolation value sourceSpan parser ≠ value →
        specRender parser k (.HtmlTextAst value sourceSpan) =
          "<ph name=\"t" ++ toString k ++ "\">" ++ removeInterpolation value sourceSpan parser
            ++ "</ph>") ∧
      (∀ k value sourceSpan, removeInterpolation value sourceSpan parser = value →
        specRender parser k (.HtmlTextAst value sourceSpan) = value) := by
  have h1 : stringifyNodes nodes parser = join "" (specRenderAll parser 0 nodes) := by
    simp only [stringifyNodes, htmlVisitAll_eq_spec parser nodes 0]
  refine ⟨h1, ?_, ?_, ?_, ?_, ?_⟩
  · simp [htmlVisitAll_eq_spec parser nodes 0]
  · intro k m hm
    obtain ⟨b, a, h⟩ := specRenderAll_contains parser nodes 0 k m hm
    rw [Nat.zero_add] at h
    exact ⟨b, a, h1.trans h⟩
  · intro k name attrs children sourceSpan
    simp only [specRender]
  · intro k value sourceSpan hne
    simp [specRender, hne]
  · intro k value sourceSpan heq
    simp [specRender, heq]

theorem C25_indices_follow_the_preorder_witness :
    stringifyNodes
        [sampleComment "c", sampleText "plain",
          sampleElement "b" [] [sampleComment "d", sampleElement "i" [] [],
            .HtmlTextAst "Hello \x7b\x7bname\x7d\x7d!" { id := 1 }],
          .HtmlTextAst "Hello \x7b\x7bname\x7d\x7d!" { id := 1 }]
        sampleParser =
        "plain<ph name=\"e1\"><ph name=\"e2\"></ph><ph name=\"t3\">Hello <ph name=\"0\"/>!</ph></ph><ph name=\"t4\">Hello <ph name=\"0\"/>!</ph>" ∧
      ∃ before after,
        stringifyNodes
          [sampleComment "c", sampleText "plain",
            sampleElement "b" [] [sampleComment "d", sampleElement "i" [] [],
              .HtmlTextAst "Hello \x7b\x7bname\x7d\x7d!" { id := 1 }],
            .HtmlTextAst "Hello \x7b\x7bname\x7d\x7d!" { id := 1 }]
          sampleParser =
          before ++ specRender sampleParser 3
            (.HtmlTextAst "Hello \x7b\x7bname\x7d\x7d!" { id := 1 }) ++ after :=
  ⟨by decide,
    (C25_indices_follow_the_preorder
      [sampleComment "c", sampleText "plain",
        sampleElement "b" [] [sampleComment "d", sampleElement "i" [] [],
          .HtmlTextAst "Hello \x7b\x7bname\x7d\x7d!" { id := 1 }],
        .HtmlTextAst "Hello \x7b\x7bname\x7d\x7d!" { id := 1 }]
      sampleParser).2.2.1 3 (.HtmlTextAst "Hello \x7b\x7bname\x7d\x7d!" { id := 1 }) rfl⟩

theorem C26_comments_are_dropped_witness :
    stringifyNodes
        [sampleComment "c", sampleElement "b" [] [sampleComment "d", sampleText "x"]]
        sampleParser = "<ph name=\"e0\">x</ph>" ∧
      stringifyNodes [sampleElement "b" [] [sampleText "x"]] sampleParser =
        "<ph name=\"e0\">x</ph>" ∧
      stringifyNodes
        [sampleComment "c", sampleElement "b" [] [sampleComment "d", sampleText "x"]]
        sampleParser =
        stringifyNodes
          (stripComments
            [sampleComment "c", sampleElement "b" [] [sampleComment "d", sampleText "x"]])
          sampleParser :=
  ⟨by decide, by decide,
    C26_comments_are_dropped
      [sampleComment "c", sampleElement "b" [] [sampleComment "d", sampleText "x"]]
      sampleParser⟩

/-! ## The source span of a part -/

/-- On an opening comment directly followed by a closing comment `partition`
returns one Part with no children. -/
theorem partition_empty_run (ops : StringOps) (v : String) (span spanClose : ParseSourceSpan)
    (errors : List I18nError) (fuel : Nat) :
    partition ops (fuel + 2)
        [.HtmlCommentAst (.value ("i18n:" ++ v)) span,
          .HtmlCommentAst (.value "/i18n") spanClose] errors =
      some ([Part.mk none none (some []) (some (ops.trim v)) true], errors) := by
  have hclose : _isClosingComment (some (.HtmlCommentAst (.value "/i18n") spanClose)) = true := by
    simp [_isClosingComment]
  have hwhile := partitionWhile_closing span [] (.HtmlCommentAst (.value "/i18n") spanClose) []
    (by simp) hclose [.HtmlCommentAst (.value ("i18n:" ++ v)) span] [] errors (fuel + 1)
    (by simp)
  simp only [List.singleton_append, List.length_singleton, List.nil_append, List.append_nil,
    List.length_nil, List.map_nil, Nat.add_zero] at hwhile
  have hend : [HtmlAst.HtmlCommentAst (.value ("i18n:" ++ v)) span,
      HtmlAst.HtmlCommentAst (.value "/i18n") spanClose][1 + 1]? = none := rfl
  simp only [partition, partitionFor, List.getElem?_cons_zero, isOpeningComment_of_marker,
    Nat.zero_add, hwhile, hend, substring5_of_marker, List.nil_append]

/-- C33, at its failing input: on the node list of an opening comment directly
followed by the closing comment, `partition` returns one Part whose children are
empty, and reading `sourceSpan` of that Part is a `TypeError`: `children[0]` is
`undefined`. -/
theorem C33_empty_run_has_no_sourceSpan (ops : StringOps) (fuel : Nat) :
    partition ops (fuel + 2) [sampleComment "i18n: x", sampleComment "/i18n"] [] =
        some ([Part.mk none none (some []) (some (ops.trim " x")) true], []) ∧
      (Part.mk none none (some []) (some (ops.trim " x")) true).sourceSpan =
        .error .TypeError :=
  ⟨partition_empty_run ops " x" { id := 0 } { id := 0 } [] fuel, rfl⟩

/-! ## Termination of `partition` -/

theorem isOpeningComment_cases (n : HtmlAst) (h : _isOpeningComment n = true) :
    ∃ v span, n = .HtmlCommentAst (.value v) span := by
  cases n with
  | HtmlElementAst name attrs children sourceSpan => simp [_isOpeningComment] at h
  | HtmlTextAst value sourceSpan => simp [_isOpeningComment] at h
  | HtmlCommentAst value sourceSpan =>
    cases value with
    | undefined => simp [_isOpeningComment] at h
    | null => simp [_isOpeningComment] at h
    | value v => exact ⟨v, sourceSpan, rfl⟩

/-- Either no node of the list is a closing comment, or the list splits at its
first closing comment. -/
theorem split_at_first_closing (l : List HtmlAst) :
    (∀ x ∈ l, _isClosingComment (some x) = false) ∨
      ∃ xs c post, l = xs ++ c :: post ∧ (∀ x ∈ xs, _isClosingComment (some x) = false) ∧
        _isClosingComment (some c) = true := by
  induction l with
  | nil => exact Or.inl (by simp)
  | cons a l ih =>
    by_cases ha : _isClosingComment (some a) = true
    · exact Or.inr ⟨[], a, l, rfl, by simp, ha⟩
    · have ha2 : _isClosingComment (some a) = false := by simpa using ha
      rcases ih with h | ⟨xs, c, post, hl, hxs, hc⟩
      · left
        intro x hx
        rcases List.mem_cons.mp hx with h2 | h2
        · rw [h2]; exact ha2
        · exact h x h2
      · right
        refine ⟨a :: xs, c, post, by simp [hl], ?_, hc⟩
        intro x hx
        rcases List.mem_cons.mp hx with h2 | h2
        · rw [h2]; exact ha2
        · exact hxs x h2

theorem partitionFor_past_end (ops : StringOps) (nodes : List HtmlAst) (fuel i : Nat)
    (res : List Part) (errors : List I18nError) (hi : nodes.length ≤ i) :
    partitionFor ops nodes (fuel + 1) i res errors = some (res, errors) := by
  simp only [partitionFor, getElem?_of_length_le nodes i hi]

theorem exists_index_of_mem (l : List HtmlAst) (n : HtmlAst) (h : n ∈ l) :
    ∃ i, i < l.length ∧ l[i]? = some n := by
  obtain ⟨i, hi⟩ := List.mem_iff_getElem?.mp h
  exact ⟨i, (List.getElem?_eq_some.mp hi).1, hi⟩

theorem childrenInside_mono (l1 l2 : List HtmlAst) (part : Part)
    (hsub : ∀ x ∈ l1, x ∈ l2) (h : ChildrenInside l1 part) : ChildrenInside l2 part := by
  intro slots hslots
  obtain ⟨h1, h2⟩ := h slots hslots
  refine ⟨h1, ?_⟩
  intro hre hrt slot hslot
  obtain ⟨i, hi, hget⟩ := h2 hre hrt slot hslot
  have hmem : l1[i] ∈ l1 := List.getElem_mem hi
  have hsome : l1[i]? = some l1[i] := List.getElem?_eq_getElem hi
  obtain ⟨j, hj, hgetj⟩ := exists_index_of_mem l2 _ (hsub _ hmem)
  exact ⟨j, hj, by rw [hgetj, ← hget, hsome]⟩

theorem childrenInside_run (xs l : List HtmlAst) (i18n : Option String)
    (hsub : ∀ x ∈ xs, x ∈ l) :
    ChildrenInside l (Part.mk none none (some (xs.map some)) i18n true) := by
  intro slots hslots
  simp only [Option.some.injEq] at hslots
  subst hslots
  constructor
  · intro slot hslot
    obtain ⟨x, _, hx⟩ := List.mem_map.mp hslot
    rw [← hx]
    simp
  · intro _ _ slot hslot
    obtain ⟨x, hxm, hx⟩ := List.mem_map.mp hslot
    rw [← hx]
    exact exists_index_of_mem l x (hsub x hxm)

theorem childrenInside_specPartOf (l : List HtmlAst) (n : HtmlAst) (part : Part)
    (h : specPartOf n = some part) : ChildrenInside l part := by
  cases n with
  | HtmlElementAst name attrs children sourceSpan =>
    simp only [specPartOf, Option.some.injEq] at h
    subst h
    intro slots hslots
    simp only [Option.some.injEq] at hslots
    subst hslots
    constructor
    · intro slot hslot
      obtain ⟨x, _, hx⟩ := List.mem_map.mp hslot
      rw [← hx]
      simp
    · intro hre
      simp at hre
  | HtmlTextAst value sourceSpan =>
    simp only [specPartOf, Option.some.injEq] at h
    subst h
    intro slots hslots
    simp at hslots
  | HtmlCommentAst value sourceSpan => simp [specPartOf] at h

theorem lastNotOpening_tail (n : HtmlAst) (rest : List HtmlAst)
    (h : LastNotOpening (n :: rest)) : LastNotOpening rest := by
  intro m hm
  cases rest with
  | nil => simp at hm
  | cons a rest =>
    apply h m
    rw [List.getLast?_cons_cons]
    exact hm

theorem lastNotOpening_suffix (pre post : List HtmlAst) (h : LastNotOpening (pre ++ post)) :
    LastNotOpening post := by
  induction pre with
  | nil => exact h
  | cons a pre ih => exact ih (lastNotOpening_tail a _ h)

/-- From an index in front of nodes whose last one is no opening comment, the
`for` loop returns for every fuel above the number of those nodes, and the
children of every part it adds hold nodes of the list. -/
theorem partitionFor_returns (ops : StringOps) :
    ∀ (k : Nat) (rest : List HtmlAst), rest.length ≤ k → LastNotOpening rest →
      ∀ (pre : List HtmlAst) (res : List Part) (errors : List I18nError),
        ∃ parts errs,
          (∀ fuel, rest.length < fuel →
            partitionFor ops (pre ++ rest) fuel pre.length res errors =
              some (res ++ parts, errors ++ errs)) ∧
          ∀ part ∈ parts, ChildrenInside rest part := by
  intro k
  induction k with
  | zero =>
    intro rest hk _ pre res errors
    have hnil : rest = [] := List.length_eq_zero.mp (Nat.le_zero.mp hk)
    subst hnil
    refine ⟨[], [], ?_, by simp⟩
    intro fuel hf
    obtain ⟨f, rfl⟩ : ∃ f, fuel = f + 1 := ⟨fuel - 1, by simp at hf; omega⟩
    rw [partitionFor_past_end ops _ f _ res errors (by simp)]
    simp
  | succ k ih =>
    intro rest hk hlast pre res errors
    cases rest with
    | nil =>
      refine ⟨[], [], ?_, by simp⟩
      intro fuel hf
      obtain ⟨f, rfl⟩ : ∃ f, fuel = f + 1 := ⟨fuel - 1, by simp at hf; omega⟩
      rw [partitionFor_past_end ops _ f _ res errors (by simp)]
      simp
    | cons n rest =>
      have hget : (pre ++ n :: rest)[pre.length]? = some n :=
        getElem?_append_cons_length pre n rest
      have hk2 : rest.length ≤ k := by simp at hk; omega
      by_cases hopen : _isOpeningComment n = true
      · obtain ⟨v, span, hn⟩ := isOpeningComment_cases n hopen
        subst hn
        have hne : rest ≠ [] := by
          intro h
          subst h
          have h2 := hlast (HtmlAst.HtmlCommentAst (.value v) span) (by simp)
          rw [hopen] at h2
          cases h2
        rcases split_at_first_closing rest with hnc | ⟨xs, c, post, hsplit, hxs, hc⟩
        · refine ⟨[Part.mk none none (some (rest.map some))
              (some (ops.trim (String.mk (v.data.drop 5)))) true],
            [I18nError.mk span "Missing closing 'i18n' comment."], ?_, ?_⟩
          · intro fuel hf
            have hpos : 0 < rest.length := List.length_pos.mpr hne
            obtain ⟨f, rfl⟩ : ∃ f, fuel = f + 2 :=
              ⟨fuel - 2, by simp at hf; omega⟩
            have hwhile := partitionWhile_no_closing span rest hne hnc
              (pre ++ [.HtmlCommentAst (.value v) span]) [] errors (f + 1)
              (by simp at hf; omega)
            have hnodes : pre ++ [HtmlAst.HtmlCommentAst (.value v) span] ++ rest =
                pre ++ HtmlAst.HtmlCommentAst (.value v) span :: rest := by simp
            have hlen : (pre ++ [HtmlAst.HtmlCommentAst (.value v) span]).length =
                pre.length + 1 := by simp
            rw [hnodes, hlen] at hwhile
            simp only [List.nil_append] at hwhile
            have hend := partitionFor_past_end ops
              (pre ++ HtmlAst.HtmlCommentAst (.value v) span :: rest) f
              (pre.length + 1 + rest.length + 1)
              (res ++ [Part.mk none none (some (rest.map some))
                (some (ops.trim (String.mk (v.data.drop 5)))) true])
              (errors ++ [I18nError.mk span "Missing closing 'i18n' comment."])
              (by simp; omega)
            rw [partitionFor]
            simp only [hget, hopen, hwhile, hend, List.nil_append]
          · intro part hpart
            rw [List.mem_singleton.mp hpart]
            exact childrenInside_run rest _ _ (fun x hx => List.mem_cons_of_mem _ hx)
        · subst hsplit
          have hpostlen : post.length ≤ k := by
            simp at hk2
            omega
          have hlastpost : LastNotOpening post :=
            lastNotOpening_suffix (HtmlAst.HtmlCommentAst (.value v) span :: xs ++ [c]) post
              (by simpa using hlast)
          obtain ⟨parts, errs, hrun, hgood⟩ := ih post hpostlen hlastpost
            (pre ++ HtmlAst.HtmlCommentAst (.value v) span :: xs ++ [c])
            (res ++ [Part.mk none none (some (xs.map some))
              (some (ops.trim (String.mk (v.data.drop 5)))) true]) errors
          refine ⟨Part.mk none none (some (xs.map some))
              (some (ops.trim (String.mk (v.data.drop 5)))) true :: parts, errs, ?_, ?_⟩
          · intro fuel hf
            obtain ⟨f, rfl⟩ : ∃ f, fuel = f + 1 := ⟨fuel - 1, by simp at hf; omega⟩
            have hwhile := partitionWhile_closing span xs c post hxs hc
              (pre ++ [.HtmlCommentAst (.value v) span]) [] errors f
              (by simp at hf; omega)
            have hnodes : pre ++ [HtmlAst.HtmlCommentAst (.value v) span] ++ xs ++ c :: post =
                pre ++ HtmlAst.HtmlCommentAst (.value v) span :: (xs ++ c :: post) := by simp
            have hlen : (pre ++ [HtmlAst.HtmlCommentAst (.value v) span]).length =
                pre.length + 1 := by simp
            rw [hnodes, hlen] at hwhile
            simp only [List.nil_append] at hwhile
            have hrun2 := hrun f (by simp at hf; omega)
            have hnodes2 : pre ++ HtmlAst.HtmlCommentAst (.value v) span :: xs ++ [c] ++ post =
                pre ++ HtmlAst.HtmlCommentAst (.value v) span :: (xs ++ c :: post) := by simp
            have hlen2 : (pre ++ HtmlAst.HtmlCommentAst (.value v) span :: xs ++ [c]).length =
                pre.length + 1 + xs.length + 1 := by
              simp
              omega
            rw [hnodes2, hlen2] at hrun2
            rw [partitionFor]
            simp only [hget, hopen, hwhile, List.nil_append, hrun2, List.append_assoc,
              List.singleton_append]
          · intro part hpart
            rcases List.mem_cons.mp hpart with h | h
            · rw [h]
              exact childrenInside_run xs _ _
                (fun x hx => List.mem_cons_of_mem _ (List.mem_append_left _ hx))
            · exact childrenInside_mono post _ part
                (fun x hx => List.mem_cons_of_mem _
                  (List.mem_append_right _ (List.mem_cons_of_mem _ hx)))
                (hgood part h)
      · have hn : _isOpeningComment n = false := by simpa using hopen
        obtain ⟨parts, errs, hrun, hgood⟩ := ih rest hk2 (lastNotOpening_tail n rest hlast)
          (pre ++ [n]) (res ++ (specPartOf n).toList) errors
        refine ⟨(specPartOf n).toList ++ parts, errs, ?_, ?_⟩
        · intro fuel hf
          obtain ⟨f, rfl⟩ : ∃ f, fuel = f + 1 := ⟨fuel - 1, by simp at hf; omega⟩
          have hrun2 := hrun f (by simp at hf; omega)
          have hnodes : pre ++ [n] ++ rest = pre ++ n :: rest := by simp
          have hlen : (pre ++ [n]).length = pre.length + 1 := by simp
          rw [hnodes, hlen] at hrun2
          rw [partitionFor]
          cases n with
          | HtmlElementAst name attrs children sourceSpan =>
            simp only [hget]
            simp only [specPartOf, Option.toList] at hrun2
            simp only [findI18nAttr_eq_find, isSome_find_eq_any, hrun2, specPartOf,
              Option.toList, List.append_assoc]
          | HtmlTextAst value sourceSpan =>
            simp only [hget]
            simp only [specPartOf, Option.toList] at hrun2
            simp only [hrun2, specPartOf, Option.toList, List.append_assoc]
          | HtmlCommentAst value sourceSpan =>
            simp only [specPartOf, Option.toList, List.append_nil] at hrun2
            cases value with
            | undefined =>
              simp only [hget, hrun2, specPartOf, Option.toList, List.nil_append]
            | null =>
              simp only [hget, hrun2, specPartOf, Option.toList, List.nil_append]
            | value w =>
              simp only [hget, hn, hrun2, specPartOf, Option.toList, List.nil_append]
        · intro part hpart
          rcases List.mem_append.mp hpart with h | h
          · exact childrenInside_specPartOf _ n part (by
              cases hs : specPartOf n with
              | none => simp [hs] at h
              | some q =>
                simp only [hs, Option.toList, List.mem_singleton] at h
                rw [h])
          · exact childrenInside_mono rest _ part (fun x hx => List.mem_cons_of_mem _ hx)
              (hgood part h)

/-- C32: for every node list whose last node is no opening comment,
`partition` returns, for every fuel above the length of the list; in the
children of every Part it returns each slot holds a node, none is `undefined`,
and the nodes of a run between marker comments lie at indices inside the list.
The `while` loop reads no node past the end of the list: such a read would keep
the call from returning. -/
theorem C32_partition_terminates_inside_the_list (ops : StringOps) (nodes : List HtmlAst)
    (errors : List I18nError) (hlast : LastNotOpening nodes) :
    ∃ parts errs,
      (∀ fuel, nodes.length < fuel →
        partition ops fuel nodes errors = some (parts, errors ++ errs)) ∧
      (∀ part ∈ parts, ∀ slots, part.children = some slots →
        (∀ slot ∈ slots, slot ≠ none) ∧
          (part.rootElement = none → part.rootTextNode = none →
            ∀ slot ∈ slots, ∃ i, i < nodes.length ∧ nodes[i]? = slot)) ∧
      (∀ span fuel i temp errs2, nodes.length ≤ i →
        partitionWhile nodes span fuel i temp errs2 = none) := by
  obtain ⟨parts, errs, hrun, hgood⟩ :=
    partitionFor_returns ops nodes.length nodes (Nat.le_refl _) hlast [] [] errors
  refine ⟨parts, errs, ?_, ?_, ?_⟩
  · intro fuel hf
    have h := hrun fuel hf
    simpa [partition] using h
  · intro part hpart slots hslots
    exact hgood part hpart slots hslots
  · intro span fuel i temp errs2 hi
    exact partitionWhile_past_end nodes span fuel i temp errs2 hi

theorem C32_partition_terminates_inside_the_list_witness :
    partition sampleStringOps 6
        [sampleComment "i18n: a", sampleText "Hi", sampleComment "/i18n",
          sampleComment "i18n: b", sampleText "Ho"] [] =
        some ([Part.mk none none (some [some (sampleText "Hi")]) (some "a") true,
            Part.mk none none (some [some (sampleText "Ho")]) (some "b") true],
          [I18nError.mk { id := 0 } "Missing closing 'i18n' comment."]) ∧
      ∃ parts errs,
        (∀ fuel,
          [sampleComment "i18n: a", sampleText "Hi", sampleComment "/i18n",
            sampleComment "i18n: b", sampleText "Ho"].length < fuel →
          partition sampleStringOps fuel
            [sampleComment "i18n: a", sampleText "Hi", sampleComment "/i18n",
              sampleComment "i18n: b", sampleText "Ho"] [] = some (parts, [] ++ errs)) ∧
        (∀ part ∈ parts, ∀ slots, part.children = some slots →
          (∀ slot ∈ slots, slot ≠ none) ∧
            (part.rootElement = none → part.rootTextNode = none →
              ∀ slot ∈ slots, ∃ i,
                i < [sampleComment "i18n: a", sampleText "Hi", sampleComment "/i18n",
                  sampleComment "i18n: b", sampleText "Ho"].length ∧
                [sampleComment "i18n: a", sampleText "Hi", sampleComment "/i18n",
                  sampleComment "i18n: b", sampleText "Ho"][i]? = slot)) ∧
        (∀ span fuel i temp errs2,
          [sampleComment "i18n: a", sampleText "Hi", sampleComment "/i18n",
            sampleComment "i18n: b", sampleText "Ho"].length ≤ i →
          partitionWhile
            [sampleComment "i18n: a", sampleText "Hi", sampleComment "/i18n",
              sampleComment "i18n: b", sampleText "Ho"] span fuel i temp errs2 = none) :=
  ⟨rfl,
    C32_partition_terminates_inside_the_list sampleStringOps
      [sampleComment "i18n: a", sampleText "Hi", sampleComment "/i18n",
        sampleComment "i18n: b", sampleText "Ho"] []
      (by
        intro n hn
        have h2 : some (sampleText "Ho") = some n := hn
        cases h2
        rfl)⟩

end I18nShared
